import Mathlib

/-!
Verification of the zeno 2D path rasterizer against its specification.

The development shallowly embeds the relevant parts of the source:

* integer (i32) arithmetic of the scan-conversion rasterizer is modelled
  with `Int`, with explicit wrapping (`wrap32`) where the source uses
  wrapping operations, floor division for arithmetic right shifts and
  `Int.emod` for bit masks;
* `f32` arithmetic of the path / stroking layer is modelled with exact
  arithmetic: `ℚ` where the code is algebraic (SVG parsing, dash
  validation) and `ℝ` where square roots and trigonometry occur
  (stroking, joins, arcs);
* iterators are modelled as state machines (`next : State → Option (item × State)`)
  or as list producing functions with explicit fuel where the source loop
  bound is not structural.
-/

set_option maxRecDepth 10000

namespace Zeno

/-! ## i32 helpers -/

/-- Wrap an integer into the two's complement i32 range, as Rust wrapping ops do. -/
def wrap32 (v : Int) : Int := (v + 2 ^ 31) % 2 ^ 32 - 2 ^ 31

/-- i32 range predicate. -/
def isI32 (v : Int) : Prop := -(2 ^ 31) ≤ v ∧ v < 2 ^ 31

instance (v : Int) : Decidable (isI32 v) := by
  unfold isI32; infer_instance

theorem wrap32_eq_of_isI32 {v : Int} (h : isI32 v) : wrap32 v = v := by
  rcases h with ⟨h1, h2⟩
  unfold wrap32
  omega

/-! ## Fill rules (style.rs) -/

/-- Fill rule (source: style.rs, `enum Fill`). -/
inductive Fill where
  | nonZero
  | evenOdd
  deriving DecidableEq, Repr

/-! ## Coverage-to-byte conversion (raster.rs, `fn coverage`)

The source:
```
fn coverage(fill: Fill, mut coverage: i32) -> u8 {
    coverage >>= PIXEL_BITS * 2 + 1 - 8;            // = 9
    if fill == Fill::EvenOdd {
        coverage &= 511;
        if coverage >= 256 { coverage = 511i32.wrapping_sub(coverage); }
    } else {
        if coverage < 0 { coverage = !coverage; }
        if coverage >= 256 { coverage = 255; }
    }
    coverage as u8
}
```
Arithmetic right shift on i32 is floor division by `2^9` (for the positive
divisor, `Int.ediv` is floor division); `& 511` on a two's complement i32
is `emod 512`; `!coverage` is `-coverage - 1`; `as u8` keeps the low 8
bits (`emod 256`). -/
def coverage (fill : Fill) (c0 : Int) : Int :=
  let c1 := c0 / 2 ^ 9
  let r :=
    if fill = Fill.evenOdd then
      let c2 := c1 % 512
      if c2 ≥ 256 then wrap32 (511 - c2) else c2
    else
      let c2 := if c1 < 0 then -c1 - 1 else c1
      if c2 ≥ 256 then 255 else c2
  r % 256

/-- The claim's description of the conversion (C1, spec wording): shift right
by 9; EvenOdd: mask to 9 bits, mirror `v ≥ 256` via `511 - v`; NonZero:
NEGATE if negative, clamp to 255. -/
def coverageClaimC1 (fill : Fill) (c0 : Int) : Int :=
  let c1 := c0 / 2 ^ 9
  if fill = Fill.evenOdd then
    let c2 := c1 % 512
    if c2 ≥ 256 then 511 - c2 else c2
  else
    let c2 := if c1 < 0 then -c1 else c1
    if c2 ≥ 256 then 255 else c2

/-- The amended description: identical to the claim except that the NonZero
branch applies the i32 bitwise complement `!v = -v - 1` to negative values
(not arithmetic negation) before clamping to 255. -/
def coverageAmendedC1 (fill : Fill) (c0 : Int) : Int :=
  let c1 := c0 / 2 ^ 9
  if fill = Fill.evenOdd then
    let c2 := c1 % 512
    if c2 ≥ 256 then 511 - c2 else c2
  else
    let c2 := if c1 < 0 then -c1 - 1 else c1
    if c2 ≥ 256 then 255 else c2

/-- C1 (counterexample): at the i32 coverage input `-512` with the NonZero
fill rule the code produces byte 0, while the claim's "negate if negative,
clamp to 255" rule produces 1; so the claim does not hold for every i32
input. -/
theorem coverage_claimC1_counterexample :
    coverage Fill.nonZero (-512) = 0 ∧ coverageClaimC1 Fill.nonZero (-512) = 1 ∧
      isI32 (-512) := by
  refine ⟨?_, ?_, by decide⟩ <;> decide

/-- C1 (amended): for every i32 coverage input and both fill rules, the
coverage-to-byte conversion shifts the accumulated signed coverage right by
9 bits; for EvenOdd it masks to 9 bits and mirrors values ≥ 256 via
`511 - v`; for NonZero it applies the i32 bitwise complement (`!v = -v - 1`)
to negative values and clamps to 255. -/
theorem coverage_eq_amendedC1 (fill : Fill) (c0 : Int) (h : isI32 c0) :
    coverage fill c0 = coverageAmendedC1 fill c0 := by
  rcases h with ⟨h1, h2⟩
  rcases fill with _ | _ <;>
    simp only [coverage, coverageAmendedC1, wrap32, reduceCtorEq, if_false, if_true,
      reduceIte] <;>
    split_ifs <;>
    omega

/-- C1 (amended, witness): concrete instantiation of the theorem at the
i32 input 123456 with NonZero fill. -/
theorem coverage_eq_amendedC1_witness :
    coverage Fill.nonZero 123456 = coverageAmendedC1 Fill.nonZero 123456 :=
  coverage_eq_amendedC1 Fill.nonZero 123456 (by decide)

/-! ## Commands and verbs (command.rs) -/

/-- 2D point with exact rational coordinates (source: geometry.rs `Vector`,
an `f32` pair; modelled exactly). -/
structure Vec2 where
  x : ℚ
  y : ℚ
  deriving DecidableEq, Repr

/-- Path command (source: command.rs, `enum Command`). -/
inductive Command where
  | moveTo (p : Vec2)
  | lineTo (p : Vec2)
  | curveTo (c1 c2 p : Vec2)
  | quadTo (c p : Vec2)
  | close
  deriving DecidableEq, Repr

/-- Verb tag (source: command.rs, `enum Verb`). -/
inductive Verb where
  | moveTo
  | lineTo
  | curveTo
  | quadTo
  | close
  deriving DecidableEq, Repr

/-- Source: command.rs, `Command::verb`. Note the `Close => Verb::CurveTo`
arm. -/
def Command.verb : Command → Verb
  | .moveTo _ => Verb.moveTo
  | .lineTo _ => Verb.lineTo
  | .quadTo _ _ => Verb.quadTo
  | .curveTo _ _ _ => Verb.curveTo
  | .close => Verb.curveTo

/-- The points consumed by one command in the parallel-array representation
(`points[]` stores, in order, control points then end point). -/
def Command.points : Command → List Vec2
  | .moveTo p => [p]
  | .lineTo p => [p]
  | .quadTo c p => [c, p]
  | .curveTo c1 c2 p => [c1, c2, p]
  | .close => []

/-- One step of the `PointsCommands` iterator (source: command.rs,
`impl Iterator for PointsCommands`), consuming from the front of the
remaining point list. Returns `none` when the verb's points are missing. -/
def pointsCommandsStep : Verb → List Vec2 → Option (Command × List Vec2)
  | Verb.moveTo, p :: rest => some (Command.moveTo p, rest)
  | Verb.lineTo, p :: rest => some (Command.lineTo p, rest)
  | Verb.quadTo, c :: p :: rest => some (Command.quadTo c p, rest)
  | Verb.curveTo, c1 :: c2 :: p :: rest => some (Command.curveTo c1 c2 p, rest)
  | Verb.close, rest => some (Command.close, rest)
  | _, _ => none

/-- Collecting the `PointsCommands` iterator: iteration stops at the first
verb whose points are missing. -/
def pointsCommandsList : List Verb → List Vec2 → List Command
  | [], _ => []
  | v :: vs, pts =>
    match pointsCommandsStep v pts with
    | none => []
    | some (c, rest) => c :: pointsCommandsList vs rest

theorem pointsCommandsStep_close_of_no_close {v : Verb} {pts : List Vec2}
    {c : Command} {rest : List Vec2} (hv : v ≠ Verb.close)
    (h : pointsCommandsStep v pts = some (c, rest)) : c ≠ Command.close := by
  intro hc
  subst hc
  rcases v with _ | _ | _ | _ | _ <;>
    first
      | exact hv rfl
      | (rcases pts with _ | ⟨p, _ | ⟨q, _ | ⟨s, r⟩⟩⟩ <;> simp [pointsCommandsStep] at h)

theorem pointsCommandsList_no_close (vs : List Verb) (pts : List Vec2)
    (hv : Verb.close ∉ vs) : Command.close ∉ pointsCommandsList vs pts := by
  induction vs generalizing pts with
  | nil => simp [pointsCommandsList]
  | cons v vs ih =>
    have hvne : v ≠ Verb.close := fun h => hv (h ▸ List.mem_cons_self v vs)
    have hvs : Verb.close ∉ vs := fun h => hv (List.mem_cons_of_mem v h)
    simp only [pointsCommandsList]
    cases hstep : pointsCommandsStep v pts with
    | none => simp
    | some cr =>
      rcases cr with ⟨c, rest⟩
      intro hmem
      rcases List.mem_cons.mp hmem with h | h
      · exact pointsCommandsStep_close_of_no_close hvne hstep h.symm
      · exact ih rest hvs h

theorem verb_ne_close (c : Command) : c.verb ≠ Verb.close := by
  cases c <;> simp [Command.verb]

/-- C10: `Command::verb` maps MoveTo, LineTo, QuadTo and CurveTo to the
matching verb but maps `Close` to `Verb::CurveTo`; consequently, converting
any command sequence that contains `Close` into the parallel
`(points, verbs)` representation via `verb()` and decoding it back never
recovers the original sequence (the decoded sequence contains no `Close`
at all). -/
theorem command_verb_close_no_roundtrip :
    (∀ p, (Command.moveTo p).verb = Verb.moveTo) ∧
    (∀ p, (Command.lineTo p).verb = Verb.lineTo) ∧
    (∀ c p, (Command.quadTo c p).verb = Verb.quadTo) ∧
    (∀ c1 c2 p, (Command.curveTo c1 c2 p).verb = Verb.curveTo) ∧
    Command.close.verb = Verb.curveTo ∧
    (∀ cmds : List Command, Command.close ∈ cmds →
      pointsCommandsList (cmds.map Command.verb) (cmds.flatMap Command.points) ≠ cmds) := by
  refine ⟨fun _ => rfl, fun _ => rfl, fun _ _ => rfl, fun _ _ _ => rfl, rfl, ?_⟩
  intro cmds hmem heq
  have hnoclose : Verb.close ∉ cmds.map Command.verb := by
    intro h
    rcases List.mem_map.mp h with ⟨c, _, hc⟩
    exact verb_ne_close c hc
  exact pointsCommandsList_no_close _ _ hnoclose (heq ▸ hmem)

/-- C10 (witness): the concrete sequence `[MoveTo (1,2), Close]` does not
round-trip through the parallel representation. -/
theorem command_verb_close_no_roundtrip_witness :
    Command.close ∈ [Command.moveTo ⟨1, 2⟩, Command.close] ∧
    pointsCommandsList
        ([Command.moveTo ⟨1, 2⟩, Command.close].map Command.verb)
        ([Command.moveTo ⟨1, 2⟩, Command.close].flatMap Command.points) ≠
      [Command.moveTo ⟨1, 2⟩, Command.close] :=
  ⟨by decide,
   command_verb_close_no_roundtrip.2.2.2.2.2 [Command.moveTo ⟨1, 2⟩, Command.close]
     (by decide)⟩


/-! ## SVG path data parser (svg_parser.rs)

Byte-level model of `SvgCommands` / `validate_svg`. Bytes are `Nat`
values; `f32` number parsing is modelled by exact rational decimal
parsing (the parsed grammar has no exponents; every value in the claims
is an integer, exactly representable in `f32`).

The `A`/`a` arms construct the arc-to-cubic iterator
(path_builder.rs `Arc`), whose expansion uses `f32` trigonometry; the
parser model is therefore parameterized by that expansion
(`arcNew : ArcArgs → List Command`), and every theorem below quantifies
over it — no parsed input in the claims contains an arc command, so the
results hold for every expansion. -/

/-- Parser state tag (source: svg_parser.rs, `enum State`). -/
inductive PState where
  | initial
  | next
  | cont (cmd : Nat)
  deriving DecidableEq, Repr

/-- Arguments captured by the `A`/`a` arms and handed to `Arc::new`
(angle kept in degrees; the source converts with `to_radians` inside the
call). `size` is true for `ArcSize::Large`, `sweep` for
`ArcSweep::Positive`. -/
structure ArcArgs where
  from_ : Vec2
  rx : ℚ
  ry : ℚ
  angleDeg : ℚ
  size : Bool
  sweep : Bool
  toP : Vec2

/-- Parser state (source: svg_parser.rs, `struct SvgCommands`). The `arc`
field holds the not-yet-emitted commands of the pending arc expansion. -/
structure SvgState where
  buf : List Nat
  cur : Nat
  pos : Nat
  cmdPos : Nat
  error : Bool
  done : Bool
  startPoint : Vec2
  curPoint : Vec2
  lastControl : Vec2
  lastCmd : Nat
  pstate : PState
  arc : List Command
  deriving Repr

/-- Source: svg_parser.rs, `SvgCommands::new`. -/
def svgInit (source : List Nat) : SvgState where
  buf := source
  cur := 0
  pos := 0
  cmdPos := 0
  error := false
  done := false
  startPoint := ⟨0, 0⟩
  curPoint := ⟨0, 0⟩
  lastControl := ⟨0, 0⟩
  lastCmd := 0
  pstate := PState.initial
  arc := []

/-- Source: svg_parser.rs, `advance`. -/
def SvgState.advance (s : SvgState) : SvgState :=
  if s.pos = s.buf.length then { s with done := true, cur := 0 }
  else { s with cur := s.buf.getD s.pos 0, pos := s.pos + 1 }

/-- Whitespace set accepted by the parser (0x09, 0x20, 0x0A, 0x0C, 0x0D). -/
def isWsByte (b : Nat) : Bool := b = 0x9 || b = 0x20 || b = 0xA || b = 0xC || b = 0xD

def skipWsAux : Nat → SvgState → SvgState
  | 0, s => s
  | fuel + 1, s => if isWsByte s.cur then skipWsAux fuel s.advance else s

/-- Source: svg_parser.rs, `skip_whitespace`. -/
def SvgState.skipWs (s : SvgState) : SvgState := skipWsAux (s.buf.length + 2) s

/-- Source: svg_parser.rs, `skip_comma_whitespace`. -/
def SvgState.skipCommaWs (s : SvgState) : SvgState :=
  let s := s.skipWs
  if s.cur = 44 then s.advance.skipWs else s

def isDigitByte (b : Nat) : Bool := 48 ≤ b && b ≤ 57

/-- Value of a digit string, most significant first. -/
def digitsVal (ds : List Nat) : ℚ := ((ds.foldl (fun a d => a * 10 + (d - 48)) 0 : ℕ) : ℚ)

/-- Exact model of `str::parse::<f32>` restricted to the strings the
number collector can produce (digits with at most one interior dot):
fails on the empty string and on a lone dot. -/
def parseDecimal (bs : List Nat) : Option ℚ :=
  let ip := bs.takeWhile isDigitByte
  let rest := bs.drop ip.length
  match rest with
  | [] => if ip.isEmpty then none else some (digitsVal ip)
  | _ :: fp =>
    if ip.isEmpty && fp.isEmpty then none
    else some (digitsVal ip + digitsVal fp / 10 ^ fp.length)

/-- The digit/dot collection loop of `number`, including the 32-byte local
buffer limit (exceeding it aborts the number with `None`). -/
def numberLoop : Nat → SvgState → List Nat → Bool → Option (List Nat) × SvgState
  | 0, s, acc, _ => (some acc, s)
  | fuel + 1, s, acc, hasDecimal =>
    if s.cur = 46 then
      if hasDecimal then (some acc, s)
      else if 32 ≤ acc.length then (none, s)
      else numberLoop fuel s.advance (acc ++ [46]) true
    else if isDigitByte s.cur then
      if 32 ≤ acc.length then (none, s)
      else numberLoop fuel s.advance (acc ++ [s.cur]) hasDecimal
    else (some acc, s)

/-- Source: svg_parser.rs, `number`. -/
def SvgState.number (s : SvgState) : Option ℚ × SvgState :=
  match numberLoop (s.buf.length + 2) s [] false with
  | (none, s1) => (none, s1)
  | (some acc, s1) =>
    match parseDecimal acc with
    | none => (none, s1)
    | some q => (some q, s1)

/-- Source: svg_parser.rs, `coord`. -/
def SvgState.coord (s : SvgState) : Option ℚ × SvgState :=
  if s.cur = 43 then s.advance.number
  else if s.cur = 45 then
    match s.advance.number with
    | (none, s1) => (none, s1)
    | (some q, s1) => (some (-q), s1)
  else s.number

/-- Source: svg_parser.rs, `boolean`. -/
def SvgState.boolean (s : SvgState) : Option Bool × SvgState :=
  if s.cur = 48 then (some false, s.advance)
  else if s.cur = 49 then (some true, s.advance)
  else (none, s)

/-- Source: svg_parser.rs, `point`. -/
def SvgState.point (s : SvgState) : Option Vec2 × SvgState :=
  match s.coord with
  | (none, s1) => (none, s1)
  | (some a, s1) =>
    match s1.skipCommaWs.coord with
    | (none, s2) => (none, s2)
    | (some b, s2) => (some ⟨a, b⟩, s2)

/-- Source: svg_parser.rs, `point_to`. -/
def SvgState.pointTo (s : SvgState) : Option Vec2 × SvgState :=
  match s.point with
  | (none, s1) => (none, s1)
  | (some p, s1) => (some p, { s1 with curPoint := p })

/-- Source: svg_parser.rs, `rel_point`. -/
def SvgState.relPoint (s : SvgState) : Option Vec2 × SvgState :=
  match s.point with
  | (none, s1) => (none, s1)
  | (some p, s1) => (some ⟨p.x + s1.curPoint.x, p.y + s1.curPoint.y⟩, s1)

/-- Source: svg_parser.rs, `rel_point_to`. -/
def SvgState.relPointTo (s : SvgState) : Option Vec2 × SvgState :=
  match s.relPoint with
  | (none, s1) => (none, s1)
  | (some p, s1) => (some p, { s1 with curPoint := p })

/-- Source: svg_parser.rs, `two_points_to`. -/
def SvgState.twoPointsTo (s : SvgState) : Option (Vec2 × Vec2) × SvgState :=
  match s.point with
  | (none, s1) => (none, s1)
  | (some a, s1) =>
    match s1.skipCommaWs.pointTo with
    | (none, s2) => (none, s2)
    | (some b, s2) => (some (a, b), s2)

/-- Source: svg_parser.rs, `two_points`. -/
def SvgState.twoPoints (s : SvgState) : Option (Vec2 × Vec2) × SvgState :=
  match s.point with
  | (none, s1) => (none, s1)
  | (some a, s1) =>
    match s1.skipCommaWs.point with
    | (none, s2) => (none, s2)
    | (some b, s2) => (some (a, b), s2)

/-- Source: svg_parser.rs, `rel_two_points_to`. -/
def SvgState.relTwoPointsTo (s : SvgState) : Option (Vec2 × Vec2) × SvgState :=
  match s.relPoint with
  | (none, s1) => (none, s1)
  | (some a, s1) =>
    match s1.skipCommaWs.relPointTo with
    | (none, s2) => (none, s2)
    | (some b, s2) => (some (a, b), s2)

/-- Source: svg_parser.rs, `rel_two_points`. -/
def SvgState.relTwoPoints (s : SvgState) : Option (Vec2 × Vec2) × SvgState :=
  match s.relPoint with
  | (none, s1) => (none, s1)
  | (some a, s1) =>
    match s1.skipCommaWs.relPoint with
    | (none, s2) => (none, s2)
    | (some b, s2) => (some (a, b), s2)

/-- Source: svg_parser.rs, `three_points_to`. -/
def SvgState.threePointsTo (s : SvgState) : Option (Vec2 × Vec2 × Vec2) × SvgState :=
  match s.point with
  | (none, s1) => (none, s1)
  | (some a, s1) =>
    match s1.skipCommaWs.point with
    | (none, s2) => (none, s2)
    | (some b, s2) =>
      match s2.skipCommaWs.pointTo with
      | (none, s3) => (none, s3)
      | (some c, s3) => (some (a, b, c), s3)

/-- Source: svg_parser.rs, `rel_three_points_to`. -/
def SvgState.relThreePointsTo (s : SvgState) : Option (Vec2 × Vec2 × Vec2) × SvgState :=
  match s.relPoint with
  | (none, s1) => (none, s1)
  | (some a, s1) =>
    match s1.skipCommaWs.relPoint with
    | (none, s2) => (none, s2)
    | (some b, s2) =>
      match s2.skipCommaWs.relPointTo with
      | (none, s3) => (none, s3)
      | (some c, s3) => (some (a, b, c), s3)

/-- Source: svg_parser.rs, `reflected_control`. -/
def SvgState.reflectedControl (s : SvgState) (cmd : Nat) : Vec2 :=
  let cur := s.curPoint
  let old := s.lastControl
  if cmd = 83 ∨ cmd = 115 then
    if s.lastCmd = 67 ∨ s.lastCmd = 99 ∨ s.lastCmd = 83 ∨ s.lastCmd = 115 then
      ⟨2 * cur.x - old.x, 2 * cur.y - old.y⟩
    else s.curPoint
  else
    if s.lastCmd = 81 ∨ s.lastCmd = 113 ∨ s.lastCmd = 84 ∨ s.lastCmd = 116 then
      ⟨2 * cur.x - old.x, 2 * cur.y - old.y⟩
    else s.curPoint

/-- Source: svg_parser.rs, `arc_arguments`. -/
def SvgState.arcArguments (s : SvgState) (rel : Bool) :
    Option (ℚ × ℚ × ℚ × Bool × Bool × Vec2) × SvgState :=
  match s.coord with
  | (none, s1) => (none, s1)
  | (some rx, s1) =>
    match s1.skipCommaWs.coord with
    | (none, s2) => (none, s2)
    | (some ry, s2) =>
      match s2.skipCommaWs.coord with
      | (none, s3) => (none, s3)
      | (some a, s3) =>
        match s3.skipCommaWs.boolean with
        | (none, s4) => (none, s4)
        | (some largeArc, s4) =>
          match s4.skipCommaWs.boolean with
          | (none, s5) => (none, s5)
          | (some sweep, s5) =>
            match (if rel then s5.skipCommaWs.relPointTo else s5.skipCommaWs.pointTo) with
            | (none, s6) => (none, s6)
            | (some toP, s6) => (some (rx, ry, a, largeArc, sweep, toP), s6)

/-- Source: svg_parser.rs, `arc_rest_arguments`. -/
def SvgState.arcRestArguments (s : SvgState) (rel : Bool) :
    Option (ℚ × ℚ × Bool × Bool × Vec2) × SvgState :=
  match s.coord with
  | (none, s1) => (none, s1)
  | (some ry, s1) =>
    match s1.skipCommaWs.coord with
    | (none, s2) => (none, s2)
    | (some a, s2) =>
      match s2.skipCommaWs.boolean with
      | (none, s3) => (none, s3)
      | (some largeArc, s3) =>
        match s3.skipCommaWs.boolean with
        | (none, s4) => (none, s4)
        | (some sweep, s4) =>
          match (if rel then s4.skipCommaWs.relPointTo else s4.skipCommaWs.pointTo) with
          | (none, s5) => (none, s5)
          | (some toP, s5) => (some (ry, a, largeArc, sweep, toP), s5)

/-- The main parser loop (source: svg_parser.rs, `parse`), with fuel for
the outer `loop` and the pending arc commands modelled as a list produced
by the `arcNew` parameter. Returns the produced command (if any) together
with the updated state. -/
def parseLoop (arcNew : ArcArgs → List Command) :
    Nat → Nat → SvgState → Option Command × SvgState
  | 0, _, s => (none, s)
  | fuel + 1, cmd0, s =>
    match s.arc with
    | c :: rest => (some c, { s with arc := rest })
    | [] =>
      let s := { s with lastCmd := cmd0 }
      match s.pstate with
      | PState.initial =>
        parseLoop arcNew fuel cmd0 { s.advance.skipWs with pstate := PState.next }
      | PState.next =>
        let s := s.skipWs
        let s := { s with cmdPos := s.pos }
        let cmd := s.cur
        let s := s.advance.skipWs
        let s := { s with pstate := PState.cont cmd }
        if cmd = 122 ∨ cmd = 90 then
          (some Command.close, { s with pstate := PState.next, curPoint := s.startPoint })
        else if cmd = 77 then
          match s.pointTo with
          | (none, s1) => (none, s1)
          | (some toP, s1) =>
            (some (Command.moveTo toP), { s1 with startPoint := toP }.skipCommaWs)
        else if cmd = 109 then
          match s.relPointTo with
          | (none, s1) => (none, s1)
          | (some toP, s1) =>
            (some (Command.moveTo toP), { s1 with startPoint := toP }.skipCommaWs)
        else if cmd = 76 then
          match s.pointTo with
          | (none, s1) => (none, s1)
          | (some toP, s1) => (some (Command.lineTo toP), s1.skipCommaWs)
        else if cmd = 108 then
          match s.relPointTo with
          | (none, s1) => (none, s1)
          | (some toP, s1) => (some (Command.lineTo toP), s1.skipCommaWs)
        else if cmd = 72 then
          match s.coord with
          | (none, s1) => (none, s1)
          | (some x, s1) =>
            let toP : Vec2 := ⟨x, s1.curPoint.y⟩
            (some (Command.lineTo toP), { s1 with curPoint := toP }.skipCommaWs)
        else if cmd = 104 then
          match s.coord with
          | (none, s1) => (none, s1)
          | (some x, s1) =>
            let toP : Vec2 := ⟨s1.curPoint.x + x, s1.curPoint.y⟩
            (some (Command.lineTo toP), { s1 with curPoint := toP }.skipCommaWs)
        else if cmd = 86 then
          match s.coord with
          | (none, s1) => (none, s1)
          | (some y, s1) =>
            let toP : Vec2 := ⟨s1.curPoint.x, y⟩
            (some (Command.lineTo toP), { s1 with curPoint := toP }.skipCommaWs)
        else if cmd = 118 then
          match s.coord with
          | (none, s1) => (none, s1)
          | (some y, s1) =>
            let toP : Vec2 := ⟨s1.curPoint.x, s1.curPoint.y + y⟩
            (some (Command.lineTo toP), { s1 with curPoint := toP }.skipCommaWs)
        else if cmd = 67 then
          match s.threePointsTo with
          | (none, s1) => (none, s1)
          | (some (c1, c2, toP), s1) =>
            (some (Command.curveTo c1 c2 toP), { s1 with lastControl := c2 }.skipCommaWs)
        else if cmd = 99 then
          match s.relThreePointsTo with
          | (none, s1) => (none, s1)
          | (some (c1, c2, toP), s1) =>
            (some (Command.curveTo c1 c2 toP), { s1 with lastControl := c2 }.skipCommaWs)
        else if cmd = 83 then
          match s.twoPoints with
          | (none, s1) => (none, s1)
          | (some (c2, toP), s1) =>
            let c1 := s1.reflectedControl cmd
            (some (Command.curveTo c1 c2 toP),
              { s1 with curPoint := toP, lastControl := c2 }.skipCommaWs)
        else if cmd = 115 then
          match s.relTwoPoints with
          | (none, s1) => (none, s1)
          | (some (c2, toP), s1) =>
            let c1 := s1.reflectedControl cmd
            (some (Command.curveTo c1 c2 toP),
              { s1 with curPoint := toP, lastControl := c2 }.skipCommaWs)
        else if cmd = 81 then
          match s.twoPointsTo with
          | (none, s1) => (none, s1)
          | (some (c, toP), s1) =>
            (some (Command.quadTo c toP), { s1 with lastControl := c }.skipCommaWs)
        else if cmd = 113 then
          match s.relTwoPointsTo with
          | (none, s1) => (none, s1)
          | (some (c, toP), s1) =>
            (some (Command.quadTo c toP), { s1 with lastControl := c }.skipCommaWs)
        else if cmd = 84 then
          match s.point with
          | (none, s1) => (none, s1)
          | (some toP, s1) =>
            let c := s1.reflectedControl cmd
            (some (Command.quadTo c toP),
              { s1 with curPoint := toP, lastControl := c }.skipCommaWs)
        else if cmd = 116 then
          match s.relPoint with
          | (none, s1) => (none, s1)
          | (some toP, s1) =>
            let c := s1.reflectedControl cmd
            (some (Command.quadTo c toP),
              { s1 with curPoint := toP, lastControl := c }.skipCommaWs)
        else if cmd = 65 then
          let fromP := s.curPoint
          match s.arcArguments false with
          | (none, s1) => (none, s1)
          | (some (rx, ry, a, size, sweep, toP), s1) =>
            parseLoop arcNew fuel cmd
              { s1.skipCommaWs with arc := arcNew ⟨fromP, rx, ry, a, size, sweep, toP⟩ }
        else if cmd = 97 then
          let fromP := s.curPoint
          match s.arcArguments true with
          | (none, s1) => (none, s1)
          | (some (rx, ry, a, size, sweep, toP), s1) =>
            parseLoop arcNew fuel cmd
              { s1.skipCommaWs with arc := arcNew ⟨fromP, rx, ry, a, size, sweep, toP⟩ }
        else
          if !s.done || cmd ≠ 0 then
            (none, { s with error := true, pos := s.cmdPos })
          else (none, s)
      | PState.cont cmd =>
        if cmd = 77 then
          match s.pointTo with
          | (none, s1) => parseLoop arcNew fuel cmd0 { s1 with pstate := PState.next }
          | (some toP, s1) => (some (Command.lineTo toP), s1.skipCommaWs)
        else if cmd = 109 then
          match s.relPointTo with
          | (none, s1) => parseLoop arcNew fuel cmd0 { s1 with pstate := PState.next }
          | (some toP, s1) => (some (Command.lineTo toP), s1.skipCommaWs)
        else if cmd = 76 then
          match s.pointTo with
          | (none, s1) => parseLoop arcNew fuel cmd0 { s1 with pstate := PState.next }
          | (some toP, s1) => (some (Command.lineTo toP), s1.skipCommaWs)
        else if cmd = 108 then
          match s.relPointTo with
          | (none, s1) => parseLoop arcNew fuel cmd0 { s1 with pstate := PState.next }
          | (some toP, s1) => (some (Command.lineTo toP), s1.skipCommaWs)
        else if cmd = 72 then
          match s.coord with
          | (none, s1) => parseLoop arcNew fuel cmd0 { s1 with pstate := PState.next }
          | (some x, s1) =>
            let toP : Vec2 := ⟨x, s1.curPoint.y⟩
            (some (Command.lineTo toP), { s1 with curPoint := toP }.skipCommaWs)
        else if cmd = 104 then
          match s.coord with
          | (none, s1) => parseLoop arcNew fuel cmd0 { s1 with pstate := PState.next }
          | (some x, s1) =>
            let toP : Vec2 := ⟨s1.curPoint.x + x, s1.curPoint.y⟩
            (some (Command.lineTo toP), { s1 with curPoint := toP }.skipCommaWs)
        else if cmd = 86 then
          match s.coord with
          | (none, s1) => parseLoop arcNew fuel cmd0 { s1 with pstate := PState.next }
          | (some y, s1) =>
            let toP : Vec2 := ⟨s1.curPoint.x, y⟩
            (some (Command.lineTo toP), { s1 with curPoint := toP }.skipCommaWs)
        else if cmd = 118 then
          match s.coord with
          | (none, s1) => parseLoop arcNew fuel cmd0 { s1 with pstate := PState.next }
          | (some y, s1) =>
            let toP : Vec2 := ⟨s1.curPoint.x, s1.curPoint.y + y⟩
            (some (Command.lineTo toP), { s1 with curPoint := toP }.skipCommaWs)
        else if cmd = 67 then
          match s.point with
          | (none, s1) => parseLoop arcNew fuel cmd0 { s1 with pstate := PState.next }
          | (some c1, s1) =>
            match s1.skipCommaWs.twoPointsTo with
            | (none, s2) => (none, s2)
            | (some (c2, toP), s2) =>
              (some (Command.curveTo c1 c2 toP), { s2 with lastControl := c2 }.skipCommaWs)
        else if cmd = 99 then
          match s.relPoint with
          | (none, s1) => parseLoop arcNew fuel cmd0 { s1 with pstate := PState.next }
          | (some c1, s1) =>
            match s1.skipCommaWs.relTwoPointsTo with
            | (none, s2) => (none, s2)
            | (some (c2, toP), s2) =>
              (some (Command.curveTo c1 c2 toP), { s2 with lastControl := c2 }.skipCommaWs)
        else if cmd = 83 then
          match s.point with
          | (none, s1) => parseLoop arcNew fuel cmd0 { s1 with pstate := PState.next }
          | (some c2, s1) =>
            match s1.skipCommaWs.point with
            | (none, s2) => (none, s2)
            | (some toP, s2) =>
              let c1 := s2.reflectedControl cmd
              (some (Command.curveTo c1 c2 toP),
                { s2 with curPoint := toP, lastControl := c2 }.skipCommaWs)
        else if cmd = 115 then
          match s.relPoint with
          | (none, s1) => parseLoop arcNew fuel cmd0 { s1 with pstate := PState.next }
          | (some c2, s1) =>
            match s1.skipCommaWs.relPoint with
            | (none, s2) => (none, s2)
            | (some toP, s2) =>
              let c1 := s2.reflectedControl cmd
              (some (Command.curveTo c1 c2 toP),
                { s2 with curPoint := toP, lastControl := c2 }.skipCommaWs)
        else if cmd = 81 then
          match s.point with
          | (none, s1) => parseLoop arcNew fuel cmd0 { s1 with pstate := PState.next }
          | (some c, s1) =>
            let s1 := { s1 with lastControl := c }
            match s1.skipCommaWs.pointTo with
            | (none, s2) => (none, s2)
            | (some toP, s2) => (some (Command.quadTo c toP), s2.skipCommaWs)
        else if cmd = 113 then
          match s.relPoint with
          | (none, s1) => parseLoop arcNew fuel cmd0 { s1 with pstate := PState.next }
          | (some c, s1) =>
            let s1 := { s1 with lastControl := c }
            match s1.skipCommaWs.relPointTo with
            | (none, s2) => (none, s2)
            | (some toP, s2) => (some (Command.quadTo c toP), s2.skipCommaWs)
        else if cmd = 84 then
          match s.point with
          | (none, s1) => parseLoop arcNew fuel cmd0 { s1 with pstate := PState.next }
          | (some toP, s1) =>
            let c := s1.reflectedControl cmd
            (some (Command.quadTo c toP),
              { s1 with curPoint := toP, lastControl := c }.skipCommaWs)
        else if cmd = 116 then
          match s.relPoint with
          | (none, s1) => parseLoop arcNew fuel cmd0 { s1 with pstate := PState.next }
          | (some toP, s1) =>
            let c := s1.reflectedControl cmd
            (some (Command.quadTo c toP),
              { s1 with curPoint := toP, lastControl := c }.skipCommaWs)
        else if cmd = 65 then
          match s.coord with
          | (none, s1) => parseLoop arcNew fuel cmd0 { s1 with pstate := PState.next }
          | (some rx, s1) =>
            let fromP := s1.curPoint
            match s1.arcRestArguments false with
            | (none, s2) => (none, s2)
            | (some (ry, a, size, sweep, toP), s2) =>
              parseLoop arcNew fuel cmd0
                { s2.skipCommaWs with arc := arcNew ⟨fromP, rx, ry, a, size, sweep, toP⟩ }
        else if cmd = 97 then
          match s.coord with
          | (none, s1) => parseLoop arcNew fuel cmd0 { s1 with pstate := PState.next }
          | (some rx, s1) =>
            let fromP := s1.curPoint
            match s1.arcRestArguments true with
            | (none, s2) => (none, s2)
            | (some (ry, a, size, sweep, toP), s2) =>
              parseLoop arcNew fuel cmd0
                { s2.skipCommaWs with arc := arcNew ⟨fromP, rx, ry, a, size, sweep, toP⟩ }
        else
          if !s.done || cmd ≠ 0 then
            (none, { s with error := true, pos := s.cmdPos })
          else (none, s)

/-- One `Iterator::next` call of `SvgCommands` (source: `parse`, whose
local `cmd` starts as `self.cur`). The outer-loop fuel `2 * |buf| + 8`
strictly dominates the iteration count: every two consecutive loop
iterations consume at least one input byte or return. -/
def svgNext (arcNew : ArcArgs → List Command) (s : SvgState) : Option Command × SvgState :=
  parseLoop arcNew (2 * s.buf.length + 8) s.cur s

/-- Collects the command iterator until it yields `None`, returning the
commands and the final state. -/
def svgListAux (arcNew : ArcArgs → List Command) :
    Nat → SvgState → List Command × SvgState
  | 0, s => ([], s)
  | fuel + 1, s =>
    match svgNext arcNew s with
    | (none, s1) => ([], s1)
    | (some c, s1) =>
      let r := svgListAux arcNew fuel s1
      (c :: r.1, r.2)

/-- The command stream parsed from an SVG path data byte string. The
per-command fuel `|buf| + 2 + total arc expansion length` bounds the
number of produced commands; for arc-free input, `|buf| + 2` suffices
since every produced command consumes at least one byte. -/
def svgCommands (arcNew : ArcArgs → List Command) (svg : List Nat) : List Command :=
  (svgListAux arcNew (svg.length + 2) (svgInit svg)).1

/-- Source: svg_parser.rs, `validate_svg`. `none` models `Ok(())`; `some e`
models `Err(e)` with `e = pos.saturating_sub(1)` (Nat subtraction is
saturating). -/
def validateSvg (arcNew : ArcArgs → List Command) (svg : List Nat) : Option Nat :=
  let s1 := (svgListAux arcNew (svg.length + 2) (svgInit svg)).2
  if s1.error || s1.pos ≠ svg.length then some (s1.pos - 1) else none

/-- The bytes of the string "M10,10 C20,0 40,0 50,10". -/
def svgInputS6 : List Nat :=
  [77, 49, 48, 44, 49, 48, 32, 67, 50, 48, 44, 48, 32, 52, 48, 44, 48, 32, 53, 48, 44, 49, 48]

/-- The bytes of the string "M10,10 X"; the byte offset of the character
X is 7. -/
def svgInputS6bad : List Nat := [77, 49, 48, 44, 49, 48, 32, 88]

/-- C7: parsing "M10,10 C20,0 40,0 50,10" yields exactly
`[MoveTo(10,10), CurveTo((20,0),(40,0),(50,10))]` and `validate_svg`
accepts it, while `validate_svg("M10,10 X")` reports byte offset 7 (the
position of the X character); this holds for every arc expansion since
neither input contains an arc command. -/
theorem svg_parse_cubic_C7 (arcNew : ArcArgs → List Command) :
    svgCommands arcNew svgInputS6 =
        [Command.moveTo ⟨10, 10⟩, Command.curveTo ⟨20, 0⟩ ⟨40, 0⟩ ⟨50, 10⟩] ∧
      validateSvg arcNew svgInputS6 = none ∧
      validateSvg arcNew svgInputS6bad = some 7 := by
  refine ⟨?_, ?_, ?_⟩ <;> rfl


/-! ## Dash validation (stroke.rs, `validate_dashes`)

Dash lengths are `f32`, modelled exactly with `ℚ`. The `f32 %` operator
(remainder with the dividend's sign, truncating quotient) is `qfmod`. -/

/-- Quotient of `a / b` truncated toward zero. -/
def qtruncDiv (a b : ℚ) : ℤ := if 0 ≤ a / b then ⌊a / b⌋ else -⌊-(a / b)⌋

/-- Model of the `f32 %` remainder: `a - b * trunc(a / b)`. -/
def qfmod (a b : ℚ) : ℚ := a - b * qtruncDiv a b

/-- The scanning loop of `validate_dashes`: walks the dash array with its
index, counting entries `< 1` (`sc`), summing gap-position entries `≥ 1`
(`gs`) and tracking empty gaps (`eg`); `none` models the early
`return (&[], 0., false)` taken at the first negative entry. -/
def vdLoop (isOdd : Bool) : List ℚ → ℕ → ℕ → ℚ → Bool → Option (ℕ × ℚ × Bool)
  | [], _, sc, gs, eg => some (sc, gs, eg)
  | d :: rest, i, sc, gs, eg =>
    if d < 1 then
      if d < 0 then none
      else
        vdLoop isOdd rest (i + 1) (sc + 1) gs
          (if d = 0 ∧ (i % 2 = 1 ∨ isOdd = true) then true else eg)
    else if i % 2 = 1 then vdLoop isOdd rest (i + 1) sc (gs + d) eg
    else vdLoop isOdd rest (i + 1) sc gs eg

/-- Source: stroke.rs, `validate_dashes`. Returns the effective dash array
(empty for the full-stroke fallback), the effective starting offset and
the empty-gaps flag. -/
def validateDashes (dashes : List ℚ) (offset : ℚ) : List ℚ × ℚ × Bool :=
  if 0 < dashes.length then
    let isOdd : Bool := decide (dashes.length % 2 = 1)
    match vdLoop isOdd dashes 0 0 0 false with
    | none => ([], 0, false)
    | some (sc, gs, eg) =>
      let gs := if dashes.length = 1 then 1 else gs
      if sc < dashes.length ∧ 0 < gs then
        let offset1 :=
          if offset ≠ 0 then
            let s0 := dashes.sum
            let s := if isOdd = true then s0 * 2 else s0
            if offset < 0 then s - qfmod |offset| s else qfmod offset s
          else 0
        (dashes, offset1, eg)
      else ([], 0, false)
  else ([], 0, false)

/-- The claim's reading of the "gap-position sum": the sum of the entries
at odd positions (of the doubled array when the length is odd). -/
def gapSumClaimC5 (dashes : List ℚ) : ℚ :=
  let arr := if dashes.length % 2 = 1 then dashes ++ dashes else dashes
  ((arr.enum.filter (fun p => p.1 % 2 = 1)).map Prod.snd).sum

/-- Count of entries `< 1` (what the code's `small_count` accumulates). -/
def smallCount (l : List ℚ) : ℕ := (l.filter (fun d => d < 1)).length

/-- Gap-position entries `≥ 1` summed starting at index `i` (what the
code's `gap_sum` accumulates). -/
def gapGe1Sum : List ℚ → ℕ → ℚ
  | [], _ => 0
  | d :: rest, i => (if i % 2 = 1 ∧ ¬d < 1 then d else 0) + gapGe1Sum rest (i + 1)

theorem vdLoop_eq_none_iff (isOdd : Bool) (l : List ℚ) (i sc : ℕ) (gs : ℚ) (eg : Bool) :
    vdLoop isOdd l i sc gs eg = none ↔ ∃ d ∈ l, d < 0 := by
  induction l generalizing i sc gs eg with
  | nil => simp [vdLoop]
  | cons d rest ih =>
    by_cases h1 : d < 1
    · by_cases h2 : d < 0
      · simp only [vdLoop, if_pos h1, if_pos h2, List.mem_cons]
        exact iff_of_true trivial ⟨d, Or.inl rfl, h2⟩
      · simp only [vdLoop, if_pos h1, if_neg h2, ih, List.mem_cons]
        constructor
        · rintro ⟨x, hx, hlt⟩; exact ⟨x, Or.inr hx, hlt⟩
        · rintro ⟨x, rfl | hx, hlt⟩
          · exact absurd hlt h2
          · exact ⟨x, hx, hlt⟩
    · have h2 : ¬d < 0 := fun h => h1 (h.trans (by norm_num))
      by_cases h3 : i % 2 = 1
      · simp only [vdLoop, if_neg h1, if_pos h3, ih, List.mem_cons]
        constructor
        · rintro ⟨x, hx, hlt⟩; exact ⟨x, Or.inr hx, hlt⟩
        · rintro ⟨x, rfl | hx, hlt⟩
          · exact absurd hlt h2
          · exact ⟨x, hx, hlt⟩
      · simp only [vdLoop, if_neg h1, if_neg h3, ih, List.mem_cons]
        constructor
        · rintro ⟨x, hx, hlt⟩; exact ⟨x, Or.inr hx, hlt⟩
        · rintro ⟨x, rfl | hx, hlt⟩
          · exact absurd hlt h2
          · exact ⟨x, hx, hlt⟩

theorem vdLoop_eq_some (isOdd : Bool) (l : List ℚ) (i sc : ℕ) (gs : ℚ) (eg : Bool)
    (hpos : ∀ d ∈ l, ¬d < 0) :
    ∃ eg1, vdLoop isOdd l i sc gs eg =
      some (sc + smallCount l, gs + gapGe1Sum l i, eg1) := by
  induction l generalizing i sc gs eg with
  | nil => exact ⟨eg, by simp [vdLoop, smallCount, gapGe1Sum]⟩
  | cons d rest ih =>
    have hd : ¬d < 0 := hpos d (List.mem_cons_self d rest)
    have hrest : ∀ x ∈ rest, ¬x < 0 := fun x hx => hpos x (List.mem_cons_of_mem d hx)
    by_cases h1 : d < 1
    · obtain ⟨eg1, heq⟩ := ih (i + 1) (sc + 1) gs
        (if d = 0 ∧ (i % 2 = 1 ∨ isOdd = true) then true else eg) hrest
      refine ⟨eg1, ?_⟩
      have hsc : smallCount (d :: rest) = smallCount rest + 1 := by
        simp [smallCount, List.filter_cons, h1]
      have hnc : ¬(i % 2 = 1 ∧ ¬d < 1) := fun hh => hh.2 h1
      have hgs : gapGe1Sum (d :: rest) i = gapGe1Sum rest (i + 1) := by
        simp only [gapGe1Sum, if_neg hnc, zero_add]
      rw [show vdLoop isOdd (d :: rest) i sc gs eg =
          vdLoop isOdd rest (i + 1) (sc + 1) gs
            (if d = 0 ∧ (i % 2 = 1 ∨ isOdd = true) then true else eg) by
        simp only [vdLoop, if_pos h1, if_neg hd]]
      rw [heq, hsc, hgs]
      have : sc + 1 + smallCount rest = sc + (smallCount rest + 1) := by omega
      rw [this]
    · by_cases h3 : i % 2 = 1
      · obtain ⟨eg1, heq⟩ := ih (i + 1) sc (gs + d) eg hrest
        refine ⟨eg1, ?_⟩
        have hsc : smallCount (d :: rest) = smallCount rest := by
          simp [smallCount, List.filter_cons, h1]
        have hgs : gapGe1Sum (d :: rest) i = d + gapGe1Sum rest (i + 1) := by
          simp only [gapGe1Sum, if_pos (And.intro h3 h1)]
        rw [show vdLoop isOdd (d :: rest) i sc gs eg =
            vdLoop isOdd rest (i + 1) sc (gs + d) eg by
          simp only [vdLoop, if_neg h1, if_pos h3]]
        rw [heq, hsc, hgs]
        ring_nf
      · obtain ⟨eg1, heq⟩ := ih (i + 1) sc gs eg hrest
        refine ⟨eg1, ?_⟩
        have hsc : smallCount (d :: rest) = smallCount rest := by
          simp [smallCount, List.filter_cons, h1]
        have hnc : ¬(i % 2 = 1 ∧ ¬d < 1) := fun hh => h3 hh.1
        have hgs : gapGe1Sum (d :: rest) i = gapGe1Sum rest (i + 1) := by
          simp only [gapGe1Sum, if_neg hnc, zero_add]
        rw [show vdLoop isOdd (d :: rest) i sc gs eg =
            vdLoop isOdd rest (i + 1) sc gs eg by
          simp only [vdLoop, if_neg h1, if_neg h3]]
        rw [heq, hsc, hgs]

theorem gapGe1Sum_nonneg (l : List ℚ) (i : ℕ) : 0 ≤ gapGe1Sum l i := by
  induction l generalizing i with
  | nil => simp [gapGe1Sum]
  | cons d rest ih =>
    simp only [gapGe1Sum]
    have h1 : (0 : ℚ) ≤ if i % 2 = 1 ∧ ¬d < 1 then d else 0 := by
      split_ifs with h
      · linarith [not_lt.mp h.2]
      · exact le_refl 0
    linarith [ih (i + 1)]

theorem gapGe1Sum_pos_iff (l : List ℚ) (i : ℕ) :
    0 < gapGe1Sum l i ↔ ∃ p ∈ List.enumFrom i l, p.1 % 2 = 1 ∧ ¬p.2 < 1 := by
  induction l generalizing i with
  | nil => simp [gapGe1Sum]
  | cons d rest ih =>
    simp only [gapGe1Sum, List.enumFrom, List.mem_cons]
    constructor
    · intro hpos
      by_cases hc : i % 2 = 1 ∧ ¬d < 1
      · exact ⟨(i, d), Or.inl rfl, hc⟩
      · rw [if_neg hc, zero_add] at hpos
        obtain ⟨p, hp, hpc⟩ := (ih (i + 1)).1 hpos
        exact ⟨p, Or.inr hp, hpc⟩
    · rintro ⟨p, hp, hpc⟩
      rcases hp with heq | hp
      · subst heq
        rw [if_pos hpc]
        have h2 := gapGe1Sum_nonneg rest (i + 1)
        have h3 : (1 : ℚ) ≤ d := not_lt.mp hpc.2
        linarith
      · have hpos2 : 0 < gapGe1Sum rest (i + 1) := (ih (i + 1)).2 ⟨p, hp, hpc⟩
        have h1 : (0 : ℚ) ≤ if i % 2 = 1 ∧ ¬d < 1 then d else 0 := by
          split_ifs with h
          · linarith [not_lt.mp h.2]
          · exact le_refl 0
        linarith

theorem smallCount_lt_iff (l : List ℚ) :
    smallCount l < l.length ↔ ¬∀ d ∈ l, d < 1 := by
  unfold smallCount
  constructor
  · intro h hall
    have heq : l.filter (fun d => d < 1) = l :=
      List.filter_eq_self.2 fun a ha => decide_eq_true (hall a ha)
    rw [heq] at h
    exact lt_irrefl _ h
  · intro h
    rcases lt_or_eq_of_le (l.length_filter_le (fun d => decide (d < 1))) with h1 | h1
    · exact h1
    · exfalso
      refine h fun d hmem => ?_
      have := List.filter_length_eq_length.mp h1 d hmem
      exact of_decide_eq_true this

/-- C5 (counterexample): the two-entry dash array `[2, 1/2]` contains no
negative value, is not all-less-than-1, and its gap-position sum is
`1/2 ≠ 0`; by the claim its dashes should be kept, but the code falls back
to an un-dashed stroke (its `gap_sum` accumulator only counts gap entries
`≥ 1`). -/
theorem validate_dashes_claimC5_counterexample :
    validateDashes [2, 1/2] 0 = ([], 0, false) ∧
      (¬∃ d ∈ ([2, 1/2] : List ℚ), d < 0) ∧
      (¬∀ d ∈ ([2, 1/2] : List ℚ), d < 1) ∧
      gapSumClaimC5 [2, 1/2] = 1/2 ∧ (1/2 : ℚ) ≠ 0 := by
  refine ⟨?_, ?_, ?_, ?_, by norm_num⟩
  · norm_num [validateDashes, vdLoop]
  · norm_num
  · intro h
    have := h 2 (by norm_num)
    norm_num at this
  · norm_num [gapSumClaimC5, List.enum, List.enumFrom, List.filter]


/-- The dash the dasher reads at step `n` (source: stroke.rs,
`Dasher::next_dash` indexes `dashes[self.index % len]`). -/
def dashAt (dashes : List ℚ) (n : ℕ) : ℚ := dashes.getD (n % dashes.length) 0

/-- C5 (amended): dash validation falls back to an un-dashed stroke exactly
when the array is empty, contains a negative value, has all entries less
than 1, or (for arrays of two or more entries) has no gap-position entry
that is at least 1 — the code's gap sum only counts gap entries ≥ 1, so
"gap-position sum is zero" must be read over the entries ≥ 1. A
single-element array `[d]` validates and indexes exactly as `[d, d]` with
the same period. For nonzero offsets the effective starting offset is
`offset mod period` (period = array sum, doubled for odd lengths), and
negative offsets map to `period - (|offset| mod period)`. -/
theorem validate_dashes_amendedC5 :
    (∀ (dashes : List ℚ) (offset : ℚ),
      (validateDashes dashes offset).1 = [] ↔
        (dashes = [] ∨ (∃ d ∈ dashes, d < 0) ∨ (∀ d ∈ dashes, d < 1) ∨
          (dashes.length ≠ 1 ∧ ∀ p ∈ dashes.enum, p.1 % 2 = 1 → p.2 < 1))) ∧
    (∀ (d offset : ℚ),
      ((validateDashes [d] offset).1 = [] ↔ (validateDashes [d, d] offset).1 = []) ∧
      (validateDashes [d] offset).2.1 = (validateDashes [d, d] offset).2.1 ∧
      ∀ n, dashAt [d] n = dashAt [d, d] n) ∧
    (∀ (dashes : List ℚ) (offset : ℚ),
      (validateDashes dashes offset).1 ≠ [] → offset ≠ 0 →
      (validateDashes dashes offset).2.1 =
        (let s := if dashes.length % 2 = 1 then dashes.sum * 2 else dashes.sum
         if offset < 0 then s - qfmod |offset| s else qfmod offset s)) := by
  refine ⟨?_, ?_, ?_⟩
  · intro dashes offset
    rcases dashes with _ | ⟨d0, rest⟩
    · simp [validateDashes]
    · set dashes := d0 :: rest with hdashes
      have hlen : 0 < dashes.length := by simp [hdashes]
      by_cases hneg : ∃ d ∈ dashes, d < 0
      · have hnone : vdLoop (decide (dashes.length % 2 = 1)) dashes 0 0 0 false = none :=
          (vdLoop_eq_none_iff _ _ _ _ _ _).2 hneg
        simp only [validateDashes, if_pos hlen, hnone]
        simp only [hdashes, List.cons_ne_nil, false_or]
        exact iff_of_true trivial (Or.inl hneg)
      · have hnn : ∀ d ∈ dashes, ¬d < 0 := by
          intro d hd hlt; exact hneg ⟨d, hd, hlt⟩
        obtain ⟨eg1, hsome⟩ :=
          vdLoop_eq_some (decide (dashes.length % 2 = 1)) dashes 0 0 0 false hnn
        simp only [validateDashes, if_pos hlen, hsome, zero_add]
        by_cases h1 : dashes.length = 1
        · simp only [if_pos h1]
          by_cases hsc : smallCount dashes < dashes.length
          · have hcond : smallCount dashes < dashes.length ∧ (0 : ℚ) < 1 :=
              ⟨hsc, by norm_num⟩
            simp only [if_pos hcond]
            constructor
            · intro h; exact absurd h (by simp [hdashes])
            · rintro (h | h | h | h)
              · exact absurd h (by simp [hdashes])
              · exact absurd h hneg
              · exact absurd ((smallCount_lt_iff dashes).1 hsc) (fun hc => hc h)
              · exact absurd h1 h.1
          · have hcond : ¬(smallCount dashes < dashes.length ∧ (0 : ℚ) < 1) :=
              fun hc => hsc hc.1
            simp only [if_neg hcond]
            have hall : ∀ d ∈ dashes, d < 1 := by
              by_contra hc
              exact hsc ((smallCount_lt_iff dashes).2 hc)
            exact iff_of_true trivial (Or.inr (Or.inr (Or.inl hall)))
        · simp only [if_neg h1]
          by_cases hsc : smallCount dashes < dashes.length
          · by_cases hgs : 0 < gapGe1Sum dashes 0
            · have hcond : smallCount dashes < dashes.length ∧ 0 < gapGe1Sum dashes 0 :=
                ⟨hsc, hgs⟩
              simp only [if_pos hcond]
              constructor
              · intro h; exact absurd h (by simp [hdashes])
              · rintro (h | h | h | h)
                · exact absurd h (by simp [hdashes])
                · exact absurd h hneg
                · exact absurd ((smallCount_lt_iff dashes).1 hsc) (fun hc => hc h)
                · obtain ⟨p, hp, hpc⟩ := (gapGe1Sum_pos_iff dashes 0).1 hgs
                  have := h.2 p (by simpa [List.enum] using hp) hpc.1
                  exact absurd this hpc.2
            · have hcond : ¬(smallCount dashes < dashes.length ∧ 0 < gapGe1Sum dashes 0) :=
                fun hc => hgs hc.2
              simp only [if_neg hcond]
              refine iff_of_true trivial (Or.inr (Or.inr (Or.inr ⟨h1, ?_⟩)))
              intro p hp hodd
              by_contra hlt
              exact hgs ((gapGe1Sum_pos_iff dashes 0).2
                ⟨p, by simpa [List.enum] using hp, hodd, hlt⟩)
          · have hcond : ¬(smallCount dashes < dashes.length ∧ 0 < gapGe1Sum dashes 0) :=
              fun hc => hsc hc.1
            simp only [if_neg hcond]
            have hall : ∀ d ∈ dashes, d < 1 := by
              by_contra hc
              exact hsc ((smallCount_lt_iff dashes).2 hc)
            exact iff_of_true trivial (Or.inr (Or.inr (Or.inl hall)))
  · intro d offset
    by_cases hd0 : d < 0
    · have hd1 : d < 1 := hd0.trans (by norm_num)
      refine ⟨?_, ?_, ?_⟩
      · simp [validateDashes, vdLoop, hd0, hd1]
      · simp [validateDashes, vdLoop, hd0, hd1]
      · intro n
        simp only [dashAt, List.length_cons, List.length_nil]
        rcases Nat.mod_two_eq_zero_or_one n with h | h
        · simp [Nat.mod_one, h]
        · simp [Nat.mod_one, h]
    · by_cases hd1 : d < 1
      · refine ⟨?_, ?_, ?_⟩
        · simp [validateDashes, vdLoop, hd0, hd1]
        · simp [validateDashes, vdLoop, hd0, hd1]
        · intro n
          simp only [dashAt, List.length_cons, List.length_nil]
          rcases Nat.mod_two_eq_zero_or_one n with h | h
          · simp [Nat.mod_one, h]
          · simp [Nat.mod_one, h]
      · have hdpos : (0 : ℚ) < d := lt_of_lt_of_le (by norm_num) (not_lt.mp hd1)
        refine ⟨?_, ?_, ?_⟩
        · simp [validateDashes, vdLoop, hd0, hd1, hdpos]
        · simp only [validateDashes, vdLoop]
          norm_num [hd0, hd1, hdpos]
          simp only [mul_two]
        · intro n
          simp only [dashAt, List.length_cons, List.length_nil]
          rcases Nat.mod_two_eq_zero_or_one n with h | h
          · simp [Nat.mod_one, h]
          · simp [Nat.mod_one, h]
  · intro dashes offset hvalid hoff
    rcases dashes with _ | ⟨d0, rest⟩
    · simp [validateDashes] at hvalid
    · set dashes := d0 :: rest with hdashes
      have hlen : 0 < dashes.length := by simp [hdashes]
      rcases hloop : vdLoop (decide (dashes.length % 2 = 1)) dashes 0 0 0 false with
        _ | ⟨sc, gs, eg⟩
      · simp only [validateDashes, if_pos hlen, hloop] at hvalid
        exact absurd rfl hvalid
      · by_cases hcond :
            sc < dashes.length ∧ 0 < (if dashes.length = 1 then (1 : ℚ) else gs)
        · simp only [validateDashes, if_pos hlen, hloop, if_pos hcond, if_pos hoff] at hvalid ⊢
          rcases Nat.mod_two_eq_zero_or_one dashes.length with hpar | hpar
          · have hodd : (decide (dashes.length % 2 = 1)) = false := by
              simp [hpar]
            simp [hodd, hpar]
          · have hodd : (decide (dashes.length % 2 = 1)) = true := by
              simp [hpar]
            simp [hodd, hpar]
        · simp only [validateDashes, if_pos hlen, hloop, if_neg hcond] at hvalid
          exact absurd rfl hvalid

/-- C5 (amended, witness): the dash array `[10, 10]` with offset 25 is
valid and its effective offset follows the stated formula. -/
theorem validate_dashes_amendedC5_witness :
    (validateDashes [10, 10] 25).1 ≠ [] ∧ (25 : ℚ) ≠ 0 ∧
      (validateDashes [10, 10] 25).2.1 =
        (let s := if ([10, 10] : List ℚ).length % 2 = 1 then
            ([10, 10] : List ℚ).sum * 2 else ([10, 10] : List ℚ).sum
         if (25 : ℚ) < 0 then s - qfmod |(25 : ℚ)| s else qfmod 25 s) := by
  have h1 : (validateDashes [10, 10] 25).1 ≠ [] := by
    norm_num [validateDashes, vdLoop]
    exact List.cons_ne_nil _ _
  exact ⟨h1, by norm_num,
    validate_dashes_amendedC5.2.2 [10, 10] 25 h1 (by norm_num)⟩


/-! ## Cell storage (raster.rs, `HeapStorage` / `AdaptiveStorage`)

Both storages keep cells in a backing store and link them into
per-scanline singly-linked lists through `next` indices (`-1` ends a
row). The walk of `set` is shared between the two source
implementations; it is factored here as `setWalk`, which only reads the
store, followed by the per-implementation mutation. `wrap32` models the
`wrapping_add` used when merging a cell. -/

/-- Fixed point pair (source: raster.rs, `FixedPoint`). -/
structure FixedPoint where
  x : Int
  y : Int
  deriving DecidableEq, Repr

/-- Source: raster.rs, `struct Cell`. -/
structure Cell where
  x : Int
  cover : Int
  area : Int
  next : Int
  deriving DecidableEq, Repr

/-- Default cell used for out-of-range reads in the model (never read in
a well-formed state). -/
def cell0 : Cell := ⟨0, 0, 0, -1⟩

/-- Result of the sorted-insertion walk in `set`. -/
inductive SetAction where
  | merge (i : Nat) (cell : Cell)
  | insert (breakIdx lastIdx : Int)
  deriving Repr

/-- The `while cell_index != -1` walk of both `set` implementations:
follow the row's chain; stop before the first cell with `cell.x > x`
(insert point), or report an exact `x` hit (merge point). `fuel` bounds
the traversal; any reachable chain is shorter than the cell count. -/
def setWalk (get : Nat → Cell) (x : Int) : Nat → Int → Int → SetAction
  | 0, ci, last => SetAction.insert ci last
  | fuel + 1, ci, last =>
    if ci = -1 then SetAction.insert ci last
    else
      let cell := get ci.toNat
      if cell.x > x then SetAction.insert ci last
      else if cell.x = x then SetAction.merge ci.toNat cell
      else setWalk get x fuel cell.next ci

/-- A uniform view of a cell store: row heads, cell reads (normalized to
`cell0` out of range) and the number of stored cells. -/
structure StoreView where
  idx : Nat → Int
  get : Nat → Cell
  len : Nat

/-- The merged cell of an exact `(x, y)` hit: wrapping adds into `area`
and `cover` (source: `cell.area.wrapping_add(area)` etc.). -/
def mergedCell (cell : Cell) (area cover : Int) : Cell :=
  { cell with area := wrap32 (cell.area + area), cover := wrap32 (cell.cover + cover) }

/-- The common semantics of `set` on a store view: walk the row and
either merge into the hit cell with wrapping adds, or link a fresh cell
(at index `len`) after the last visited cell, or at the row head. -/
def setView (v : StoreView) (yindex : Nat) (x area cover : Int) : StoreView :=
  match setWalk v.get x (v.len + 1) (v.idx yindex) (-1) with
  | SetAction.merge i cell =>
    { v with get := Function.update v.get i (mergedCell cell area cover) }
  | SetAction.insert ci last =>
    let newCell : Cell := ⟨x, cover, area, ci⟩
    let linkLast : Cell := { v.get last.toNat with next := Int.ofNat v.len }
    let v1 :=
      if last = -1 then { v with idx := Function.update v.idx yindex (Int.ofNat v.len) }
      else { v with get := Function.update v.get last.toNat linkLast }
    { v1 with get := Function.update v1.get v.len newCell, len := v.len + 1 }

/-- Source: raster.rs, `struct HeapStorage`. -/
structure HeapStorage where
  min : FixedPoint
  max : FixedPoint
  cells : List Cell
  indices : List Int

/-- Source: raster.rs, `HeapStorage::reset`: clear the cells, clear and
refill the row heads with `-1`. -/
def heapReset (_s : HeapStorage) (mn mx : FixedPoint) : HeapStorage :=
  { min := mn, max := mx, cells := [],
    indices := List.replicate (mx.y - mn.y).toNat (-1) }

/-- Source: raster.rs, `HeapStorage::set`. -/
def heapSet (s : HeapStorage) (x y area cover : Int) : HeapStorage :=
  let yindex := (y - s.min.y).toNat
  let get := fun i => s.cells.getD i cell0
  match setWalk get x (s.cells.length + 1) (s.indices.getD yindex (-1)) (-1) with
  | SetAction.merge i cell =>
    { s with cells := s.cells.set i (mergedCell cell area cover) }
  | SetAction.insert ci last =>
    let newIndex := s.cells.length
    let newCell : Cell := ⟨x, cover, area, ci⟩
    let linkLast : Cell := { s.cells.getD last.toNat cell0 with next := Int.ofNat newIndex }
    if last = -1 then
      { s with cells := s.cells ++ [newCell],
               indices := s.indices.set yindex (Int.ofNat newIndex) }
    else
      { s with cells := (s.cells.set last.toNat linkLast) ++ [newCell] }

/-- `MAX_CELLS` (raster.rs). -/
def MAX_CELLS : Nat := 1024

/-- `MAX_BAND` (raster.rs). -/
def MAX_BAND : Nat := 512

/-- Source: raster.rs, `struct AdaptiveStorage`. The fixed inline arrays
are modelled as total functions; `heapCells` / `heapIndices` are the
spill vectors. -/
structure AdaptiveStorage where
  min : FixedPoint
  max : FixedPoint
  height : Nat
  cellCount : Nat
  cells : Nat → Cell
  heapCells : List Cell
  indices : Nat → Int
  heapIndices : List Int

/-- Source: raster.rs, `AdaptiveStorage::reset`. -/
def adaptiveReset (s : AdaptiveStorage) (mn mx : FixedPoint) : AdaptiveStorage :=
  let h := (mx.y - mn.y).toNat
  { min := mn, max := mx, height := h, cellCount := 0,
    cells := s.cells,
    heapCells := [],
    indices := if h > MAX_BAND then s.indices else fun i => if i < h then -1 else s.indices i,
    heapIndices := if h > MAX_BAND then List.replicate h (-1) else [] }

/-- The index store `set` writes to (`heap_indices` when the band is
tall, the inline array otherwise). -/
def AdaptiveStorage.idxRead (s : AdaptiveStorage) (y : Nat) : Int :=
  if s.height > MAX_BAND then s.heapIndices.getD y (-1) else s.indices y

def AdaptiveStorage.idxWrite (s : AdaptiveStorage) (y : Nat) (v : Int) : AdaptiveStorage :=
  if s.height > MAX_BAND then { s with heapIndices := s.heapIndices.set y v }
  else { s with indices := Function.update s.indices y v }

/-- The cell store `set` reads and writes (`heap_cells` once spilled,
the inline array before). -/
def AdaptiveStorage.cellRead (s : AdaptiveStorage) (i : Nat) : Cell :=
  if s.heapCells.isEmpty then s.cells i else s.heapCells.getD i cell0

def AdaptiveStorage.cellWrite (s : AdaptiveStorage) (i : Nat) (c : Cell) : AdaptiveStorage :=
  if s.heapCells.isEmpty then { s with cells := Function.update s.cells i c }
  else { s with heapCells := s.heapCells.set i c }

/-- The inline cell array as a list (the `extend_from_slice(&self.cells)`
spill copy). -/
def AdaptiveStorage.inlineCells (s : AdaptiveStorage) : List Cell :=
  (List.range MAX_CELLS).map s.cells

/-- Source: raster.rs, `AdaptiveStorage::set`. -/
def adaptiveSet (s : AdaptiveStorage) (x y area cover : Int) : AdaptiveStorage :=
  let yindex := (y - s.min.y).toNat
  match setWalk s.cellRead x (s.cellCount + 1) (s.idxRead yindex) (-1) with
  | SetAction.merge i cell =>
    s.cellWrite i (mergedCell cell area cover)
  | SetAction.insert ci last =>
    let newIndex := s.cellCount
    let s1 := { s with cellCount := s.cellCount + 1 }
    let newCell : Cell := ⟨x, cover, area, ci⟩
    let linkLast : Cell := { s1.cellRead last.toNat with next := Int.ofNat newIndex }
    let s2 :=
      if last = -1 then s1.idxWrite yindex (Int.ofNat newIndex)
      else s1.cellWrite last.toNat linkLast
    if newIndex < MAX_CELLS then s2.cellWrite newIndex newCell
    else
      let s3 := if s2.heapCells.isEmpty then { s2 with heapCells := s2.inlineCells } else s2
      { s3 with heapCells := s3.heapCells ++ [newCell] }

/-! ### Observation: walking a row through `indices()` and `cells()` -/

/-- Follow one row's linked list, collecting `(x, cover, area)` triples. -/
def rowWalk (get : Nat → Cell) : Nat → Int → List (Int × Int × Int)
  | 0, _ => []
  | fuel + 1, i =>
    if i = -1 then []
    else
      let c := get i.toNat
      (c.x, c.cover, c.area) :: rowWalk get fuel c.next

/-- The walk of row `y` of a heap storage via its `indices()` and
`cells()` accessors. -/
def heapRowsAt (s : HeapStorage) (y : Nat) : List (Int × Int × Int) :=
  rowWalk (fun i => s.cells.getD i cell0) (s.cells.length + 1) (s.indices.getD y (-1))

/-- `AdaptiveStorage::cells` accessor (selected by `cell_count`). -/
def AdaptiveStorage.cellAcc (s : AdaptiveStorage) (i : Nat) : Cell :=
  if s.cellCount > MAX_CELLS then s.heapCells.getD i cell0 else s.cells i

/-- `AdaptiveStorage::indices` accessor (heap vector for tall bands,
the inline prefix `[..height]` otherwise). -/
def AdaptiveStorage.idxAcc (s : AdaptiveStorage) (y : Nat) : Int :=
  if s.height > MAX_BAND then s.heapIndices.getD y (-1)
  else if y < s.height then s.indices y else -1

/-- The walk of row `y` of an adaptive storage via its `indices()` and
`cells()` accessors. -/
def adaptiveRowsAt (s : AdaptiveStorage) (y : Nat) : List (Int × Int × Int) :=
  rowWalk s.cellAcc (s.cellCount + 1) (s.idxAcc y)

/-! ### Abstract model: per-row sorted association lists -/

/-- Sorted insertion with merge on an exact hit — the abstract semantics
both storages implement, on `(x, cover, area)` triples. -/
def absInsert (x area cover : Int) : List (Int × Int × Int) → List (Int × Int × Int)
  | [] => [(x, cover, area)]
  | (cx, cc, ca) :: rest =>
    if cx > x then (x, cover, area) :: (cx, cc, ca) :: rest
    else if cx = x then (cx, wrap32 (cc + cover), wrap32 (ca + area)) :: rest
    else (cx, cc, ca) :: absInsert x area cover rest

/-- Abstract rows: scanline index to its cell triples. -/
def AbsRows := Nat → List (Int × Int × Int)

def absSet (a : AbsRows) (yindex : Nat) (x area cover : Int) : AbsRows :=
  Function.update a yindex (absInsert x area cover (a yindex))

/-- Indexed abstract rows: like `absInsert` but remembering each cell's
position in the backing store (a fresh cell always lands at index
`len`). -/
def absInsertIdx (len : Nat) (x area cover : Int) :
    List (Nat × Int × Int × Int) → List (Nat × Int × Int × Int)
  | [] => [(len, x, cover, area)]
  | (i, cx, cc, ca) :: rest =>
    if cx > x then (len, x, cover, area) :: (i, cx, cc, ca) :: rest
    else if cx = x then (i, cx, wrap32 (cc + cover), wrap32 (ca + area)) :: rest
    else (i, cx, cc, ca) :: absInsertIdx len x area cover rest

theorem absInsertIdx_map_snd (len : Nat) (x area cover : Int)
    (row : List (Nat × Int × Int × Int)) :
    (absInsertIdx len x area cover row).map Prod.snd =
      absInsert x area cover (row.map Prod.snd) := by
  induction row with
  | nil => simp [absInsertIdx, absInsert]
  | cons p rest ih =>
    obtain ⟨i, cx, cc, ca⟩ := p
    simp only [absInsertIdx, absInsert, List.map_cons]
    split_ifs <;> simp [ih]


/-! ### Linked-list representation -/

/-- An indexed row: each stored cell's backing index with its
`(x, cover, area)` data. -/
abbrev IdxRow := List (Nat × Int × Int × Int)

/-- `ChainRep get len hd row`: starting from head pointer `hd`, following
`next` pointers through `get` visits exactly the cells of `row` (their
data read off `get`), all at indices below `len`. -/
inductive ChainRep (get : Nat → Cell) (len : Nat) : Int → IdxRow → Prop where
  | nil : ChainRep get len (-1) []
  | cons {i : Nat} {rest : IdxRow} :
      i < len →
      ChainRep get len (get i).next rest →
      ChainRep get len (Int.ofNat i) ((i, (get i).x, (get i).cover, (get i).area) :: rest)

def rowHead : IdxRow → Int
  | [] => -1
  | (i, _) :: _ => Int.ofNat i

def rowLastIdx (last : Int) : IdxRow → Int
  | [] => last
  | p :: row => rowLastIdx (Int.ofNat p.1) row

theorem rowLastIdx_cons (last : Int) (p : Nat × Int × Int × Int) (row : IdxRow) :
    rowLastIdx last (p :: row) = rowLastIdx (Int.ofNat p.1) row := rfl

theorem chainRep_head {get len hd row} (h : ChainRep get len hd row) : hd = rowHead row := by
  cases h with
  | nil => rfl
  | cons hlt hrest => rfl

theorem chainRep_mem_lt {get len hd row} (h : ChainRep get len hd row) :
    ∀ i ∈ row.map Prod.fst, i < len := by
  induction h with
  | nil => simp
  | cons hlt hrest ih =>
    intro j hj
    rcases List.mem_cons.mp hj with rfl | hj
    · exact hlt
    · exact ih j hj

theorem chainRep_congr {get get' : Nat → Cell} {len hd row}
    (h : ChainRep get len hd row)
    (hag : ∀ i ∈ row.map Prod.fst, get' i = get i) :
    ChainRep get' len hd row := by
  induction h with
  | nil => exact ChainRep.nil
  | cons hlt hrest ih =>
    rename_i i rest
    have hi : get' i = get i := hag i (by simp)
    have hrest' : ChainRep get' len (get' i).next rest := by
      rw [hi]
      exact ih fun j hj => hag j (by simp [hj])
    have := @ChainRep.cons get' _ _ _ hlt hrest'
    rw [hi] at this
    exact this

theorem chainRep_update_not_mem {get : Nat → Cell} {len hd row} {j : Nat} {c : Cell}
    (h : ChainRep get len hd row) (hj : j ∉ row.map Prod.fst) :
    ChainRep (Function.update get j c) len hd row :=
  chainRep_congr h fun i hi => by
    have hne : i ≠ j := fun hij => hj (by rw [← hij]; exact hi)
    exact Function.update_noteq hne c get

theorem chainRep_len_mono {get len len' hd row} (h : ChainRep get len hd row)
    (hle : len ≤ len') : ChainRep get len' hd row := by
  induction h with
  | nil => exact ChainRep.nil
  | cons hlt hrest ih => exact ChainRep.cons (lt_of_lt_of_le hlt hle) ih

theorem chainRep_row_length_le {get len hd row} (h : ChainRep get len hd row)
    (hnd : (row.map Prod.fst).Nodup) : row.length ≤ len := by
  have h1 : (row.map Prod.fst).toFinset.card = (row.map Prod.fst).length :=
    List.toFinset_card_of_nodup hnd
  have h2 : (row.map Prod.fst).toFinset ⊆ Finset.range len := by
    intro i hi
    simp only [List.mem_toFinset] at hi
    exact Finset.mem_range.mpr (chainRep_mem_lt h i hi)
  have h3 := Finset.card_le_card h2
  rw [h1] at h3
  simpa using h3

/-- Reading a row through any accessor that agrees with `get` on the
chain's indices reproduces the represented data. -/
theorem rowWalk_of_chain {get get' : Nat → Cell} {len hd row}
    (h : ChainRep get len hd row)
    (hag : ∀ i ∈ row.map Prod.fst, get' i = get i) :
    ∀ fuel, row.length < fuel → rowWalk get' fuel hd = row.map Prod.snd := by
  induction h with
  | nil =>
    intro fuel hfuel
    rcases fuel with _ | fuel
    · simp at hfuel
    · simp [rowWalk]
  | cons hlt hrest ih =>
    rename_i i rest
    intro fuel hfuel
    rcases fuel with _ | fuel
    · simp at hfuel
    · have hi : get' i = get i := hag i (by simp)
      have hcast : Int.ofNat i = (i : ℤ) := rfl
      have hne : (Int.ofNat i) ≠ -1 := by rw [hcast]; omega
      have ht : (Int.ofNat i).toNat = i := rfl
      simp only [rowWalk, if_neg hne, ht, hi, List.map_cons]
      congr 1
      exact ih (fun j hj => hag j (by simp [hj])) fuel
        (by simp only [List.length_cons] at hfuel; omega)

/-- Classification of a `setWalk` over a represented, x-sorted row:
either it merges at the unique cell with this `x`, or it stops at the
split point between the prefix of smaller cells and the suffix of larger
ones. -/
theorem setWalk_classify {get : Nat → Cell} {len : Nat} (x : Int) :
    ∀ (row : IdxRow) (hd last : Int) (fuel : Nat),
    ChainRep get len hd row → row.length < fuel →
    (∃ pre i d post, row = pre ++ (i, d) :: post ∧ d.1 = x ∧
        setWalk get x fuel hd last = SetAction.merge i (get i) ∧
        (∀ p ∈ pre, p.2.1 < x)) ∨
    (∃ pre post, row = pre ++ post ∧
        setWalk get x fuel hd last = SetAction.insert (rowHead post) (rowLastIdx last pre) ∧
        (∀ p ∈ pre, p.2.1 < x) ∧
        (post = [] ∨ ∃ q rest, post = q :: rest ∧ x < q.2.1)) := by
  intro row
  induction row with
  | nil =>
    intro hd last fuel hchain hfuel
    cases hchain
    rcases fuel with _ | fuel
    · simp at hfuel
    · right
      refine ⟨[], [], by simp, ?_, by simp, Or.inl rfl⟩
      simp [setWalk, rowHead, rowLastIdx]
  | cons p rest ih =>
    intro hd last fuel hchain hfuel
    cases hchain with
    | cons hlt hrest =>
      rename_i i
      rcases fuel with _ | fuel
      · simp at hfuel
      · have hcast : Int.ofNat i = (i : ℤ) := rfl
        have hne : (Int.ofNat i) ≠ -1 := by rw [hcast]; omega
        have ht : (Int.ofNat i).toNat = i := rfl
        by_cases hgt : (get i).x > x
        · right
          refine ⟨[], (i, (get i).x, (get i).cover, (get i).area) :: rest, by simp, ?_, by simp,
            Or.inr ⟨_, _, rfl, hgt⟩⟩
          simp [setWalk, if_neg hne, ht, hgt, rowHead, rowLastIdx]
        · by_cases heq : (get i).x = x
          · left
            refine ⟨[], i, ((get i).x, (get i).cover, (get i).area), rest, by simp, heq, ?_, by simp⟩
            simp [setWalk, if_neg hne, ht, hgt, heq]
          · have hstep : setWalk get x (fuel + 1) (Int.ofNat i) last =
                setWalk get x fuel (get i).next (Int.ofNat i) := by
              simp [setWalk, if_neg hne, ht, hgt, heq]
            have hxlt : (get i).x < x := lt_of_le_of_ne (not_lt.mp hgt) heq
            rcases ih (get i).next (Int.ofNat i) fuel hrest (by simpa using hfuel) with
              ⟨pre, j, d, post, hrow, hdx, hwalk, hpre⟩ | ⟨pre, post, hrow, hwalk, hpre, hpost⟩
            · left
              refine ⟨(i, (get i).x, (get i).cover, (get i).area) :: pre, j, d, post,
                by rw [hrow]; rfl, hdx, by rw [hstep]; exact hwalk, ?_⟩
              intro q hq
              rcases List.mem_cons.mp hq with rfl | hq
              · exact hxlt
              · exact hpre q hq
            · right
              refine ⟨(i, (get i).x, (get i).cover, (get i).area) :: pre, post,
                by rw [hrow]; rfl, ?_, ?_, hpost⟩
              · rw [hstep, hwalk, rowLastIdx_cons]
              · intro q hq
                rcases List.mem_cons.mp hq with rfl | hq
                · exact hxlt
                · exact hpre q hq


theorem chainRep_node_data {get : Nat → Cell} {len : Nat} {hd : Int} {row : IdxRow}
    (h : ChainRep get len hd row) :
    ∀ p ∈ row, p.2 = ((get p.1).x, (get p.1).cover, (get p.1).area) := by
  induction h with
  | nil => simp
  | cons hlt hrest ih =>
    intro p hp
    rcases List.mem_cons.mp hp with rfl | hp
    · rfl
    · exact ih p hp

theorem rowLastIdx_nonempty (a : Int) :
    ∀ (pre : IdxRow), pre ≠ [] → ∃ j ∈ pre.map Prod.fst, rowLastIdx a pre = Int.ofNat j := by
  intro pre
  induction pre generalizing a with
  | nil => intro h; exact absurd rfl h
  | cons q rest ih =>
    intro _
    rcases rest with _ | ⟨r, rest'⟩
    · exact ⟨q.1, by simp, rfl⟩
    · obtain ⟨j, hj, heq⟩ := ih (Int.ofNat q.1) (by simp)
      exact ⟨j, by simp [List.mem_cons] at hj ⊢; tauto, heq⟩

theorem rowLastIdx_indep (a b : Int) :
    ∀ (pre : IdxRow), pre ≠ [] → rowLastIdx a pre = rowLastIdx b pre := by
  intro pre
  rcases pre with _ | ⟨q, rest⟩
  · intro h; exact absurd rfl h
  · intro _; rfl

/-- Surgery: merging new data into the cell at index `i` of a represented
row (keeping its `x` and `next`) re-represents the row with that cell's
data replaced. -/
theorem chainRep_merge {get : Nat → Cell} {len : Nat} {i : Nat} {c' : Cell}
    (hnext : c'.next = (get i).next) :
    ∀ (pre : IdxRow) (hd : Int) (d : Int × Int × Int) (post : IdxRow),
    ChainRep get len hd (pre ++ (i, d) :: post) →
    ((pre ++ (i, d) :: post).map Prod.fst).Nodup →
    ChainRep (Function.update get i c') len hd
      (pre ++ (i, c'.x, c'.cover, c'.area) :: post) := by
  intro pre
  induction pre with
  | nil =>
    intro hd d post hchain hnd
    simp only [List.nil_append] at hchain hnd ⊢
    cases hchain with
    | cons hlt hrest =>
      have hnotmem : i ∉ post.map Prod.fst := by
        simp only [List.map_cons, List.nodup_cons] at hnd
        exact hnd.1
      have hpost : ChainRep (Function.update get i c') len (get i).next post :=
        chainRep_update_not_mem hrest hnotmem
      have hget : Function.update get i c' i = c' := Function.update_same i c' get
      have := @ChainRep.cons (Function.update get i c') _ i _ hlt
        (by rw [hget, hnext]; exact hpost)
      rw [hget] at this
      exact this
  | cons q pre ih =>
    intro hd d post hchain hnd
    simp only [List.cons_append] at hchain hnd ⊢
    cases hchain with
    | cons hlt hrest =>
      rename_i i0
      have hqi : i0 ≠ i := by
        simp only [List.map_cons, List.nodup_cons] at hnd
        intro hqe
        refine hnd.1 ?_
        rw [hqe]
        simp
      have hget : Function.update get i c' i0 = get i0 := Function.update_noteq hqi c' get
      have hnd' : ((pre ++ (i, d) :: post).map Prod.fst).Nodup := by
        simp only [List.map_cons, List.nodup_cons] at hnd
        exact hnd.2
      have := @ChainRep.cons (Function.update get i c') _ i0 _ hlt
        (by rw [hget]; exact ih _ d post hrest hnd')
      rw [hget] at this
      exact this

/-- Surgery: linking a fresh cell (at index `len`) at the head of a
represented row. -/
theorem chainRep_insert_head {get : Nat → Cell} {len : Nat} {hd : Int} {post : IdxRow}
    (hchain : ChainRep get len hd post) (x cover area : Int) :
    ChainRep (Function.update get len ⟨x, cover, area, hd⟩) (len + 1) (Int.ofNat len)
      ((len, x, cover, area) :: post) := by
  have hnotmem : len ∉ post.map Prod.fst := fun hmem =>
    lt_irrefl len (chainRep_mem_lt hchain len hmem)
  have hpost : ChainRep (Function.update get len ⟨x, cover, area, hd⟩) (len + 1) hd post :=
    chainRep_len_mono (chainRep_update_not_mem hchain hnotmem) (Nat.le_succ len)
  have hget : Function.update get len ⟨x, cover, area, hd⟩ len = ⟨x, cover, area, hd⟩ :=
    Function.update_same len _ get
  have := @ChainRep.cons (Function.update get len ⟨x, cover, area, hd⟩) _ len _
    (Nat.lt_succ_self len) (by rw [hget]; exact hpost)
  rw [hget] at this
  exact this

/-- Surgery: linking a fresh cell (at index `len`) after the last cell of
the prefix `pre` of a represented row, before `post`. -/
theorem chainRep_insert_after {get : Nat → Cell} {len : Nat} (x cover area : Int) :
    ∀ (pre : IdxRow) (hd : Int) (post : IdxRow) (j : Nat),
    ChainRep get len hd (pre ++ post) →
    ((pre ++ post).map Prod.fst).Nodup →
    rowLastIdx (-1) pre = Int.ofNat j →
    pre ≠ [] →
    ChainRep
      (Function.update (Function.update get j { get j with next := Int.ofNat len }) len
        ⟨x, cover, area, rowHead post⟩)
      (len + 1) hd (pre ++ (len, x, cover, area) :: post) := by
  intro pre
  induction pre with
  | nil => intro hd post j _ _ _ hne; exact absurd rfl hne
  | cons q pre ih =>
    intro hd post j hchain hnd hlast hne0
    rcases pre with _ | ⟨r, pre'⟩
    · -- q is the unique (hence last) element of the prefix
      simp only [List.singleton_append] at hchain hnd ⊢
      cases hchain with
      | cons hlt hrest =>
        rename_i i0
        have hj : j = i0 := (Int.ofNat.inj hlast).symm
        subst hj
        have hheadpost : (get j).next = rowHead post := chainRep_head hrest
        have hjpost : j ∉ post.map Prod.fst := by
          simp only [List.map_cons, List.nodup_cons] at hnd
          exact hnd.1
        have hlenpost : len ∉ post.map Prod.fst := fun hmem =>
          lt_irrefl len (chainRep_mem_lt hrest len hmem)
        set g1 := Function.update get j { get j with next := Int.ofNat len } with hg1
        set g2 := Function.update g1 len ⟨x, cover, area, rowHead post⟩ with hg2
        have hpost2 : ChainRep g2 (len + 1) (rowHead post) post := by
          rw [← hheadpost]
          refine chainRep_len_mono ?_ (Nat.le_succ len)
          exact chainRep_update_not_mem (chainRep_update_not_mem hrest hjpost) hlenpost
        have hg2len : g2 len = ⟨x, cover, area, rowHead post⟩ := Function.update_same len _ g1
        have hnewcell : ChainRep g2 (len + 1) (Int.ofNat len)
            ((len, x, cover, area) :: post) := by
          have := @ChainRep.cons g2 _ len _ (Nat.lt_succ_self len)
            (by rw [hg2len]; exact hpost2)
          rw [hg2len] at this
          exact this
        have hjlen : j ≠ len := Nat.ne_of_lt hlt
        have hg2j : g2 j = { get j with next := Int.ofNat len } := by
          rw [hg2, Function.update_noteq hjlen, hg1, Function.update_same]
        have := @ChainRep.cons g2 _ j _ (Nat.lt_succ_of_lt hlt)
          (by rw [hg2j]; exact hnewcell)
        rw [hg2j] at this
        exact this
    · -- the last element of the prefix lies further down
      simp only [List.cons_append] at hchain hnd ⊢
      cases hchain with
      | cons hlt hrest =>
        rename_i i0
        have hlast' : rowLastIdx (-1) (r :: pre') = Int.ofNat j := by
          rw [rowLastIdx_indep (-1) (Int.ofNat i0) (r :: pre') (by simp)]
          exact hlast
        have hnd' : (((r :: pre') ++ post).map Prod.fst).Nodup := by
          simp only [List.cons_append, List.map_cons, List.nodup_cons] at hnd ⊢
          exact hnd.2
        obtain ⟨j', hj'mem, hj'eq⟩ := rowLastIdx_nonempty (-1) (r :: pre') (by simp)
        have hjj : j' = j := Int.ofNat.inj (hj'eq ▸ hlast')
        subst hjj
        have hqj : i0 ≠ j' := by
          simp only [List.map_cons, List.nodup_cons] at hnd
          intro hqe
          refine hnd.1 ?_
          rw [hqe]
          have hmem2 : j' ∈ ((r :: pre').map Prod.fst) := hj'mem
          simp only [List.cons_append, List.map_cons, List.map_append, List.mem_cons,
            List.mem_append] at hmem2 ⊢
          tauto
        have hqlen : i0 ≠ len := Nat.ne_of_lt hlt
        have hgq : Function.update (Function.update get j'
              { get j' with next := Int.ofNat len })
            len ⟨x, cover, area, rowHead post⟩ i0 = get i0 := by
          rw [Function.update_noteq hqlen, Function.update_noteq hqj]
        have := @ChainRep.cons
          (Function.update (Function.update get j'
              { get j' with next := Int.ofNat len })
            len ⟨x, cover, area, rowHead post⟩)
          _ i0 _ (Nat.lt_succ_of_lt hlt)
          (by rw [hgq]
              exact ih _ post j' hrest hnd' hlast' (by simp))
        rw [hgq] at this
        exact this


theorem absInsertIdx_found {x : Int} (len : Nat) (area cover : Int) :
    ∀ (pre : IdxRow) (i : Nat) (cc ca : Int) (post : IdxRow),
    (∀ p ∈ pre, p.2.1 < x) →
    absInsertIdx len x area cover (pre ++ (i, x, cc, ca) :: post) =
      pre ++ (i, x, wrap32 (cc + cover), wrap32 (ca + area)) :: post := by
  intro pre
  induction pre with
  | nil =>
    intro i cc ca post _
    simp [absInsertIdx]
  | cons q pre ih =>
    intro i cc ca post hpre
    obtain ⟨qi, qx, qc, qa⟩ := q
    have hqx : qx < x := hpre (qi, qx, qc, qa) (by simp)
    simp only [List.cons_append, absInsertIdx]
    rw [if_neg (not_lt.mpr (le_of_lt hqx)), if_neg (ne_of_lt hqx)]
    exact congrArg (List.cons (qi, qx, qc, qa))
      (ih i cc ca post fun p hp => hpre p (by simp [hp]))

theorem absInsertIdx_split {x : Int} (len : Nat) (area cover : Int) :
    ∀ (pre post : IdxRow),
    (∀ p ∈ pre, p.2.1 < x) →
    (post = [] ∨ ∃ q rest, post = q :: rest ∧ x < q.2.1) →
    absInsertIdx len x area cover (pre ++ post) =
      pre ++ (len, x, cover, area) :: post := by
  intro pre
  induction pre with
  | nil =>
    intro post _ hpost
    rcases hpost with rfl | ⟨q, rest, rfl, hq⟩
    · simp [absInsertIdx]
    · obtain ⟨qi, qx, qc, qa⟩ := q
      simp only [List.nil_append, absInsertIdx]
      rw [if_pos (by exact hq)]
  | cons q pre ih =>
    intro post hpre hpost
    obtain ⟨qi, qx, qc, qa⟩ := q
    have hqx : qx < x := hpre (qi, qx, qc, qa) (by simp)
    simp only [List.cons_append, absInsertIdx]
    rw [if_neg (not_lt.mpr (le_of_lt hqx)), if_neg (ne_of_lt hqx)]
    exact congrArg (List.cons (qi, qx, qc, qa))
      (ih post (fun p hp => hpre p (by simp [hp])) hpost)

/-- The full representation invariant tying a store view to its abstract
indexed rows: every row head represents its row, backing indices are
unique within and across rows, and every row is strictly ascending in
`x`. -/
structure RepRows (v : StoreView) (rows : Nat → IdxRow) : Prop where
  chains : ∀ y, ChainRep v.get v.len (v.idx y) (rows y)
  nodup : ∀ y, ((rows y).map Prod.fst).Nodup
  disj : ∀ y y', y ≠ y' → ∀ i, i ∈ (rows y).map Prod.fst → i ∉ (rows y').map Prod.fst
  sorted : ∀ y, ((rows y).map (fun p => p.2.1)).Chain' (· < ·)

theorem setView_merge_eq {v : StoreView} {yindex : Nat} {x area cover : Int}
    {i : Nat} {cell : Cell}
    (hwalk : setWalk v.get x (v.len + 1) (v.idx yindex) (-1) = SetAction.merge i cell) :
    setView v yindex x area cover =
      { v with get := Function.update v.get i (mergedCell cell area cover) } := by
  unfold setView
  rw [hwalk]

theorem setView_insert_head_eq {v : StoreView} {yindex : Nat} {x area cover : Int}
    {ci : Int}
    (hwalk : setWalk v.get x (v.len + 1) (v.idx yindex) (-1) = SetAction.insert ci (-1)) :
    setView v yindex x area cover =
      ⟨Function.update v.idx yindex (Int.ofNat v.len),
       Function.update v.get v.len ⟨x, cover, area, ci⟩, v.len + 1⟩ := by
  unfold setView
  rw [hwalk]
  rfl

theorem setView_insert_after_eq {v : StoreView} {yindex : Nat} {x area cover : Int}
    {ci : Int} {j : Nat}
    (hwalk : setWalk v.get x (v.len + 1) (v.idx yindex) (-1) =
      SetAction.insert ci (Int.ofNat j)) :
    setView v yindex x area cover =
      ⟨v.idx,
       Function.update
         (Function.update v.get j { v.get j with next := Int.ofNat v.len }) v.len
         ⟨x, cover, area, ci⟩,
       v.len + 1⟩ := by
  unfold setView
  rw [hwalk]
  have hne : (Int.ofNat j) ≠ -1 := by
    have hcast : Int.ofNat j = (j : ℤ) := rfl
    rw [hcast]; omega
  have ht : (Int.ofNat j).toNat = j := rfl
  simp [hne, ht]


theorem chain_lt_insert_middle {x : Int} (xs1 xs2 : List Int)
    (hs : (xs1 ++ xs2).Chain' (· < ·))
    (h1 : ∀ a ∈ xs1, a < x) (h2 : ∀ b ∈ xs2.head?, x < b) :
    (xs1 ++ x :: xs2).Chain' (· < ·) := by
  rw [List.chain'_append] at hs
  rw [List.chain'_append]
  refine ⟨hs.1, ?_, ?_⟩
  · rw [List.chain'_cons']
    exact ⟨h2, hs.2.1⟩
  · intro a ha b hb
    simp only [List.head?_cons, Option.mem_def, Option.some.injEq] at hb
    subst hb
    exact h1 a (List.mem_of_mem_getLast? ha)

/-- One `set` on a represented view refines the abstract sorted insertion
with merge: the new view represents the rows with `absInsertIdx` applied
to the touched row. -/
theorem setView_rep {v : StoreView} {rows : Nat → IdxRow} (h : RepRows v rows)
    (yindex : Nat) (x area cover : Int) :
    RepRows (setView v yindex x area cover)
      (Function.update rows yindex (absInsertIdx v.len x area cover (rows yindex))) := by
  obtain ⟨hchain, hnd, hdisj, hsort⟩ := h
  have hfuel : (rows yindex).length < v.len + 1 :=
    Nat.lt_succ_of_le (chainRep_row_length_le (hchain yindex) (hnd yindex))
  rcases setWalk_classify x (rows yindex) (v.idx yindex) (-1) (v.len + 1) (hchain yindex)
      hfuel with
    ⟨pre, i, d, post, hrow, hdx, hwalk, hpre⟩ | ⟨pre, post, hrow, hwalk, hpre, hpost⟩
  · -- merge at the existing cell i
    obtain ⟨d1, d2, d3⟩ := d
    have hd1 : x = d1 := hdx.symm
    subst hd1
    have hdata : (x, d2, d3) = ((v.get i).x, (v.get i).cover, (v.get i).area) :=
      chainRep_node_data (hchain yindex) (i, x, d2, d3) (by rw [hrow]; simp)
    have hgx : (v.get i).x = x := (congrArg (fun p => p.1) hdata).symm
    have hgc : (v.get i).cover = d2 := (congrArg (fun p => p.2.1) hdata).symm
    have hga : (v.get i).area = d3 := (congrArg (fun p => p.2.2) hdata).symm
    have himem : i ∈ (rows yindex).map Prod.fst := by rw [hrow]; simp
    have hnewrow : absInsertIdx v.len x area cover (rows yindex) =
        pre ++ (i, x, wrap32 (d2 + cover), wrap32 (d3 + area)) :: post := by
      rw [hrow]
      exact absInsertIdx_found v.len area cover pre i d2 d3 post hpre
    rw [setView_merge_eq hwalk, hnewrow]
    have hmx : (mergedCell (v.get i) area cover).x = x := by
      simp [mergedCell, hgx]
    have hmc : (mergedCell (v.get i) area cover).cover = wrap32 (d2 + cover) := by
      simp [mergedCell, hgc]
    have hma : (mergedCell (v.get i) area cover).area = wrap32 (d3 + area) := by
      simp [mergedCell, hga]
    have hmn : (mergedCell (v.get i) area cover).next = (v.get i).next := rfl
    refine ⟨?_, ?_, ?_, ?_⟩
    · intro y
      by_cases hy : y = yindex
      · subst hy
        rw [Function.update_same]
        have := chainRep_merge hmn pre
          (v.idx y) (x, d2, d3) post (by rw [← hrow]; exact hchain y)
          (by rw [← hrow]; exact hnd y)
        rw [hmx, hmc, hma] at this
        exact this
      · rw [Function.update_noteq hy]
        exact chainRep_update_not_mem (hchain y)
          (hdisj yindex y (fun he => hy he.symm) i himem)
    · intro y
      by_cases hy : y = yindex
      · subst hy
        rw [Function.update_same]
        have hfst : ((pre ++ (i, x, wrap32 (d2 + cover), wrap32 (d3 + area)) :: post).map
            Prod.fst) = ((rows y).map Prod.fst) := by
          rw [hrow]; simp
        rw [hfst]
        exact hnd y
      · rw [Function.update_noteq hy]
        exact hnd y
    · intro y y' hyy j hj
      have hfst : ∀ z, ((Function.update rows yindex
          (pre ++ (i, x, wrap32 (d2 + cover), wrap32 (d3 + area)) :: post) z).map
            Prod.fst) = ((rows z).map Prod.fst) := by
        intro z
        by_cases hz : z = yindex
        · subst hz
          rw [Function.update_same, hrow]
          simp
        · rw [Function.update_noteq hz]
      rw [hfst] at hj
      rw [hfst]
      exact hdisj y y' hyy j hj
    · intro y
      by_cases hy : y = yindex
      · subst hy
        rw [Function.update_same]
        have hxs : ((pre ++ (i, x, wrap32 (d2 + cover), wrap32 (d3 + area)) :: post).map
            (fun p => p.2.1)) = ((rows y).map (fun p => p.2.1)) := by
          rw [hrow]; simp
        rw [hxs]
        exact hsort y
      · rw [Function.update_noteq hy]
        exact hsort y
  · -- fresh insertion between pre and post
    have hnewrow : absInsertIdx v.len x area cover (rows yindex) =
        pre ++ (v.len, x, cover, area) :: post := by
      rw [hrow]
      exact absInsertIdx_split v.len area cover pre post hpre hpost
    have hlenfresh : ∀ z, v.len ∉ (rows z).map Prod.fst := fun z hmem =>
      lt_irrefl v.len (chainRep_mem_lt (hchain z) v.len hmem)
    rcases List.eq_nil_or_concat pre with hpreempty | _
    · -- the row head case: pre = []
      subst hpreempty
      simp only [List.nil_append] at hrow
      have hwalk' : setWalk v.get x (v.len + 1) (v.idx yindex) (-1) =
          SetAction.insert (rowHead post) (-1) := hwalk
      have hhd : v.idx yindex = rowHead post := by
        have hc := hchain yindex
        rw [hrow] at hc
        exact chainRep_head hc
      rw [setView_insert_head_eq hwalk', hnewrow]
      simp only [List.nil_append]
      refine ⟨?_, ?_, ?_, ?_⟩
      · intro y
        by_cases hy : y = yindex
        · subst hy
          simp only [Function.update_same]
          have hc := hchain y
          rw [hrow] at hc
          have hres := chainRep_insert_head hc x cover area
          rw [hhd] at hres
          exact hres
        · simp only [Function.update_noteq hy]
          exact chainRep_len_mono
            (chainRep_update_not_mem (hchain y) (hlenfresh y)) (Nat.le_succ v.len)
      · intro y
        by_cases hy : y = yindex
        · subst hy
          rw [Function.update_same]
          simp only [List.map_cons, List.nodup_cons]
          refine ⟨by rw [← hrow]; exact hlenfresh y, by rw [← hrow]; exact hnd y⟩
        · rw [Function.update_noteq hy]
          exact hnd y
      · intro y y' hyy j hj
        by_cases hy : y = yindex
        · subst hy
          rw [Function.update_same] at hj
          rw [Function.update_noteq (fun he => hyy he.symm)]
          simp only [List.map_cons, List.mem_cons] at hj
          rcases hj with rfl | hj
          · exact hlenfresh y'
          · exact hdisj y y' hyy j (by rw [hrow]; exact hj)
        · rw [Function.update_noteq hy] at hj
          by_cases hy' : y' = yindex
          · subst hy'
            rw [Function.update_same]
            simp only [List.map_cons, List.mem_cons]
            rintro (rfl | hmem)
            · exact hlenfresh y hj
            · exact hdisj y y' hyy j hj (by rw [hrow]; exact hmem)
          · rw [Function.update_noteq hy']
            exact hdisj y y' hyy j hj
      · intro y
        by_cases hy : y = yindex
        · subst hy
          rw [Function.update_same]
          simp only [List.map_cons]
          rw [List.chain'_cons']
          constructor
          · intro b hb
            rcases hpost with rfl | ⟨q, rest, rfl, hq⟩
            · simp at hb
            · simp only [List.map_cons, List.head?_cons, Option.mem_def,
                Option.some.injEq] at hb
              rw [← hb]
              exact hq
          · rw [← hrow]
            exact hsort y
        · rw [Function.update_noteq hy]
          exact hsort y
    · -- the mid/tail case: pre ≠ []
      have hprene : pre ≠ [] := by
        rcases pre with _ | ⟨a, l⟩
        · rename_i hcon
          obtain ⟨l', a', hcon⟩ := hcon
          exact absurd hcon.symm (List.concat_ne_nil a' l')
        · simp
      obtain ⟨j, hjmem, hjeq⟩ := rowLastIdx_nonempty (-1) pre hprene
      have hwalk' : setWalk v.get x (v.len + 1) (v.idx yindex) (-1) =
          SetAction.insert (rowHead post) (Int.ofNat j) := by
        rw [hwalk, hjeq]
      have hjrow : j ∈ (rows yindex).map Prod.fst := by
        rw [hrow]
        simp only [List.map_append, List.mem_append]
        exact Or.inl hjmem
      rw [setView_insert_after_eq hwalk', hnewrow]
      refine ⟨?_, ?_, ?_, ?_⟩
      · intro y
        by_cases hy : y = yindex
        · subst hy
          rw [Function.update_same]
          exact chainRep_insert_after x cover area pre (v.idx y) post j
            (by rw [← hrow]; exact hchain y) (by rw [← hrow]; exact hnd y) hjeq hprene
        · rw [Function.update_noteq hy]
          refine chainRep_len_mono (chainRep_update_not_mem
            (chainRep_update_not_mem (hchain y) ?_) (hlenfresh y)) (Nat.le_succ v.len)
          exact hdisj yindex y (fun he => hy he.symm) j hjrow
      · intro y
        by_cases hy : y = yindex
        · subst hy
          rw [Function.update_same]
          have hmid : ((pre ++ (v.len, x, cover, area) :: post).map Prod.fst) =
              (pre.map Prod.fst) ++ v.len :: (post.map Prod.fst) := by simp
          rw [hmid, List.nodup_middle]
          constructor
          · intro b hb hbe
            refine hlenfresh y ?_
            rw [hbe, hrow]
            simpa using hb
          · have := hnd y
            rw [hrow] at this
            simpa using this
        · rw [Function.update_noteq hy]
          exact hnd y
      · intro y y' hyy j' hj
        have hmemiff : ∀ z k, k ∈ ((Function.update rows yindex
            (pre ++ (v.len, x, cover, area) :: post) z).map Prod.fst) ↔
            (k ∈ (rows z).map Prod.fst ∨ (z = yindex ∧ k = v.len)) := by
          intro z k
          by_cases hz : z = yindex
          · subst hz
            rw [Function.update_same, hrow]
            simp only [List.map_append, List.map_cons, List.mem_append, List.mem_cons]
            tauto
          · rw [Function.update_noteq hz]
            simp [hz]
        rw [hmemiff] at hj
        rw [hmemiff]
        rintro (hmem | ⟨rfl, rfl⟩)
        · rcases hj with hj | ⟨rfl, rfl⟩
          · exact hdisj y y' hyy j' hj hmem
          · exact hlenfresh y' hmem
        · rcases hj with hj | ⟨hzy, _⟩
          · exact hlenfresh y hj
          · exact hyy hzy
      · intro y
        by_cases hy : y = yindex
        · subst hy
          rw [Function.update_same]
          have hxs : ((pre ++ (v.len, x, cover, area) :: post).map (fun p => p.2.1)) =
              (pre.map (fun p => p.2.1)) ++ x :: (post.map (fun p => p.2.1)) := by simp
          rw [hxs]
          refine chain_lt_insert_middle _ _ ?_ ?_ ?_
          · have := hsort y
            rw [hrow] at this
            simpa using this
          · intro a ha
            simp only [List.mem_map] at ha
            obtain ⟨p, hp, rfl⟩ := ha
            exact hpre p hp
          · intro b hb
            rcases hpost with rfl | ⟨q, rest, rfl, hq⟩
            · simp at hb
            · simp only [List.map_cons, List.head?_cons, Option.mem_def,
                Option.some.injEq] at hb
              rw [← hb]
              exact hq
        · rw [Function.update_noteq hy]
          exact hsort y


/-! ### Implementation views and commutation with `setView` -/

theorem getD_set_eq {α : Type} (l : List α) (i : Nat) (c d : α) (h : i < l.length)
    (j : Nat) : (l.set i c).getD j d = if j = i then c else l.getD j d := by
  by_cases hj : j = i
  · subst hj
    rw [if_pos rfl, List.getD_eq_getElem?_getD, List.getElem?_set_self h]
    rfl
  · rw [if_neg hj, List.getD_eq_getElem?_getD,
      List.getElem?_set_ne (fun he => hj he.symm), List.getD_eq_getElem?_getD]

theorem getD_append_single {α : Type} (l : List α) (c d : α) (j : Nat) :
    (l ++ [c]).getD j d = if j = l.length then c else l.getD j d := by
  by_cases hj : j = l.length
  · subst hj
    rw [if_pos rfl, List.getD_eq_getElem?_getD, List.getElem?_append_right (le_refl _)]
    simp
  · by_cases hlt : j < l.length
    · rw [if_neg hj, List.getD_eq_getElem?_getD, List.getElem?_append, if_pos hlt,
        List.getD_eq_getElem?_getD]
    · have hge : l.length ≤ j := le_of_not_lt hlt
      rw [if_neg hj, List.getD_eq_getElem?_getD, List.getElem?_append_right hge,
        List.getD_eq_getElem?_getD]
      have h1 : ([c] : List α)[j - l.length]? = none := by
        rw [List.getElem?_eq_none]
        simp only [List.length_singleton]
        omega
      have h2 : l[j]? = none := by
        rw [List.getElem?_eq_none]
        omega
      rw [h1, h2]

theorem getD_replicate_self {α : Type} (n j : Nat) (d : α) :
    (List.replicate n d).getD j d = d := by
  rw [List.getD_eq_getElem?_getD, List.getElem?_replicate]
  split <;> rfl

theorem getD_range_map {α : Type} (n : Nat) (f : Nat → α) (d : α) (j : Nat)
    (h : j < n) : (((List.range n).map f).getD j d = f j) := by
  rw [List.getD_eq_getElem?_getD]
  have : ((List.range n).map f)[j]? = some (f j) := by
    rw [List.getElem?_eq_getElem (by simpa using h)]
    simp
  rw [this]
  rfl

/-- The heap storage as a uniform store view: row heads and cells read
through `getD` (out-of-range reads normalized), cell count. -/
def viewH (s : HeapStorage) : StoreView :=
  ⟨fun y => s.indices.getD y (-1), fun i => s.cells.getD i cell0, s.cells.length⟩

/-- The adaptive storage as a uniform store view, through the public
`indices()` / `cells()` accessors. -/
def viewA (s : AdaptiveStorage) : StoreView :=
  ⟨s.idxAcc, s.cellAcc, s.cellCount⟩

/-- Agreement of two views on everything a chain can observe: identical
row heads and cell count, and identical cells below the count. -/
def ViewAgree (v v' : StoreView) : Prop :=
  v.idx = v'.idx ∧ v.len = v'.len ∧ ∀ i, i < v'.len → v.get i = v'.get i

theorem repRows_agree {v v' : StoreView} {rows : Nat → IdxRow}
    (h : RepRows v rows) (ha : ViewAgree v' v) : RepRows v' rows := by
  obtain ⟨hidx, hlen, hget⟩ := ha
  refine ⟨?_, h.nodup, h.disj, h.sorted⟩
  intro y
  rw [hidx, hlen]
  exact chainRep_congr (h.chains y) fun i hi =>
    hget i (chainRep_mem_lt (h.chains y) i hi)

/-- Bounds read off the walk over a represented row: a merge happens at
a live index holding its own cell, and a non-head insert links after a
live index. -/
theorem setWalk_bounds {v : StoreView} {rows : Nat → IdxRow} (h : RepRows v rows)
    (yindex : Nat) (x : Int) :
    (∀ i cell, setWalk v.get x (v.len + 1) (v.idx yindex) (-1) = SetAction.merge i cell →
      i < v.len ∧ cell = v.get i) ∧
    (∀ ci last, setWalk v.get x (v.len + 1) (v.idx yindex) (-1) = SetAction.insert ci last →
      last = -1 ∨ ∃ j, last = Int.ofNat j ∧ j < v.len) := by
  have hfuel : (rows yindex).length < v.len + 1 :=
    Nat.lt_succ_of_le (chainRep_row_length_le (h.chains yindex) (h.nodup yindex))
  rcases setWalk_classify x (rows yindex) (v.idx yindex) (-1) (v.len + 1) (h.chains yindex)
      hfuel with
    ⟨pre, i, d, post, hrow, hdx, hwalk, hpre⟩ | ⟨pre, post, hrow, hwalk, hpre, hpost⟩
  · constructor
    · intro i' cell' hw
      rw [hwalk] at hw
      injection hw with h1 h2
      subst h1
      subst h2
      exact ⟨chainRep_mem_lt (h.chains yindex) i (by rw [hrow]; simp), rfl⟩
    · intro ci last hw
      rw [hwalk] at hw
      exact SetAction.noConfusion hw
  · constructor
    · intro i' cell' hw
      rw [hwalk] at hw
      exact SetAction.noConfusion hw
    · intro ci last hw
      rw [hwalk] at hw
      injection hw with h1 h2
      subst h2
      rcases List.eq_nil_or_concat pre with rfl | ⟨l', a', he⟩
      · left; rfl
      · right
        have hprene : pre ≠ [] := by
          subst he
          exact List.concat_ne_nil a' l'
        obtain ⟨j, hjmem, hjeq⟩ := rowLastIdx_nonempty (-1) pre hprene
        refine ⟨j, hjeq, chainRep_mem_lt (h.chains yindex) j ?_⟩
        rw [hrow]
        simp only [List.map_append, List.mem_append]
        exact Or.inl hjmem

/-- One `set` on the heap storage acts on its view exactly as the
common `setView` semantics. -/
theorem heapSet_agree {s : HeapStorage} {rows : Nat → IdxRow}
    (h : RepRows (viewH s) rows) (x y area cover : Int)
    (hy : (y - s.min.y).toNat < s.indices.length) :
    ViewAgree (viewH (heapSet s x y area cover))
      (setView (viewH s) ((y - s.min.y).toNat) x area cover) := by
  rcases hact : setWalk (fun i => s.cells.getD i cell0) x (s.cells.length + 1)
      (s.indices.getD ((y - s.min.y).toNat) (-1)) (-1) with ⟨i, cell⟩ | ⟨ci, last⟩
  · -- merge
    have hib : i < s.cells.length ∧ cell = (viewH s).get i :=
      (setWalk_bounds h ((y - s.min.y).toNat) x).1 i cell hact
    have hH : heapSet s x y area cover =
        { s with cells := s.cells.set i (mergedCell cell area cover) } := by
      simp only [heapSet]
      rw [hact]
    have hV := @setView_merge_eq (viewH s) ((y - s.min.y).toNat) x area cover _ _ hact
    rw [hH, hV]
    refine ⟨rfl, by simp [viewH], ?_⟩
    intro k hk
    show (s.cells.set i (mergedCell cell area cover)).getD k cell0 =
      Function.update (viewH s).get i (mergedCell cell area cover) k
    rw [getD_set_eq s.cells i _ cell0 hib.1 k]
    by_cases hki : k = i
    · subst hki
      rw [if_pos rfl, Function.update_same]
    · rw [if_neg hki, Function.update_noteq hki]
      rfl
  · -- insert
    rcases (setWalk_bounds h ((y - s.min.y).toNat) x).2 ci last hact with hlast | ⟨j, hje, hjlt⟩
    · -- fresh row head
      subst hlast
      have hH : heapSet s x y area cover =
          { s with cells := s.cells ++ [⟨x, cover, area, ci⟩],
                   indices := s.indices.set ((y - s.min.y).toNat)
                     (Int.ofNat s.cells.length) } := by
        simp only [heapSet]
        rw [hact]
        rfl
      have hV := @setView_insert_head_eq (viewH s) ((y - s.min.y).toNat) x area cover _ hact
      rw [hH, hV]
      refine ⟨?_, by simp [viewH], ?_⟩
      · funext y'
        show (s.indices.set ((y - s.min.y).toNat) (Int.ofNat s.cells.length)).getD y' (-1) =
          Function.update (viewH s).idx ((y - s.min.y).toNat) (Int.ofNat (viewH s).len) y'
        rw [getD_set_eq s.indices _ _ (-1) hy y']
        by_cases hyy : y' = (y - s.min.y).toNat
        · subst hyy
          rw [if_pos rfl, Function.update_same]
          rfl
        · rw [if_neg hyy, Function.update_noteq hyy]
          rfl
      · intro k hk
        show (s.cells ++ [(⟨x, cover, area, ci⟩ : Cell)]).getD k cell0 =
          Function.update (viewH s).get (viewH s).len ⟨x, cover, area, ci⟩ k
        rw [getD_append_single s.cells _ cell0 k]
        by_cases hkl : k = s.cells.length
        · subst hkl
          rw [if_pos rfl]
          show (⟨x, cover, area, ci⟩ : Cell) = Function.update (viewH s).get s.cells.length
            (⟨x, cover, area, ci⟩ : Cell) s.cells.length
          rw [Function.update_same]
        · rw [if_neg hkl]
          show s.cells.getD k cell0 = Function.update (viewH s).get s.cells.length
            (⟨x, cover, area, ci⟩ : Cell) k
          rw [Function.update_noteq hkl]
          rfl
    · -- link after the previous cell
      subst hje
      have hne : (Int.ofNat j) ≠ -1 := by
        have hcast : Int.ofNat j = (j : ℤ) := rfl
        rw [hcast]; omega
      have hH : heapSet s x y area cover =
          { s with cells :=
              (s.cells.set j { s.cells.getD j cell0 with
                  next := Int.ofNat s.cells.length }) ++ [⟨x, cover, area, ci⟩] } := by
        simp only [heapSet, hact]
        rw [if_neg hne]
        rfl
      have hV := @setView_insert_after_eq (viewH s) ((y - s.min.y).toNat) x area cover _ _ hact
      rw [hH, hV]
      refine ⟨rfl, by simp [viewH], ?_⟩
      intro k hk
      show ((s.cells.set j { s.cells.getD j cell0 with
              next := Int.ofNat s.cells.length }) ++ [(⟨x, cover, area, ci⟩ : Cell)]).getD k cell0 =
        Function.update (Function.update (viewH s).get j
          { (viewH s).get j with next := Int.ofNat (viewH s).len }) (viewH s).len
          ⟨x, cover, area, ci⟩ k
      rw [getD_append_single _ _ cell0 k]
      simp only [List.length_set]
      by_cases hkl : k = s.cells.length
      · subst hkl
        rw [if_pos rfl]
        show (⟨x, cover, area, ci⟩ : Cell) =
          Function.update (Function.update (viewH s).get j
            { (viewH s).get j with next := Int.ofNat (viewH s).len }) s.cells.length
            (⟨x, cover, area, ci⟩ : Cell) s.cells.length
        rw [Function.update_same]
      · rw [if_neg hkl]
        rw [getD_set_eq s.cells j _ cell0 hjlt k]
        have hupd : Function.update (Function.update (viewH s).get j
            { (viewH s).get j with next := Int.ofNat (viewH s).len }) (viewH s).len
            (⟨x, cover, area, ci⟩ : Cell) k = Function.update (viewH s).get j
            { (viewH s).get j with next := Int.ofNat (viewH s).len } k :=
          Function.update_noteq hkl _ _
        rw [hupd]
        by_cases hkj : k = j
        · subst hkj
          rw [if_pos rfl, Function.update_same]
          rfl
        · rw [if_neg hkj, Function.update_noteq hkj]
          rfl


theorem cellAcc_def (s : AdaptiveStorage) (i : Nat) :
    s.cellAcc i = if MAX_CELLS < s.cellCount then s.heapCells.getD i cell0 else s.cells i :=
  rfl

theorem idxAcc_def (s : AdaptiveStorage) (y : Nat) :
    s.idxAcc y = if MAX_BAND < s.height then s.heapIndices.getD y (-1)
      else if y < s.height then s.indices y else -1 := rfl

/-- Well-formedness of an adaptive storage state: the spill vector is
either untouched (inline mode, count within the inline array) or an
exact copy grown past the limit, and the heap index vector is sized to
the band when the band is tall. -/
structure AdaptiveWF (s : AdaptiveStorage) : Prop where
  mode : (s.heapCells = [] ∧ s.cellCount ≤ MAX_CELLS) ∨
         (s.heapCells.length = s.cellCount ∧ MAX_CELLS < s.cellCount)
  tall : MAX_BAND < s.height → s.heapIndices.length = s.height

theorem cellRead_eq_cellAcc {s : AdaptiveStorage} (hwf : AdaptiveWF s) :
    s.cellRead = s.cellAcc := by
  funext i
  show (if s.heapCells.isEmpty = true then s.cells i else s.heapCells.getD i cell0) =
    s.cellAcc i
  rcases hwf.mode with ⟨he, hle⟩ | ⟨hlen, hgt⟩
  · rw [he, if_pos (show (([] : List Cell).isEmpty) = true from rfl), cellAcc_def,
      if_neg (not_lt.mpr hle)]
  · rcases hcl : s.heapCells with _ | ⟨a, l⟩
    · rw [hcl] at hlen
      simp only [List.length_nil] at hlen
      omega
    · rw [if_neg (show ¬(((a :: l) : List Cell).isEmpty = true) from by simp),
        cellAcc_def, if_pos hgt, hcl]

theorem idxRead_eq_idxAcc {s : AdaptiveStorage} (y : Nat) (hy : y < s.height) :
    s.idxRead y = s.idxAcc y := by
  show (if MAX_BAND < s.height then s.heapIndices.getD y (-1) else s.indices y) = s.idxAcc y
  rw [idxAcc_def]
  by_cases ht : MAX_BAND < s.height
  · rw [if_pos ht, if_pos ht]
  · rw [if_neg ht, if_neg ht, if_pos hy]

theorem idxWrite_tall {s : AdaptiveStorage} (ht : MAX_BAND < s.height) (y : Nat) (v : Int) :
    s.idxWrite y v = { s with heapIndices := s.heapIndices.set y v } := by
  unfold AdaptiveStorage.idxWrite
  rw [if_pos ht]

theorem idxWrite_short {s : AdaptiveStorage} (ht : ¬ MAX_BAND < s.height) (y : Nat)
    (v : Int) : s.idxWrite y v = { s with indices := Function.update s.indices y v } := by
  unfold AdaptiveStorage.idxWrite
  rw [if_neg ht]

theorem cellWrite_empty {s : AdaptiveStorage} (he : s.heapCells = []) (i : Nat) (c : Cell) :
    s.cellWrite i c = { s with cells := Function.update s.cells i c } := by
  unfold AdaptiveStorage.cellWrite
  rw [if_pos (by rw [he]; rfl)]

theorem cellWrite_spilled {s : AdaptiveStorage} (hne : s.heapCells ≠ []) (i : Nat)
    (c : Cell) : s.cellWrite i c = { s with heapCells := s.heapCells.set i c } := by
  unfold AdaptiveStorage.cellWrite
  rcases hcl : s.heapCells with _ | ⟨a, l⟩
  · exact absurd hcl hne
  · rw [if_neg (show ¬(((a :: l) : List Cell).isEmpty = true) from by simp)]


theorem toNat_ofNat_eq (n : Nat) : (Int.ofNat n).toNat = n := rfl

theorem viewA_get (s : AdaptiveStorage) : (viewA s).get = s.cellAcc := rfl

theorem viewA_idx (s : AdaptiveStorage) : (viewA s).idx = s.idxAcc := rfl

theorem viewA_len (s : AdaptiveStorage) : (viewA s).len = s.cellCount := rfl

theorem idxAcc_write_tall {s s' : AdaptiveStorage} (ht : MAX_BAND < s.height)
    (hlen : s.heapIndices.length = s.height) {yx : Nat} (hy : yx < s.height) {v : Int}
    (hh : s'.height = s.height) (hhi : s'.heapIndices = s.heapIndices.set yx v) :
    s'.idxAcc = Function.update s.idxAcc yx v := by
  funext y'
  rw [idxAcc_def, hh, hhi, if_pos ht,
    getD_set_eq _ _ _ _ (by rw [hlen]; exact hy) y']
  by_cases hyy : y' = yx
  · subst hyy
    rw [if_pos rfl, Function.update_same]
  · rw [if_neg hyy, Function.update_noteq hyy, idxAcc_def, if_pos ht]

theorem idxAcc_write_short {s s' : AdaptiveStorage} (ht : ¬ MAX_BAND < s.height)
    {yx : Nat} (hy : yx < s.height) {v : Int}
    (hh : s'.height = s.height)
    (hin : s'.indices = Function.update s.indices yx v) :
    s'.idxAcc = Function.update s.idxAcc yx v := by
  funext y'
  rw [idxAcc_def, hh, hin, if_neg ht]
  by_cases hyy : y' = yx
  · subst hyy
    rw [if_pos hy, Function.update_same, Function.update_same]
  · rw [Function.update_noteq hyy, Function.update_noteq hyy, idxAcc_def, if_neg ht]

theorem idxAcc_same {s s' : AdaptiveStorage} (hh : s'.height = s.height)
    (hhi : s'.heapIndices = s.heapIndices) (hin : s'.indices = s.indices) :
    s'.idxAcc = s.idxAcc := by
  funext y'
  rw [idxAcc_def, idxAcc_def, hh, hhi, hin]

theorem idxWrite_spec {s : AdaptiveStorage}
    (htall : MAX_BAND < s.height → s.heapIndices.length = s.height)
    {yx : Nat} (hy : yx < s.height) (v : Int) :
    (s.idxWrite yx v).idxAcc = Function.update s.idxAcc yx v ∧
    (s.idxWrite yx v).cells = s.cells ∧
    (s.idxWrite yx v).heapCells = s.heapCells ∧
    (s.idxWrite yx v).cellCount = s.cellCount ∧
    (s.idxWrite yx v).height = s.height ∧
    (s.idxWrite yx v).heapIndices.length = s.heapIndices.length := by
  by_cases ht : MAX_BAND < s.height
  · rw [idxWrite_tall ht]
    exact ⟨idxAcc_write_tall ht (htall ht) hy rfl rfl, rfl, rfl, rfl, rfl, by simp⟩
  · rw [idxWrite_short ht]
    exact ⟨idxAcc_write_short ht hy rfl rfl, rfl, rfl, rfl, rfl, rfl⟩

/-- One `set` on the adaptive storage acts on its view exactly as the
common `setView` semantics, and preserves well-formedness. -/
theorem adaptiveSet_agree {s : AdaptiveStorage} {rows : Nat → IdxRow}
    (h : RepRows (viewA s) rows) (hwf : AdaptiveWF s) (x y area cover : Int)
    (hy : (y - s.min.y).toNat < s.height) :
    ViewAgree (viewA (adaptiveSet s x y area cover))
      (setView (viewA s) ((y - s.min.y).toNat) x area cover) ∧
    AdaptiveWF (adaptiveSet s x y area cover) := by
  have hrd : s.cellRead = (viewA s).get := cellRead_eq_cellAcc hwf
  have hix : s.idxRead ((y - s.min.y).toNat) = (viewA s).idx ((y - s.min.y).toNat) :=
    idxRead_eq_idxAcc _ hy
  rcases hact : setWalk (viewA s).get x ((viewA s).len + 1)
      ((viewA s).idx ((y - s.min.y).toNat)) (-1) with ⟨i, cell⟩ | ⟨ci, last⟩
  · -- merge into an existing cell
    have hib : i < (viewA s).len ∧ cell = (viewA s).get i :=
      (setWalk_bounds h ((y - s.min.y).toNat) x).1 i cell hact
    have hact2 : setWalk s.cellRead x (s.cellCount + 1)
        (s.idxRead ((y - s.min.y).toNat)) (-1) = SetAction.merge i cell := by
      rw [hrd, hix]
      exact hact
    have hA : adaptiveSet s x y area cover =
        s.cellWrite i (mergedCell cell area cover) := by
      simp only [adaptiveSet, hact2, toNat_ofNat_eq]
    have hV := @setView_merge_eq (viewA s) ((y - s.min.y).toNat) x area cover _ _ hact
    rcases hwf.mode with ⟨he, hle⟩ | ⟨hlen, hgt⟩
    · rw [hA, hV, cellWrite_empty he]
      refine ⟨⟨rfl, rfl, ?_⟩, ⟨Or.inl ⟨he, hle⟩, hwf.tall⟩⟩
      intro k hk
      simp only [viewA_get, cellAcc_def]
      rw [if_neg (not_lt.mpr hle)]
      by_cases hki : k = i
      · subst hki
        rw [Function.update_same, Function.update_same]
      · rw [Function.update_noteq hki, Function.update_noteq hki, cellAcc_def,
          if_neg (not_lt.mpr hle)]
    · have hne : s.heapCells ≠ [] := by
        intro h0
        rw [h0] at hlen
        simp only [List.length_nil] at hlen
        omega
      have hil : i < s.heapCells.length := by
        rw [hlen]
        exact hib.1
      rw [hA, hV, cellWrite_spilled hne]
      refine ⟨⟨rfl, rfl, ?_⟩,
        ⟨Or.inr ⟨by simp only [List.length_set]; exact hlen, hgt⟩, hwf.tall⟩⟩
      intro k hk
      simp only [viewA_get, cellAcc_def]
      rw [if_pos hgt, getD_set_eq _ _ _ _ hil k]
      by_cases hki : k = i
      · subst hki
        rw [if_pos rfl, Function.update_same]
      · rw [if_neg hki, Function.update_noteq hki, cellAcc_def, if_pos hgt]
  · -- insert a fresh cell
    have hact2 : setWalk s.cellRead x (s.cellCount + 1)
        (s.idxRead ((y - s.min.y).toNat)) (-1) = SetAction.insert ci last := by
      rw [hrd, hix]
      exact hact
    rcases (setWalk_bounds h ((y - s.min.y).toNat) x).2 ci last hact with hlast |
      ⟨j, hje, hjlt⟩
    · -- fresh row head
      subst hlast
      have hV := @setView_insert_head_eq (viewA s) ((y - s.min.y).toNat) x area cover _ hact
      obtain ⟨hS2idx, hS2cells0, hS2hc0, hS2cnt0, hS2h0, hS2hil0⟩ :=
        idxWrite_spec (s := ({ s with cellCount := s.cellCount + 1 } : AdaptiveStorage))
          hwf.tall hy (Int.ofNat s.cellCount)
      set S2 := ({ s with cellCount := s.cellCount + 1 } :
        AdaptiveStorage).idxWrite ((y - s.min.y).toNat) (Int.ofNat s.cellCount) with hS2
      have hS2cells : S2.cells = s.cells := hS2cells0
      have hS2hc : S2.heapCells = s.heapCells := hS2hc0
      have hS2cnt : S2.cellCount = s.cellCount + 1 := hS2cnt0
      have hS2h : S2.height = s.height := hS2h0
      have hS2hil : S2.heapIndices.length = s.heapIndices.length := hS2hil0
      have hwftall : MAX_BAND < (adaptiveSet s x y area cover).height →
          (adaptiveSet s x y area cover).heapIndices.length =
            (adaptiveSet s x y area cover).height →
          True := fun _ _ => trivial
      rcases hwf.mode with ⟨he, hle⟩ | ⟨hlen, hgt⟩
      · have hce : S2.heapCells = [] := hS2hc.trans he
        by_cases hnm : s.cellCount < MAX_CELLS
        · -- room in the inline array
          have hA1 : adaptiveSet s x y area cover =
              { S2 with cells := Function.update S2.cells s.cellCount (⟨x, cover, area, ci⟩ : Cell) } := by
            simp only [adaptiveSet, hact2, toNat_ofNat_eq]
            rw [if_pos hnm, if_pos trivial, ← hS2,
              cellWrite_empty hce]
          rw [hA1, hV]
          refine ⟨⟨?_, ?_, ?_⟩, ⟨?_, ?_⟩⟩
          · exact (idxAcc_same rfl rfl rfl).trans hS2idx
          · exact hS2cnt
          · intro k hk
            simp only [viewA_get, viewA_len, cellAcc_def]
            rw [hS2cnt, if_neg (show ¬ MAX_CELLS < s.cellCount + 1 by omega), hS2cells]
            by_cases hkn : k = s.cellCount
            · subst hkn
              rw [Function.update_same, Function.update_same]
            · rw [Function.update_noteq hkn, Function.update_noteq hkn, cellAcc_def,
                if_neg (not_lt.mpr hle)]
          · refine Or.inl ⟨hce, ?_⟩
            show S2.cellCount ≤ MAX_CELLS
            rw [hS2cnt]
            omega
          · intro ht'
            show S2.heapIndices.length = S2.height
            have hh' : MAX_BAND < s.height := by
              rw [← hS2h]
              exact ht'
            rw [hS2hil, hS2h]
            exact hwf.tall hh'
        · -- the inline array is full: spill
          have hA1 : adaptiveSet s x y area cover =
              { S2 with heapCells := S2.inlineCells ++ [(⟨x, cover, area, ci⟩ : Cell)] } := by
            simp only [adaptiveSet, hact2, toNat_ofNat_eq]
            rw [if_neg hnm, if_pos trivial, ← hS2]
            rw [if_pos (show S2.heapCells.isEmpty = true from by rw [hce]; rfl)]
          rw [hA1, hV]
          refine ⟨⟨?_, ?_, ?_⟩, ⟨?_, ?_⟩⟩
          · exact (idxAcc_same rfl rfl rfl).trans hS2idx
          · exact hS2cnt
          · intro k hk
            have hk' : k < s.cellCount + 1 := hk
            simp only [viewA_get, viewA_len, cellAcc_def, AdaptiveStorage.inlineCells]
            rw [hS2cnt, if_pos (show MAX_CELLS < s.cellCount + 1 by omega)]
            rw [getD_append_single]
            rw [show ((List.range MAX_CELLS).map S2.cells).length = s.cellCount from by
              simp only [List.length_map, List.length_range]; omega]
            by_cases hkn : k = s.cellCount
            · subst hkn
              rw [if_pos rfl, Function.update_same]
            · rw [if_neg hkn, Function.update_noteq hkn,
                getD_range_map _ _ _ k (by omega), hS2cells, cellAcc_def,
                if_neg (not_lt.mpr hle)]
          · refine Or.inr ⟨?_, ?_⟩
            · show (S2.inlineCells ++ [(⟨x, cover, area, ci⟩ : Cell)]).length = S2.cellCount
              rw [hS2cnt]
              simp only [AdaptiveStorage.inlineCells, List.length_append, List.length_map,
                List.length_range, List.length_cons, List.length_nil]
              omega
            · show MAX_CELLS < S2.cellCount
              rw [hS2cnt]
              omega
          · intro ht'
            show S2.heapIndices.length = S2.height
            have hh' : MAX_BAND < s.height := by
              rw [← hS2h]
              exact ht'
            rw [hS2hil, hS2h]
            exact hwf.tall hh'
      · -- already spilled
        have hne : s.heapCells ≠ [] := by
          intro h0
          rw [h0] at hlen
          simp only [List.length_nil] at hlen
          omega
        have hnbe : ¬ (S2.heapCells.isEmpty = true) := by
          rw [hS2hc]
          rcases hcl : s.heapCells with _ | ⟨a, l⟩
          · exact absurd hcl hne
          · simp
        have hA1 : adaptiveSet s x y area cover =
            { S2 with heapCells := S2.heapCells ++ [(⟨x, cover, area, ci⟩ : Cell)] } := by
          simp only [adaptiveSet, hact2, toNat_ofNat_eq]
          rw [if_neg (show ¬ s.cellCount < MAX_CELLS by omega),
            if_pos trivial, ← hS2, if_neg hnbe]
        rw [hA1, hV]
        refine ⟨⟨?_, ?_, ?_⟩, ⟨?_, ?_⟩⟩
        · exact (idxAcc_same rfl rfl rfl).trans hS2idx
        · exact hS2cnt
        · intro k hk
          have hk' : k < s.cellCount + 1 := hk
          simp only [viewA_get, viewA_len, cellAcc_def]
          rw [hS2cnt, if_pos (show MAX_CELLS < s.cellCount + 1 by omega), hS2hc,
            getD_append_single, hlen]
          by_cases hkn : k = s.cellCount
          · subst hkn
            rw [if_pos rfl, Function.update_same]
          · rw [if_neg hkn, Function.update_noteq hkn, cellAcc_def, if_pos hgt]
        · refine Or.inr ⟨?_, ?_⟩
          · show (S2.heapCells ++ [(⟨x, cover, area, ci⟩ : Cell)]).length = S2.cellCount
            rw [hS2cnt, hS2hc]
            simp only [List.length_append, List.length_cons, List.length_nil]
            omega
          · show MAX_CELLS < S2.cellCount
            rw [hS2cnt]
            omega
        · intro ht'
          show S2.heapIndices.length = S2.height
          have hh' : MAX_BAND < s.height := by
            rw [← hS2h]
            exact ht'
          rw [hS2hil, hS2h]
          exact hwf.tall hh'
    · -- link after the previous cell j
      subst hje
      have hjlt' : j < s.cellCount := hjlt
      have hne : (Int.ofNat j : Int) ≠ -1 := by
        have hcast : Int.ofNat j = (j : ℤ) := rfl
        rw [hcast]
        omega
      have hV := @setView_insert_after_eq (viewA s) ((y - s.min.y).toNat) x area cover
        _ _ hact
      have hrd1 : ({ s with cellCount := s.cellCount + 1 } : AdaptiveStorage).cellRead =
          (viewA s).get := hrd
      rcases hwf.mode with ⟨he, hle⟩ | ⟨hlen, hgt⟩
      · have he1 : ({ s with cellCount := s.cellCount + 1 } :
            AdaptiveStorage).heapCells = [] := he
        by_cases hnm : s.cellCount < MAX_CELLS
        · -- room in the inline array
          have hA1 : adaptiveSet s x y area cover =
              { s with cellCount := s.cellCount + 1,
                       cells := Function.update (Function.update s.cells j { (viewA s).get j with next := Int.ofNat s.cellCount }) s.cellCount (⟨x, cover, area, ci⟩ : Cell) } := by
            simp only [adaptiveSet, hact2, toNat_ofNat_eq]
            rw [if_pos hnm, if_neg hne, hrd1]
            simp only [cellWrite_empty he1]
            rw [cellWrite_empty (show ({ s with cellCount := s.cellCount + 1, cells := Function.update s.cells j { (viewA s).get j with next := Int.ofNat s.cellCount } } : AdaptiveStorage).heapCells = [] from he)]
          rw [hA1, hV]
          refine ⟨⟨rfl, rfl, ?_⟩, ⟨Or.inl ⟨he, by show s.cellCount + 1 ≤ MAX_CELLS; omega⟩, hwf.tall⟩⟩
          intro k hk
          simp only [viewA_get, viewA_len, cellAcc_def]
          rw [if_neg (show ¬ MAX_CELLS < s.cellCount + 1 by omega)]
          by_cases hkn : k = s.cellCount
          · subst hkn
            rw [Function.update_same, Function.update_same]
          · rw [Function.update_noteq hkn, Function.update_noteq hkn]
            by_cases hkj : k = j
            · subst hkj
              rw [Function.update_same, Function.update_same]
            · rw [Function.update_noteq hkj, Function.update_noteq hkj, cellAcc_def,
                if_neg (not_lt.mpr hle)]
        · -- the inline array is full: spill
          have hA1 : adaptiveSet s x y area cover =
              { s with cellCount := s.cellCount + 1,
                       cells := Function.update s.cells j { (viewA s).get j with next := Int.ofNat s.cellCount },
                       heapCells := ((List.range MAX_CELLS).map (Function.update s.cells j { (viewA s).get j with next := Int.ofNat s.cellCount })) ++ [(⟨x, cover, area, ci⟩ : Cell)] } := by
            simp only [adaptiveSet, hact2, toNat_ofNat_eq]
            rw [if_neg hnm, if_neg hne, hrd1]
            simp only [cellWrite_empty he1]
            rw [if_pos (show ({ s with cellCount := s.cellCount + 1, cells := Function.update s.cells j { (viewA s).get j with next := Int.ofNat s.cellCount } } : AdaptiveStorage).heapCells.isEmpty = true from by
                show s.heapCells.isEmpty = true
                rw [he]
                rfl)]
            rfl
          rw [hA1, hV]
          refine ⟨⟨rfl, rfl, ?_⟩, ⟨Or.inr ⟨?_, by show MAX_CELLS < s.cellCount + 1; omega⟩,
            hwf.tall⟩⟩
          · intro k hk
            have hk' : k < s.cellCount + 1 := hk
            simp only [viewA_get, viewA_len, cellAcc_def]
            rw [if_pos (show MAX_CELLS < s.cellCount + 1 by omega)]
            rw [getD_append_single]
            rw [show ∀ f : Nat → Cell, ((List.range MAX_CELLS).map f).length = s.cellCount from fun f => by
              simp only [List.length_map, List.length_range]; omega]
            by_cases hkn : k = s.cellCount
            · subst hkn
              rw [if_pos rfl, Function.update_same]
            · rw [if_neg hkn, Function.update_noteq hkn,
                getD_range_map _ _ _ k (by omega)]
              by_cases hkj : k = j
              · subst hkj
                rw [Function.update_same, Function.update_same]
              · rw [Function.update_noteq hkj, Function.update_noteq hkj, cellAcc_def,
                  if_neg (not_lt.mpr hle)]
          · show (((List.range MAX_CELLS).map (Function.update s.cells j { (viewA s).get j with next := Int.ofNat s.cellCount })) ++ [(⟨x, cover, area, ci⟩ : Cell)]).length = s.cellCount + 1
            simp only [List.length_append, List.length_map, List.length_range,
              List.length_cons, List.length_nil]
            omega
      · -- already spilled
        have hne2 : s.heapCells ≠ [] := by
          intro h0
          rw [h0] at hlen
          simp only [List.length_nil] at hlen
          omega
        have hne1 : ({ s with cellCount := s.cellCount + 1 } :
            AdaptiveStorage).heapCells ≠ [] := hne2
        have hjl : j < s.heapCells.length := by
          rw [hlen]
          exact hjlt'
        have hA1 : adaptiveSet s x y area cover =
            { s with cellCount := s.cellCount + 1,
                     heapCells := (s.heapCells.set j { (viewA s).get j with next := Int.ofNat s.cellCount }) ++ [(⟨x, cover, area, ci⟩ : Cell)] } := by
          simp only [adaptiveSet, hact2, toNat_ofNat_eq]
          rw [if_neg (show ¬ s.cellCount < MAX_CELLS by omega), if_neg hne, hrd1]
          simp only [cellWrite_spilled hne1]
          rw [if_neg (show ¬ (({ s with cellCount := s.cellCount + 1, heapCells := s.heapCells.set j { (viewA s).get j with next := Int.ofNat s.cellCount } } : AdaptiveStorage).heapCells.isEmpty = true) from by
              show ¬ ((s.heapCells.set j _).isEmpty = true)
              rcases hcl : s.heapCells with _ | ⟨a, l⟩
              · exact absurd hcl hne2
              · simp)]
        rw [hA1, hV]
        refine ⟨⟨rfl, rfl, ?_⟩, ⟨Or.inr ⟨?_, by show MAX_CELLS < s.cellCount + 1; omega⟩,
          hwf.tall⟩⟩
        · intro k hk
          have hk' : k < s.cellCount + 1 := hk
          simp only [viewA_get, viewA_len, cellAcc_def]
          rw [if_pos (show MAX_CELLS < s.cellCount + 1 by omega)]
          rw [getD_append_single]
          rw [show ∀ c : Cell, (s.heapCells.set j c).length = s.cellCount from fun c => by rw [List.length_set]; exact hlen]
          by_cases hkn : k = s.cellCount
          · subst hkn
            rw [if_pos rfl, Function.update_same]
          · rw [if_neg hkn, Function.update_noteq hkn, getD_set_eq _ _ _ _ hjl k]
            by_cases hkj : k = j
            · subst hkj
              rw [if_pos rfl, Function.update_same]
            · rw [if_neg hkj, Function.update_noteq hkj, cellAcc_def, if_pos hgt]
        · show ((s.heapCells.set j { (viewA s).get j with next := Int.ofNat s.cellCount }) ++ [(⟨x, cover, area, ci⟩ : Cell)]).length = s.cellCount + 1
          simp only [List.length_append, List.length_set, List.length_cons,
            List.length_nil]
          omega


/-! ### Reset states, field preservation, and the run-level simulation -/

theorem heapReset_rep (s : HeapStorage) (mn mx : FixedPoint) :
    RepRows (viewH (heapReset s mn mx)) (fun _ => []) := by
  refine ⟨?_, fun y => by simp, fun y y' hyy i hi => by simp at hi, fun y => by simp⟩
  intro y
  show ChainRep _ _ ((List.replicate (mx.y - mn.y).toNat (-1)).getD y (-1)) []
  rw [getD_replicate_self]
  exact ChainRep.nil

theorem adaptiveReset_rep (s : AdaptiveStorage) (mn mx : FixedPoint) :
    RepRows (viewA (adaptiveReset s mn mx)) (fun _ => []) := by
  refine ⟨?_, fun y => by simp, fun y y' hyy i hi => by simp at hi, fun y => by simp⟩
  intro y
  have hidx : (adaptiveReset s mn mx).idxAcc y = -1 := by
    rw [idxAcc_def]
    simp only [adaptiveReset]
    by_cases ht : MAX_BAND < (mx.y - mn.y).toNat
    · rw [if_pos ht, if_pos ht, getD_replicate_self]
    · rw [if_neg ht, if_neg ht]
      by_cases hl : y < (mx.y - mn.y).toNat
      · rw [if_pos hl, if_pos hl]
      · rw [if_neg hl]
  show ChainRep _ _ ((viewA (adaptiveReset s mn mx)).idx y) []
  rw [viewA_idx, hidx]
  exact ChainRep.nil

theorem adaptiveReset_wf (s : AdaptiveStorage) (mn mx : FixedPoint) :
    AdaptiveWF (adaptiveReset s mn mx) := by
  constructor
  · exact Or.inl ⟨rfl, Nat.zero_le _⟩
  · intro ht
    have ht' : MAX_BAND < (mx.y - mn.y).toNat := ht
    show (if (mx.y - mn.y).toNat > MAX_BAND then List.replicate (mx.y - mn.y).toNat (-1)
      else ([] : List Int)).length = (mx.y - mn.y).toNat
    rw [if_pos ht']
    simp

theorem cellWrite_min (s : AdaptiveStorage) (i : Nat) (c : Cell) :
    (s.cellWrite i c).min = s.min := by
  unfold AdaptiveStorage.cellWrite
  split <;> rfl

theorem idxWrite_min (s : AdaptiveStorage) (y : Nat) (v : Int) :
    (s.idxWrite y v).min = s.min := by
  unfold AdaptiveStorage.idxWrite
  split <;> rfl

theorem cellWrite_height (s : AdaptiveStorage) (i : Nat) (c : Cell) :
    (s.cellWrite i c).height = s.height := by
  unfold AdaptiveStorage.cellWrite
  split <;> rfl

theorem idxWrite_height (s : AdaptiveStorage) (y : Nat) (v : Int) :
    (s.idxWrite y v).height = s.height := by
  unfold AdaptiveStorage.idxWrite
  split <;> rfl

theorem heapSet_min (s : HeapStorage) (x y a c : Int) :
    (heapSet s x y a c).min = s.min := by
  simp only [heapSet]
  split
  · rfl
  · split <;> rfl

theorem heapSet_indices_length (s : HeapStorage) (x y a c : Int) :
    (heapSet s x y a c).indices.length = s.indices.length := by
  simp only [heapSet]
  split
  · rfl
  · split
    · simp
    · rfl

theorem adaptiveSet_min (s : AdaptiveStorage) (x y a c : Int) :
    (adaptiveSet s x y a c).min = s.min := by
  simp only [adaptiveSet]
  split
  · exact cellWrite_min _ _ _
  · split <;> (try split) <;> (try split) <;>
      simp [cellWrite_min, idxWrite_min]

theorem adaptiveSet_height (s : AdaptiveStorage) (x y a c : Int) :
    (adaptiveSet s x y a c).height = s.height := by
  simp only [adaptiveSet]
  split
  · exact cellWrite_height _ _ _
  · split <;> (try split) <;> (try split) <;>
      simp [cellWrite_height, idxWrite_height]

/-- Both `setView` branches relate the new cell count to the length
change of the touched row. -/
theorem setView_len_rep {v : StoreView} {rows : Nat → IdxRow} (h : RepRows v rows)
    (yindex : Nat) (x area cover : Int) :
    (setView v yindex x area cover).len + (rows yindex).length =
      v.len + (absInsertIdx v.len x area cover (rows yindex)).length := by
  obtain ⟨hchain, hnd, hdisj, hsort⟩ := h
  have hfuel : (rows yindex).length < v.len + 1 :=
    Nat.lt_succ_of_le (chainRep_row_length_le (hchain yindex) (hnd yindex))
  rcases setWalk_classify x (rows yindex) (v.idx yindex) (-1) (v.len + 1) (hchain yindex)
      hfuel with
    ⟨pre, i, d, post, hrow, hdx, hwalk, hpre⟩ | ⟨pre, post, hrow, hwalk, hpre, hpost⟩
  · obtain ⟨d1, d2, d3⟩ := d
    have hd1 : x = d1 := hdx.symm
    subst hd1
    have habs : absInsertIdx v.len x area cover (rows yindex) =
        pre ++ (i, x, wrap32 (d2 + cover), wrap32 (d3 + area)) :: post := by
      rw [hrow]
      exact absInsertIdx_found v.len area cover pre i d2 d3 post hpre
    rw [setView_merge_eq hwalk, habs, hrow]
    simp
  · have habs : absInsertIdx v.len x area cover (rows yindex) =
        pre ++ (v.len, x, cover, area) :: post := by
      rw [hrow]
      exact absInsertIdx_split v.len area cover pre post hpre hpost
    rcases List.eq_nil_or_concat pre with rfl | ⟨l', a', hconc⟩
    · simp only [List.nil_append] at hrow habs
      have hwalk' : setWalk v.get x (v.len + 1) (v.idx yindex) (-1) =
          SetAction.insert (rowHead post) (-1) := hwalk
      rw [setView_insert_head_eq hwalk', habs, hrow]
      simp only [List.length_cons]
      omega
    · have hprene : pre ≠ [] := by
        subst hconc
        exact List.concat_ne_nil a' l'
      obtain ⟨j, hjmem, hjeq⟩ := rowLastIdx_nonempty (-1) pre hprene
      have hwalk' : setWalk v.get x (v.len + 1) (v.idx yindex) (-1) =
          SetAction.insert (rowHead post) (Int.ofNat j) := by
        rw [hwalk, hjeq]
      rw [setView_insert_after_eq hwalk', habs, hrow]
      simp only [List.length_append, List.length_cons]
      omega

/-- A `set` operation `(x, y, area, cover)`. -/
abbrev SetOp := Int × Int × Int × Int

def heapRun (s : HeapStorage) : List SetOp → HeapStorage
  | [] => s
  | (x, y, a, c) :: ops => heapRun (heapSet s x y a c) ops

def adaptiveRun (s : AdaptiveStorage) : List SetOp → AdaptiveStorage
  | [] => s
  | (x, y, a, c) :: ops => adaptiveRun (adaptiveSet s x y a c) ops

/-- Joint invariant carried along a run: both storages represent the
same indexed rows, with matching cell counts, minima and band. -/
structure SyncInv (mn mx : FixedPoint) (sH : HeapStorage) (sA : AdaptiveStorage)
    (rows : Nat → IdxRow) : Prop where
  repH : RepRows (viewH sH) rows
  repA : RepRows (viewA sA) rows
  lenEq : (viewH sH).len = (viewA sA).len
  minH : sH.min = mn
  minA : sA.min = mn
  idxLen : sH.indices.length = (mx.y - mn.y).toNat
  heightA : sA.height = (mx.y - mn.y).toNat
  wfA : AdaptiveWF sA

theorem syncInv_reset (sH : HeapStorage) (sA : AdaptiveStorage) (mn mx : FixedPoint) :
    SyncInv mn mx (heapReset sH mn mx) (adaptiveReset sA mn mx) (fun _ => []) := by
  refine ⟨heapReset_rep sH mn mx, adaptiveReset_rep sA mn mx, rfl, rfl, rfl, ?_, rfl,
    adaptiveReset_wf sA mn mx⟩
  simp [heapReset]

theorem syncInv_set {mn mx : FixedPoint} {sH : HeapStorage} {sA : AdaptiveStorage}
    {rows : Nat → IdxRow} (hI : SyncInv mn mx sH sA rows)
    (x y a c : Int) (hbl : mn.y ≤ y) (hbu : y < mx.y) :
    SyncInv mn mx (heapSet sH x y a c) (adaptiveSet sA x y a c)
      (Function.update rows ((y - mn.y).toNat)
        (absInsertIdx (viewH sH).len x a c (rows ((y - mn.y).toNat)))) := by
  have hyx : (y - sH.min.y).toNat = (y - mn.y).toNat := by rw [hI.minH]
  have hyxA : (y - sA.min.y).toNat = (y - mn.y).toNat := by rw [hI.minA]
  have hyH : (y - sH.min.y).toNat < sH.indices.length := by
    rw [hyx, hI.idxLen]
    omega
  have hyA : (y - sA.min.y).toNat < sA.height := by
    rw [hyxA, hI.heightA]
    omega
  have hAgH := heapSet_agree hI.repH x y a c hyH
  obtain ⟨hAgA, hwfA'⟩ := adaptiveSet_agree hI.repA hI.wfA x y a c hyA
  have hrepH' := repRows_agree (setView_rep hI.repH ((y - sH.min.y).toNat) x a c) hAgH
  have hrepA' := repRows_agree (setView_rep hI.repA ((y - sA.min.y).toNat) x a c) hAgA
  rw [hyx] at hrepH'
  rw [hyxA] at hrepA'
  rw [← hI.lenEq] at hrepA'
  have hlenH := setView_len_rep hI.repH ((y - sH.min.y).toNat) x a c
  have hlenA := setView_len_rep hI.repA ((y - sA.min.y).toNat) x a c
  rw [hyx] at hlenH
  rw [hyxA] at hlenA
  rw [← hI.lenEq] at hlenA
  have hlh : (viewH (heapSet sH x y a c)).len =
      (setView (viewH sH) ((y - sH.min.y).toNat) x a c).len := hAgH.2.1
  have hla : (viewA (adaptiveSet sA x y a c)).len =
      (setView (viewA sA) ((y - sA.min.y).toNat) x a c).len := hAgA.2.1
  rw [hyx] at hlh
  rw [hyxA] at hla
  refine ⟨hrepH', hrepA', ?_, ?_, ?_, ?_, ?_, hwfA'⟩
  · rw [hlh, hla]
    omega
  · rw [heapSet_min, hI.minH]
  · rw [adaptiveSet_min, hI.minA]
  · rw [heapSet_indices_length, hI.idxLen]
  · rw [adaptiveSet_height, hI.heightA]

theorem syncInv_run {mn mx : FixedPoint} :
    ∀ (ops : List SetOp) {sH : HeapStorage} {sA : AdaptiveStorage} {rows : Nat → IdxRow},
    SyncInv mn mx sH sA rows →
    (∀ op ∈ ops, mn.y ≤ op.2.1 ∧ op.2.1 < mx.y) →
    ∃ rows', SyncInv mn mx (heapRun sH ops) (adaptiveRun sA ops) rows' := by
  intro ops
  induction ops with
  | nil =>
    intro sH sA rows hI _
    exact ⟨rows, hI⟩
  | cons op rest ih =>
    intro sH sA rows hI hband
    obtain ⟨x, y, a, c⟩ := op
    have hb := hband (x, y, a, c) (by simp)
    exact ih (syncInv_set hI x y a c hb.1 hb.2) (fun q hq => hband q (by simp [hq]))

theorem rowsAt_of_sync {mn mx : FixedPoint} {sH : HeapStorage} {sA : AdaptiveStorage}
    {rows : Nat → IdxRow} (hI : SyncInv mn mx sH sA rows) (yy : Nat) :
    heapRowsAt sH yy = (rows yy).map Prod.snd ∧
    adaptiveRowsAt sA yy = (rows yy).map Prod.snd := by
  constructor
  · exact rowWalk_of_chain (hI.repH.chains yy) (fun i _ => rfl) _
      (Nat.lt_succ_of_le (chainRep_row_length_le (hI.repH.chains yy) (hI.repH.nodup yy)))
  · exact rowWalk_of_chain (hI.repA.chains yy) (fun i _ => rfl) _
      (Nat.lt_succ_of_le (chainRep_row_length_le (hI.repA.chains yy) (hI.repA.nodup yy)))


/-- C4: the two cell-storage implementations are observationally
equivalent. For every `reset(min, max)` followed by any sequence of
`set(x, y, area, cover)` calls with `y` inside the band, walking any
row's linked list through the public `indices()` and `cells()`
accessors yields the same `(x, cover, area)` sequence for the heap
storage and the adaptive storage. -/
theorem storage_equivalence_C4 (sH : HeapStorage) (sA : AdaptiveStorage)
    (mn mx : FixedPoint) (ops : List SetOp)
    (hband : ∀ op ∈ ops, mn.y ≤ op.2.1 ∧ op.2.1 < mx.y) :
    ∀ yy : Nat, heapRowsAt (heapRun (heapReset sH mn mx) ops) yy =
      adaptiveRowsAt (adaptiveRun (adaptiveReset sA mn mx) ops) yy := by
  obtain ⟨rows', hI⟩ := syncInv_run ops (syncInv_reset sH sA mn mx) hband
  intro yy
  rw [(rowsAt_of_sync hI yy).1, (rowsAt_of_sync hI yy).2]

def opsC4 : List SetOp := [(5, 0, 7, 9), (3, 1, 2, 4), (5, 0, 1, 1), (2, 0, 6, 6)]

def heapStorage0 : HeapStorage := ⟨⟨0, 0⟩, ⟨0, 0⟩, [], []⟩

def adaptiveStorage0 : AdaptiveStorage :=
  ⟨⟨0, 0⟩, ⟨0, 0⟩, 0, 0, fun _ => cell0, [], fun _ => 0, []⟩

theorem storage_equivalence_C4_witness :
    (∀ op ∈ opsC4, (⟨0, 0⟩ : FixedPoint).y ≤ op.2.1 ∧
      op.2.1 < (⟨4, 2⟩ : FixedPoint).y) ∧
    heapRowsAt (heapRun (heapReset heapStorage0 ⟨0, 0⟩ ⟨4, 2⟩) opsC4) 0 =
      adaptiveRowsAt (adaptiveRun (adaptiveReset adaptiveStorage0 ⟨0, 0⟩ ⟨4, 2⟩) opsC4) 0 :=
  ⟨by decide, storage_equivalence_C4 heapStorage0 adaptiveStorage0 ⟨0, 0⟩ ⟨4, 2⟩ opsC4
    (by decide) 0⟩

/-- When `x` is already present in a strictly sorted row, the sorted
merge-insertion only wrap-adds into the existing entry; no entry is
added or removed. -/
theorem absInsert_mem_merge (x a c : Int) :
    ∀ (row : List (Int × Int × Int)) (cc ca : Int), (x, cc, ca) ∈ row →
    ((row.map (fun p => p.1)).Chain' (· < ·)) →
    absInsert x a c row =
      row.map (fun p => if p.1 = x then (p.1, wrap32 (p.2.1 + c), wrap32 (p.2.2 + a))
        else p) := by
  intro row
  induction row with
  | nil =>
    intro cc ca hmem _
    simp at hmem
  | cons q rest ih =>
    intro cc ca hmem hsort
    obtain ⟨q1, q2, q3⟩ := q
    rw [List.map_cons, List.chain'_iff_pairwise, List.pairwise_cons] at hsort
    by_cases hq : q1 = x
    · subst hq
      simp only [absInsert, List.map_cons]
      rw [if_neg (lt_irrefl q1), if_pos trivial, if_pos trivial]
      congr 1
      have h1 : ∀ p ∈ rest,
          (if p.1 = q1 then (p.1, wrap32 (p.2.1 + c), wrap32 (p.2.2 + a)) else p) =
            id p := by
        intro p hp
        have hlt : q1 < p.1 := hsort.1 p.1 (List.mem_map_of_mem _ hp)
        rw [if_neg (ne_of_gt hlt)]
        rfl
      exact ((List.map_congr_left h1).trans (List.map_id rest)).symm
    · rcases List.mem_cons.mp hmem with heq | hmem'
      · exact absurd (congrArg (fun p => p.1) heq).symm hq
      · by_cases hgt : x < q1
        · exfalso
          have hxr : x ∈ rest.map (fun p => p.1) := by
            have := List.mem_map_of_mem (fun p : Int × Int × Int => p.1) hmem'
            exact this
          exact lt_irrefl x (lt_trans hgt (hsort.1 x hxr))
        · have hlt : q1 < x := lt_of_le_of_ne (not_lt.mp hgt) hq
          simp only [absInsert, List.map_cons]
          rw [if_neg (not_lt.mpr (le_of_lt hlt)), if_neg hq, if_neg hq]
          congr 1
          exact ih cc ca hmem' ((List.chain'_iff_pairwise).mpr hsort.2)

/-- C8: after a reset and any in-band run, every scanline's linked cell
list is strictly ascending in `x` (hence holds at most one cell per
`x`) in both storages; one more in-band `set(x, y, area, cover)`
transforms the touched row by the sorted merge-insertion `absInsert`;
and when `x` is already present, that insertion wrap-adds `area` and
`cover` into the existing cell instead of creating a new one. -/
theorem storage_invariant_C8 (sH : HeapStorage) (sA : AdaptiveStorage)
    (mn mx : FixedPoint) (ops : List SetOp)
    (hband : ∀ op ∈ ops, mn.y ≤ op.2.1 ∧ op.2.1 < mx.y)
    (x y a c : Int) (hyl : mn.y ≤ y) (hyu : y < mx.y) :
    (∀ yy : Nat,
      ((heapRowsAt (heapRun (heapReset sH mn mx) ops) yy).map
        (fun p => p.1)).Chain' (· < ·) ∧
      ((adaptiveRowsAt (adaptiveRun (adaptiveReset sA mn mx) ops) yy).map
        (fun p => p.1)).Chain' (· < ·)) ∧
    heapRowsAt (heapSet (heapRun (heapReset sH mn mx) ops) x y a c)
        ((y - mn.y).toNat) =
      absInsert x a c (heapRowsAt (heapRun (heapReset sH mn mx) ops)
        ((y - mn.y).toNat)) ∧
    adaptiveRowsAt (adaptiveSet (adaptiveRun (adaptiveReset sA mn mx) ops) x y a c)
        ((y - mn.y).toNat) =
      absInsert x a c (adaptiveRowsAt (adaptiveRun (adaptiveReset sA mn mx) ops)
        ((y - mn.y).toNat)) ∧
    (∀ (row : List (Int × Int × Int)) (cc ca : Int), (x, cc, ca) ∈ row →
      ((row.map (fun p => p.1)).Chain' (· < ·)) →
      absInsert x a c row =
        row.map (fun p => if p.1 = x then (p.1, wrap32 (p.2.1 + c), wrap32 (p.2.2 + a))
          else p)) := by
  obtain ⟨rows', hI⟩ := syncInv_run ops (syncInv_reset sH sA mn mx) hband
  have hI' := syncInv_set hI x y a c hyl hyu
  refine ⟨?_, ?_, ?_, fun row cc ca hmem hsort => absInsert_mem_merge x a c row cc ca
    hmem hsort⟩
  · intro yy
    constructor
    · rw [(rowsAt_of_sync hI yy).1, List.map_map]
      exact hI.repH.sorted yy
    · rw [(rowsAt_of_sync hI yy).2, List.map_map]
      exact hI.repA.sorted yy
  · have h1 := (rowsAt_of_sync hI' ((y - mn.y).toNat)).1
    rw [Function.update_same, absInsertIdx_map_snd,
      ← (rowsAt_of_sync hI ((y - mn.y).toNat)).1] at h1
    exact h1
  · have h2 := (rowsAt_of_sync hI' ((y - mn.y).toNat)).2
    rw [Function.update_same, absInsertIdx_map_snd,
      ← (rowsAt_of_sync hI ((y - mn.y).toNat)).2] at h2
    exact h2

theorem storage_invariant_C8_witness :
    ((∀ op ∈ opsC4, (⟨0, 0⟩ : FixedPoint).y ≤ op.2.1 ∧
        op.2.1 < (⟨4, 2⟩ : FixedPoint).y) ∧
      (⟨0, 0⟩ : FixedPoint).y ≤ (0 : Int) ∧ (0 : Int) < (⟨4, 2⟩ : FixedPoint).y) ∧
    heapRowsAt (heapSet (heapRun (heapReset heapStorage0 ⟨0, 0⟩ ⟨4, 2⟩) opsC4)
        5 0 11 13) 0 =
      absInsert 5 11 13 (heapRowsAt (heapRun (heapReset heapStorage0 ⟨0, 0⟩ ⟨4, 2⟩)
        opsC4) 0) :=
  ⟨⟨by decide, by decide, by decide⟩,
    (storage_invariant_C8 heapStorage0 adaptiveStorage0 ⟨0, 0⟩ ⟨4, 2⟩ opsC4
      (by decide) 5 0 11 13 (by decide) (by decide)).2.1⟩


/-! ### C9: the fixed-point rasterizer pipeline and render determinism -/

/-- `ONE_PIXEL` (raster.rs): one pixel in 24.8 fixed point. -/
def ONE_PIXEL : Int := 256

/-- `trunc` (raster.rs): arithmetic shift right by `PIXEL_BITS`. -/
def ftrunc (x : Int) : Int := x / 2 ^ 8

/-- `fract` (raster.rs): low eight bits. -/
def ffract (x : Int) : Int := x % 2 ^ 8

/-- Reinterpretation of an i32 value as u64 (Rust `as u64` sign-extends
and reinterprets). -/
def u64of (v : Int) : Int := v % 2 ^ 64

/-- `udiv` (raster.rs, inside `line_to`): u64 product, logical shift
right by 24, truncated back to i32. -/
def udiv (a b : Int) : Int := wrap32 ((u64of a * u64of b) % 2 ^ 64 / 2 ^ 24)

/-- The mutable fields of `Rasterizer` that the fixed-point pipeline
reads and writes (`shift`/`current` only feed the f32 conversion layer
and are absorbed into the fixed-point inputs). -/
structure RState where
  storage : HeapStorage
  xmin : Int
  xmax : Int
  ymin : Int
  ymax : Int
  start : FixedPoint
  closed : Bool
  px : Int
  py : Int
  cx : Int
  cy : Int
  cover : Int
  area : Int
  invalid : Bool

/-- Source: raster.rs, `Rasterizer::set_cell`. -/
def setCell (s : RState) (x y : Int) : RState :=
  let st := if s.invalid = false ∧ (s.area ≠ 0 ∨ s.cover ≠ 0) then
      { s with storage := heapSet s.storage s.cx s.cy s.area s.cover } else s
  { st with area := 0, cover := 0,
            cx := if x > s.xmin - 1 then x else s.xmin - 1,
            cy := y,
            invalid := decide (y ≥ s.ymax ∨ y < s.ymin ∨ x ≥ s.xmax) }

/-- Source: raster.rs, `Rasterizer::move_to` (fixed-point level). -/
def fMoveTo (s : RState) (p : FixedPoint) : RState :=
  let s1 := setCell s (ftrunc p.x) (ftrunc p.y)
  { s1 with px := p.x, py := p.y }

/-- The shared tail of `line_to`: accumulate the final partial scanline
contribution and store the new current point. -/
def finishLine (s : RState) (toX toY fx1 fy1 : Int) : RState :=
  let fx2 := ffract toX
  let fy2 := ffract toY
  { s with cover := s.cover + (fy2 - fy1),
           area := s.area + (fy2 - fy1) * (fx1 + fx2),
           px := toX, py := toY }

/-- The ascending vertical cell loop of `line_to` (`dx == 0`, `dy > 0`). -/
def vUp (ex1 ey2 fx1 : Int) : Nat → RState → Int → Int → RState × Int
  | 0, s, _, fy1 => (s, fy1)
  | fuel + 1, s, ey1, fy1 =>
    let fy2 := ONE_PIXEL
    let s1 := { s with cover := s.cover + (fy2 - fy1),
                       area := s.area + (fy2 - fy1) * fx1 * 2 }
    let ey1' := ey1 + 1
    let s2 := setCell s1 ex1 ey1'
    if ey1' = ey2 then (s2, 0) else vUp ex1 ey2 fx1 fuel s2 ey1' 0

/-- The descending vertical cell loop of `line_to` (`dx == 0`, `dy < 0`). -/
def vDown (ex1 ey2 fx1 : Int) : Nat → RState → Int → Int → RState × Int
  | 0, s, _, fy1 => (s, fy1)
  | fuel + 1, s, ey1, fy1 =>
    let fy2 := 0
    let s1 := { s with cover := s.cover + (fy2 - fy1),
                       area := s.area + (fy2 - fy1) * fx1 * 2 }
    let ey1' := ey1 - 1
    let s2 := setCell s1 ex1 ey1'
    if ey1' = ey2 then (s2, ONE_PIXEL)
    else vDown ex1 ey2 fx1 fuel s2 ey1' ONE_PIXEL

/-- The diagonal cell walker of `line_to`: one pixel-boundary crossing
per iteration, classified by the running product. -/
def dWalk (dx dy dxr dyr ex2 ey2 : Int) :
    Nat → RState → Int → Int → Int → Int → Int → RState × Int × Int
  | 0, s, _, _, fx1, fy1, _ => (s, fx1, fy1)
  | fuel + 1, s, ex1, ey1, fx1, fy1, prod =>
    if prod ≤ 0 ∧ prod - dx * ONE_PIXEL > 0 then
      let fy2 := udiv (-prod) (-dxr)
      let prod' := prod - dy * ONE_PIXEL
      let s1 := { s with cover := s.cover + (fy2 - fy1),
                         area := s.area + (fy2 - fy1) * (fx1 + 0) }
      let ex1' := ex1 - 1
      let s2 := setCell s1 ex1' ey1
      if ex1' = ex2 ∧ ey1 = ey2 then (s2, ONE_PIXEL, fy2)
      else dWalk dx dy dxr dyr ex2 ey2 fuel s2 ex1' ey1 ONE_PIXEL fy2 prod'
    else if prod - dx * ONE_PIXEL ≤ 0 ∧ prod - dx * ONE_PIXEL + dy * ONE_PIXEL > 0 then
      let prod' := prod - dx * ONE_PIXEL
      let fx2 := udiv (-prod') dyr
      let fy2 := ONE_PIXEL
      let s1 := { s with cover := s.cover + (fy2 - fy1),
                         area := s.area + (fy2 - fy1) * (fx1 + fx2) }
      let ey1' := ey1 + 1
      let s2 := setCell s1 ex1 ey1'
      if ex1 = ex2 ∧ ey1' = ey2 then (s2, fx2, 0)
      else dWalk dx dy dxr dyr ex2 ey2 fuel s2 ex1 ey1' fx2 0 prod'
    else if prod - dx * ONE_PIXEL + dy * ONE_PIXEL ≤ 0 ∧ prod + dy * ONE_PIXEL ≥ 0 then
      let prod' := prod + dy * ONE_PIXEL
      let fy2 := udiv prod' dxr
      let s1 := { s with cover := s.cover + (fy2 - fy1),
                         area := s.area + (fy2 - fy1) * (fx1 + ONE_PIXEL) }
      let ex1' := ex1 + 1
      let s2 := setCell s1 ex1' ey1
      if ex1' = ex2 ∧ ey1 = ey2 then (s2, 0, fy2)
      else dWalk dx dy dxr dyr ex2 ey2 fuel s2 ex1' ey1 0 fy2 prod'
    else
      let fx2 := udiv prod (-dyr)
      let fy2 := 0
      let prod' := prod + dx * ONE_PIXEL
      let s1 := { s with cover := s.cover + (fy2 - fy1),
                         area := s.area + (fy2 - fy1) * (fx1 + fx2) }
      let ey1' := ey1 - 1
      let s2 := setCell s1 ex1 ey1'
      if ex1 = ex2 ∧ ey1' = ey2 then (s2, fx2, ONE_PIXEL)
      else dWalk dx dy dxr dyr ex2 ey2 fuel s2 ex1 ey1' fx2 ONE_PIXEL prod'

/-- Source: raster.rs, `Rasterizer::line_to` (fixed-point level). -/
def lineTo (s0 : RState) (toP : FixedPoint) : RState :=
  let toX := toP.x
  let toY := toP.y
  let ey1 := ftrunc s0.py
  let ey2 := ftrunc toY
  if (ey1 ≥ s0.ymax ∧ ey2 ≥ s0.ymax) ∨ (ey1 < s0.ymin ∧ ey2 < s0.ymin) then
    { s0 with px := toX, py := toY }
  else
    let ex1 := ftrunc s0.px
    let ex2 := ftrunc toX
    let fx1 := ffract s0.px
    let fy1 := ffract s0.py
    let dx := toX - s0.px
    let dy := toY - s0.py
    if ex1 = ex2 ∧ ey1 = ey2 then
      finishLine s0 toX toY fx1 fy1
    else if dy = 0 then
      let s1 := setCell s0 ex2 ey2
      { s1 with px := toX, py := toY }
    else if dx = 0 then
      if dy > 0 then
        let r := vUp ex1 ey2 fx1 ((ey2 - ey1).natAbs + 1) s0 ey1 fy1
        finishLine r.1 toX toY fx1 r.2
      else
        let r := vDown ex1 ey2 fx1 ((ey1 - ey2).natAbs + 1) s0 ey1 fy1
        finishLine r.1 toX toY fx1 r.2
    else
      let prod := dx * fy1 - dy * fx1
      let dxr := if ex1 ≠ ex2 then Int.div 16777215 dx else 0
      let dyr := if ey1 ≠ ey2 then Int.div 16777215 dy else 0
      let r := dWalk dx dy dxr dyr ex2 ey2
        ((ex1 - ex2).natAbs + (ey1 - ey2).natAbs + 1) s0 ex1 ey1 fx1 fy1 prod
      finishLine r.1 toX toY r.2.1 r.2.2

/-- A path command at the fixed-point level (the `f32` to 24.8
conversion `to_fixed(v) = (v * 256.) as int` happens before these). -/
inductive RCmd where
  | moveTo (p : FixedPoint)
  | lineTo (p : FixedPoint)
  | quadTo (c p : FixedPoint)
  | curveTo (c1 c2 p : FixedPoint)
  | close

/-- Source: raster.rs, `impl PathBuilder for Rasterizer` — one builder
command. The quadratic/cubic flatteners (pure fixed-point state
transformers) are taken as parameters. -/
def bStep (quadF : RState → FixedPoint → FixedPoint → RState)
    (cubeF : RState → FixedPoint → FixedPoint → FixedPoint → RState)
    (s : RState) : RCmd → RState
  | RCmd.moveTo p =>
    let s1 := if s.closed = false then lineTo s s.start else s
    let s2 := fMoveTo s1 p
    { s2 with closed := false, start := p }
  | RCmd.lineTo p => { lineTo s p with closed := false }
  | RCmd.quadTo c p => quadF { s with closed := false } c p
  | RCmd.curveTo c1 c2 p => cubeF { s with closed := false } c1 c2 p
  | RCmd.close => { lineTo s s.start with closed := true }

/-- The byte writes of one span: `row[xi..xi + count]` filled with `c`
relative to `row_offset`. -/
def spanWrites (off xi count : Nat) (c : Int) : List (Nat × Int) :=
  (List.range count).map (fun k => (off + xi + k, c))

/-- The inner sweep over one scanline's cell list (raster.rs,
`Rasterizer::rasterize`, the `loop` over `cells`). Returns the writes
together with the final `x` and running `cover`. -/
def cellLoop (cells : List Cell) (fill : Fill) (minx : Int) (rowOff : Nat) :
    Nat → Int → Int → Int → List (Nat × Int) × Int × Int
  | 0, x, cover, _ => ([], x, cover)
  | fuel + 1, x, cover, index =>
    let cell := cells.getD index.toNat cell0
    let w1 := if cover ≠ 0 ∧ cell.x > x then
        spanWrites rowOff x.toNat (cell.x - x).toNat (coverage fill cover) else []
    let cover' := wrap32 (cover + wrap32 (cell.cover * (ONE_PIXEL * 2)))
    let area' := wrap32 (cover' - cell.area)
    let w2 := if area' ≠ 0 ∧ cell.x ≥ minx then
        spanWrites rowOff cell.x.toNat 1 (coverage fill area') else []
    if cell.next = -1 then (w1 ++ w2, cell.x + 1, cover')
    else
      let r := cellLoop cells fill minx rowOff fuel (cell.x + 1) cover' cell.next
      (w1 ++ w2 ++ r.1, r.2.1, r.2.2)

/-- The writes of one indexed row (raster.rs, `Rasterizer::rasterize`,
body of the `for (i, &index)` loop). -/
def rowWrites (cells : List Cell) (fill : Fill) (minx miny maxx : Int)
    (h pitch : Nat) (yUp : Bool) (i : Nat) (index : Int) : List (Nat × Int) :=
  if index = -1 then []
  else
    let yy := ((i : Int) - miny).toNat
    let rowOff := if yUp then pitch * (h - 1 - yy) else pitch * yy
    let r := cellLoop cells fill minx rowOff (cells.length + 1) minx 0 index
    r.1 ++ (if r.2.2 ≠ 0 then
      spanWrites rowOff r.2.1.toNat (maxx - r.2.1).toNat (coverage fill r.2.2) else [])

/-- The full post-accumulation sweep over `indices()` / `cells()`. -/
def sweepWrites (st : HeapStorage) (fill : Fill) (minx miny maxx : Int)
    (h pitch : Nat) (yUp : Bool) : List (Nat × Int) :=
  ((List.range st.indices.length).map (fun i =>
    rowWrites st.cells fill minx miny maxx h pitch yUp i (st.indices.getD i (-1)))).join

/-- Source: raster.rs, `Rasterizer::rasterize` (74–164): reset the
storage to the target band, reinitialize the walker state (a fresh
`Rasterizer::new` starts each render call), run the path, close a
trailing open subpath, flush the last cell, then sweep the rows into
byte writes. -/
def rasterizeWrites (quadF : RState → FixedPoint → FixedPoint → RState)
    (cubeF : RState → FixedPoint → FixedPoint → FixedPoint → RState)
    (storage0 : HeapStorage) (w h : Int) (cmds : List RCmd) (fill : Fill)
    (pitch : Nat) (yUp : Bool) : List (Nat × Int) :=
  let st0 : RState :=
    { storage := heapReset storage0 ⟨0, 0⟩ ⟨w, h⟩,
      xmin := 0, ymin := 0, xmax := w, ymax := h,
      start := ⟨0, 0⟩, closed := true, px := 0, py := 0,
      cx := 0, cy := 0, cover := 0, area := 0, invalid := true }
  let s1 := cmds.foldl (bStep quadF cubeF) st0
  let s2 := if s1.closed = false then lineTo s1 s1.start else s1
  let s3 := if s2.invalid = false then
      { s2 with storage := heapSet s2.storage s2.cx s2.cy s2.area s2.cover } else s2
  sweepWrites s3.storage fill s3.xmin s3.ymin s3.xmax h.toNat pitch yUp

/-- Applying a list of byte writes to a buffer. -/
def applyWrites (ws : List (Nat × Int)) (buf : Nat → Int) : Nat → Int :=
  ws.foldl (fun b w => Function.update b w.1 w.2) buf

/-- The last write to a position, if any. -/
def lastWrite (ws : List (Nat × Int)) (p : Nat) : Option Int :=
  ws.foldl (fun acc w => if w.1 = p then some w.2 else acc) none

theorem lastWrite_aux (p : Nat) : ∀ (t : List (Nat × Int)) (o : Option Int) (d : Int),
    (t.foldl (fun acc w => if w.1 = p then some w.2 else acc) o).getD d =
      (lastWrite t p).getD (o.getD d) := by
  intro t
  induction t with
  | nil => intro o d; rfl
  | cons w t ih =>
    intro o d
    show (t.foldl _ (if w.1 = p then some w.2 else o)).getD d = _
    rw [ih]
    rw [show lastWrite (w :: t) p =
      t.foldl (fun acc w' => if w'.1 = p then some w'.2 else acc)
        (if w.1 = p then some w.2 else none) from rfl, ih]
    by_cases hw : w.1 = p
    · rw [if_pos hw, if_pos hw]
      rfl
    · rw [if_neg hw, if_neg hw]
      rfl

theorem applyWrites_eq : ∀ (ws : List (Nat × Int)) (b : Nat → Int) (p : Nat),
    applyWrites ws b p = (lastWrite ws p).getD (b p) := by
  intro ws
  induction ws with
  | nil => intro b p; rfl
  | cons w t ih =>
    intro b p
    show applyWrites t (Function.update b w.1 w.2) p = _
    rw [ih]
    rw [show lastWrite (w :: t) p =
      t.foldl (fun acc w' => if w'.1 = p then some w'.2 else acc)
        (if w.1 = p then some w.2 else none) from rfl, lastWrite_aux]
    by_cases hw : w.1 = p
    · subst hw
      rw [if_pos rfl, Function.update_same]
      rfl
    · rw [if_neg hw, Function.update_noteq (fun he => hw he.symm)]
      rfl

/-- Writing the same write list twice leaves the buffer byte-identical
to writing it once: the stores do not read the buffer. -/
theorem applyWrites_idem (ws : List (Nat × Int)) (b : Nat → Int) :
    applyWrites ws (applyWrites ws b) = applyWrites ws b := by
  funext p
  rw [applyWrites_eq, applyWrites_eq]
  rcases lastWrite ws p with _ | v
  · rfl
  · rfl

/-- C9: rendering is deterministic. For every fixed-point path, fill
rule, positive target size, pitch and orientation, and any quadratic and
cubic flatteners: the write list produced by `rasterize` does not depend
on the prior contents of the scratch storage (it is re-initialized, not
freed, by the leading `reset`), and re-rendering into the buffer that
already holds the first run's output leaves it byte-identical. -/
theorem render_deterministic_C9
    (quadF : RState → FixedPoint → FixedPoint → RState)
    (cubeF : RState → FixedPoint → FixedPoint → FixedPoint → RState)
    (cmds : List RCmd) (fill : Fill) (w h : Int) (pitch : Nat) (yUp : Bool)
    (s1 s2 : HeapStorage) (buf : Nat → Int) (hw : 0 < w) (hh : 0 < h) :
    rasterizeWrites quadF cubeF s1 w h cmds fill pitch yUp =
      rasterizeWrites quadF cubeF s2 w h cmds fill pitch yUp ∧
    applyWrites (rasterizeWrites quadF cubeF s1 w h cmds fill pitch yUp)
        (applyWrites (rasterizeWrites quadF cubeF s1 w h cmds fill pitch yUp) buf) =
      applyWrites (rasterizeWrites quadF cubeF s1 w h cmds fill pitch yUp) buf := by
  constructor
  · rfl
  · exact applyWrites_idem _ _


theorem render_deterministic_C9_witness :
    (0 : Int) < 3 ∧ (0 : Int) < 2 ∧
    (rasterizeWrites (fun s _ _ => s) (fun s _ _ _ => s) heapStorage0 3 2
        [RCmd.moveTo ⟨128, 64⟩, RCmd.lineTo ⟨640, 448⟩, RCmd.close] Fill.nonZero 3 false =
      rasterizeWrites (fun s _ _ => s) (fun s _ _ _ => s)
        (heapRun (heapReset heapStorage0 ⟨0, 0⟩ ⟨4, 2⟩) opsC4) 3 2
        [RCmd.moveTo ⟨128, 64⟩, RCmd.lineTo ⟨640, 448⟩, RCmd.close] Fill.nonZero 3 false ∧
     applyWrites (rasterizeWrites (fun s _ _ => s) (fun s _ _ _ => s) heapStorage0 3 2
          [RCmd.moveTo ⟨128, 64⟩, RCmd.lineTo ⟨640, 448⟩, RCmd.close] Fill.nonZero 3 false)
        (applyWrites (rasterizeWrites (fun s _ _ => s) (fun s _ _ _ => s) heapStorage0 3 2
            [RCmd.moveTo ⟨128, 64⟩, RCmd.lineTo ⟨640, 448⟩, RCmd.close] Fill.nonZero 3
            false)
          (fun _ => (0 : Int))) =
      applyWrites (rasterizeWrites (fun s _ _ => s) (fun s _ _ _ => s) heapStorage0 3 2
          [RCmd.moveTo ⟨128, 64⟩, RCmd.lineTo ⟨640, 448⟩, RCmd.close] Fill.nonZero 3 false)
        (fun _ => (0 : Int))) :=
  ⟨by decide, by decide,
    render_deterministic_C9 (fun s _ _ => s) (fun s _ _ _ => s)
      [RCmd.moveTo ⟨128, 64⟩, RCmd.lineTo ⟨640, 448⟩, RCmd.close] Fill.nonZero 3 2 3 false
      heapStorage0 (heapRun (heapReset heapStorage0 ⟨0, 0⟩ ⟨4, 2⟩) opsC4) (fun _ => 0)
      (by decide) (by decide)⟩


/-! ### C3: the segment iterator (non-splitting path) -/

/-- Source: geometry.rs, `Vector::nearly_eq_by`: per-component absolute
difference strictly below the tolerance. -/
def nearlyEq (a b : Vec2) : Bool :=
  decide (|a.x - b.x| < 1 / 100) && decide (|a.y - b.y| < 1 / 100)

/-- A cubic curve on exact coordinates (source: segment.rs, `Curve`). -/
structure QCurve where
  a : Vec2
  b : Vec2
  c : Vec2
  d : Vec2
  deriving DecidableEq, Repr

/-- Source: segment.rs, `Curve::from_quadratic` (the `2/3` control-point
lift, exact here). -/
def fromQuadratic (a b c : Vec2) : QCurve :=
  ⟨a, ⟨a.x + 2 / 3 * (b.x - a.x), a.y + 2 / 3 * (b.y - a.y)⟩,
      ⟨c.x + 2 / 3 * (b.x - c.x), c.y + 2 / 3 * (b.y - c.y)⟩, c⟩

/-- Source: segment.rs, `enum Segment`. -/
inductive QSegment where
  | line (id : Nat) (a b : Vec2)
  | curve (id : Nat) (c : QCurve)
  | segEnd (closed : Bool)
  deriving DecidableEq, Repr

/-- The mutable state of `Segments` for the non-splitting configuration
(`segments(commands, false)`); the split buffer is never populated
there. -/
structure SegState where
  cmds : List Command
  start : Vec2
  prev : Vec2
  close : Bool
  lastWasEnd : Bool
  id : Nat
  count : Nat
  deriving Repr

/-- Source: segment.rs, `Segments::inc_id` (wraps at 254). -/
def incId (id : Nat) : Nat := if id = 254 then 0 else id + 1

/-- The inner `loop` of `Segments::next` (non-splitting arm); `id` is
captured before the loop. `fuel` bounds the skipped commands. -/
def segLoop (id : Nat) : Nat → SegState → Option (QSegment × SegState)
  | 0, _ => none
  | fuel + 1, s =>
    match s.cmds with
    | [] => none
    | cmd :: rest =>
      let s0 := { s with cmds := rest }
      match cmd with
      | Command.moveTo toP =>
        let s1 := { s0 with start := toP, prev := toP, count := 0 }
        if s.lastWasEnd = false then
          some (QSegment.segEnd false, { s1 with lastWasEnd := true })
        else segLoop id fuel s1
      | Command.lineTo toP =>
        if nearlyEq s.prev toP = false then
          some (QSegment.line id s.prev toP,
            { s0 with count := s0.count + 1, prev := toP, lastWasEnd := false })
        else segLoop id fuel s0
      | Command.curveTo c1 c2 toP =>
        some (QSegment.curve id ⟨s.prev, c1, c2, toP⟩,
          { s0 with count := s0.count + 1, prev := toP, lastWasEnd := false })
      | Command.quadTo c toP =>
        some (QSegment.curve id (fromQuadratic s.prev c toP),
          { s0 with count := s0.count + 1, prev := toP, lastWasEnd := false })
      | Command.close =>
        let s1 := { s0 with prev := s0.start }
        if s.count = 0 ∨ nearlyEq s.prev s.start = false then
          some (QSegment.line id s.prev s.start, { s1 with close := true })
        else
          some (QSegment.segEnd true, { s1 with count := 0, lastWasEnd := true })

/-- Source: segment.rs, `Segments::next` (non-splitting arm): flush a
pending close, otherwise capture the id, bump it, and run the command
loop. -/
def segNext (fuel : Nat) (s : SegState) : Option (QSegment × SegState) :=
  if s.close then
    some (QSegment.segEnd true, { s with close := false, lastWasEnd := true })
  else
    segLoop s.id fuel { s with id := incId s.id }

def segRun : Nat → SegState → List QSegment
  | 0, _ => []
  | fuel + 1, s =>
    match segNext (s.cmds.length + 2) s with
    | none => []
    | some (seg, s') => seg :: segRun fuel s'

/-- The full segment list of a command list (iterator from
`segments(commands, false)`). -/
def qsegments (cmds : List Command) : List QSegment :=
  segRun (2 * cmds.length + 4)
    ⟨cmds, ⟨0, 0⟩, ⟨0, 0⟩, false, true, 0, 0⟩


/-- C3 counterexample: on `[MoveTo(0,0), Close]` the current point and
the subpath start coincide (well within `MERGE_EPSILON`), yet the Close
arm emits a zero-length `Line` before `End(true)`, because the `count
== 0` disjunct bypasses the coincidence test. -/
theorem segments_claimC3_counterexample :
    nearlyEq ⟨0, 0⟩ ⟨0, 0⟩ = true ∧
    qsegments [Command.moveTo ⟨0, 0⟩, Command.close] =
      [QSegment.line 0 ⟨0, 0⟩ ⟨0, 0⟩, QSegment.segEnd true] := by
  constructor
  · simp only [nearlyEq, Bool.and_eq_true, decide_eq_true_eq]
    norm_num
  · rfl


/-- C3 (amended): in the segment iterator — a `MoveTo` after a prior
non-closed subpath first yields `End(false)`; a `Close` yields a
terminal `Line` from the current point to the subpath start whenever
the subpath is empty (`count = 0`) or the two points are not within
`MERGE_EPSILON = 0.01` per component (so a zero-length `Line` is
emitted for an empty subpath even when the points coincide), followed
by `End(true)` on the next step; a `Close` of a nonempty subpath whose
endpoints are within `MERGE_EPSILON` yields `End(true)` directly; and a
`LineTo` whose target is within `MERGE_EPSILON` of the current point
yields no segment. -/
theorem segments_C3_amended :
    (∀ (s : SegState) (p : Vec2) (rest : List Command) (fuel : Nat),
      s.close = false → s.lastWasEnd = false → s.cmds = Command.moveTo p :: rest →
      ∃ s', segNext (fuel + 1) s = some (QSegment.segEnd false, s')) ∧
    (∀ (s : SegState) (rest : List Command) (fuel : Nat),
      s.close = false → s.cmds = Command.close :: rest →
      (s.count = 0 ∨ nearlyEq s.prev s.start = false) →
      ∃ s', segNext (fuel + 1) s = some (QSegment.line s.id s.prev s.start, s') ∧
        ∀ fuel', ∃ s'', segNext fuel' s' = some (QSegment.segEnd true, s'')) ∧
    (∀ (s : SegState) (rest : List Command) (fuel : Nat),
      s.close = false → s.cmds = Command.close :: rest →
      s.count ≠ 0 → nearlyEq s.prev s.start = true →
      ∃ s', segNext (fuel + 1) s = some (QSegment.segEnd true, s')) ∧
    (∀ (id fuel : Nat) (s : SegState) (p : Vec2) (rest : List Command),
      s.cmds = Command.lineTo p :: rest → nearlyEq s.prev p = true →
      segLoop id (fuel + 1) s = segLoop id fuel { s with cmds := rest }) := by
  refine ⟨?_, ?_, ?_, ?_⟩
  · intro s p rest fuel hc hl hcmds
    refine ⟨{ s with cmds := rest, start := p, prev := p, count := 0, lastWasEnd := true, id := incId s.id }, ?_⟩
    unfold segNext
    rw [if_neg (by rw [hc]; exact fun h => Bool.noConfusion h)]
    show segLoop s.id (fuel + 1) { s with id := incId s.id } = _
    unfold segLoop
    simp only [hcmds]
    rw [if_pos (by rw [hl])]
  · intro s rest fuel hc hcmds hcond
    refine ⟨{ s with cmds := rest, prev := s.start, close := true, id := incId s.id }, ?_, ?_⟩
    · unfold segNext
      rw [if_neg (by rw [hc]; exact fun h => Bool.noConfusion h)]
      show segLoop s.id (fuel + 1) { s with id := incId s.id } = _
      unfold segLoop
      simp only [hcmds]
      rw [if_pos hcond]
    · intro fuel'
      refine ⟨{ s with cmds := rest, prev := s.start, close := false, lastWasEnd := true, id := incId s.id }, ?_⟩
      unfold segNext
      rw [if_pos rfl]
  · intro s rest fuel hc hcmds hcnt hne
    refine ⟨{ s with cmds := rest, prev := s.start, count := 0, lastWasEnd := true, id := incId s.id }, ?_⟩
    unfold segNext
    rw [if_neg (by rw [hc]; exact fun h => Bool.noConfusion h)]
    show segLoop s.id (fuel + 1) { s with id := incId s.id } = _
    unfold segLoop
    simp only [hcmds]
    rw [if_neg (by
      rintro (h0 | hf)
      · exact hcnt h0
      · rw [hne] at hf
        exact Bool.noConfusion hf)]
  · intro id fuel s p rest hcmds hnear
    conv_lhs => unfold segLoop
    simp only [hcmds]
    rw [if_neg (by rw [hnear]; exact fun h => Bool.noConfusion h)]


theorem segments_C3_amended_witness :
    (∃ s', segNext 3
        (⟨[Command.moveTo ⟨3, 4⟩], ⟨1, 1⟩, ⟨2, 2⟩, false, false, 5, 1⟩ : SegState) =
      some (QSegment.segEnd false, s')) ∧
    (∃ s', segNext 3 (⟨[Command.close], ⟨0, 0⟩, ⟨7, 7⟩, false, false, 3, 0⟩ : SegState) =
        some (QSegment.line 3 ⟨7, 7⟩ ⟨0, 0⟩, s') ∧
      ∀ fuel', ∃ s'', segNext fuel' s' = some (QSegment.segEnd true, s'')) ∧
    (∃ s', segNext 3 (⟨[Command.close], ⟨0, 0⟩, ⟨0, 0⟩, false, false, 3, 2⟩ : SegState) =
      some (QSegment.segEnd true, s')) ∧
    segLoop 9 3 (⟨[Command.lineTo ⟨0, 0⟩], ⟨1, 1⟩, ⟨0, 0⟩, false, false, 9, 1⟩ : SegState) =
      segLoop 9 2 (⟨[], ⟨1, 1⟩, ⟨0, 0⟩, false, false, 9, 1⟩ : SegState) :=
  ⟨segments_C3_amended.1 _ ⟨3, 4⟩ [] 2 rfl rfl rfl,
   segments_C3_amended.2.1 _ [] 2 rfl rfl (Or.inl rfl),
   segments_C3_amended.2.2.1 _ [] 2 rfl rfl (by decide)
     (by simp only [nearlyEq, Bool.and_eq_true, decide_eq_true_eq]; norm_num),
   segments_C3_amended.2.2.2 9 2 _ ⟨0, 0⟩ [] rfl
     (by simp only [nearlyEq, Bool.and_eq_true, decide_eq_true_eq]; norm_num)⟩

/-! ### C2: the stroker's zero-length "dot" branch -/

/-- Vector addition (source: geometry.rs, `impl Add for Vector`). -/
def vadd (a b : Vec2) : Vec2 := ⟨a.x + b.x, a.y + b.y⟩

/-- Vector subtraction (source: geometry.rs, `impl Sub for Vector`). -/
def vsub (a b : Vec2) : Vec2 := ⟨a.x - b.x, a.y - b.y⟩

/-- Scalar multiplication (source: geometry.rs, `impl Mul<f32> for Vector`). -/
def vmuls (v : Vec2) (s : ℚ) : Vec2 := ⟨v.x * s, v.y * s⟩

/-- Source: style.rs, `enum Cap`. -/
inductive Cap where
  | butt
  | square
  | round
  deriving DecidableEq, Repr

/-- Source: style.rs, `enum Join`. -/
inductive Join where
  | bevel
  | miter
  | round
  deriving DecidableEq, Repr

/-- The mutable state of `Segments` for the splitting configuration
(`segments(commands, true)`, the one the stroker uses); `splits` holds
the pending subdivided curves `splits[split_index..split_count]`. -/
structure SegStateS where
  cmds : List Command
  start : Vec2
  prev : Vec2
  close : Bool
  lastWasEnd : Bool
  id : Nat
  count : Nat
  splits : List QCurve
  deriving Repr

/-- Source: segment.rs, `Curve::is_line` with `MERGE_EPSILON`: at least
two of the three control legs are degenerate. -/
def curveIsLine (c : QCurve) : Bool :=
  decide (2 ≤ (nearlyEq c.a c.b).toNat + (nearlyEq c.b c.c).toNat + (nearlyEq c.c c.d).toNat)

/-- Source: segment.rs, `Curve::to_segment`: a nearly-linear curve
collapses to a `Line` (or to nothing when its endpoints also nearly
coincide). -/
def toSegment (id : Nat) (c : QCurve) : Option QSegment :=
  if curveIsLine c then
    if nearlyEq c.a c.d then none
    else some (QSegment.line id c.a c.d)
  else some (QSegment.curve id c)

/-- One iteration of the inner `loop` of `Segments::next` (splitting
arm): drain the pending splits through `to_segment`, then bump the id
and dispatch on the next command; `k` is the continuation for a pass
that emits nothing.  `splitF` abstracts `Segments::split_curve` (whose
max-curvature subdivision uses `f32` cube roots); it returns the
emitted segment, if any, and the new pending-splits queue. -/
def segLoopSF (splitF : Nat → QCurve → Option QSegment × List QCurve)
    (k : SegStateS → Option (QSegment × SegStateS)) (s : SegStateS) :
    Option (QSegment × SegStateS) :=
  match s.splits with
  | c :: restSplits =>
    match toSegment s.id c with
    | some seg =>
      some (seg, { s with splits := restSplits, count := s.count + 1, lastWasEnd := false, prev := c.d })
    | none => k { s with splits := restSplits }
  | [] =>
    match s.cmds with
    | [] => none
    | cmd :: rest =>
      let id := incId s.id
      let s0 := { s with cmds := rest, id := id }
      match cmd with
      | Command.moveTo toP =>
        let s1 := { s0 with start := toP, prev := toP, count := 0 }
        if s.lastWasEnd = false then
          some (QSegment.segEnd false, { s1 with lastWasEnd := true })
        else k s1
      | Command.lineTo toP =>
        if nearlyEq s.prev toP = false then
          some (QSegment.line id s.prev toP,
            { s0 with count := s0.count + 1, prev := toP, lastWasEnd := false })
        else k s0
      | Command.curveTo c1 c2 toP =>
        match splitF id ⟨s.prev, c1, c2, toP⟩ with
        | (some seg, q) =>
          some (seg, { s0 with splits := q, count := s0.count + 1, prev := toP, lastWasEnd := false })
        | (none, q) => k { s0 with splits := q }
      | Command.quadTo c toP =>
        match splitF id (fromQuadratic s.prev c toP) with
        | (some seg, q) =>
          some (seg, { s0 with splits := q, count := s0.count + 1, prev := toP, lastWasEnd := false })
        | (none, q) => k { s0 with splits := q }
      | Command.close =>
        let s1 := { s0 with prev := s0.start }
        if s.count = 0 ∨ nearlyEq s.prev s.start = false then
          some (QSegment.line id s.prev s.start, { s1 with close := true })
        else
          some (QSegment.segEnd true, { s1 with count := 0, lastWasEnd := true })

/-- The inner `loop` of `Segments::next` (splitting arm), iterated with
fuel bounding the passes that emit no segment. -/
def segLoopS (splitF : Nat → QCurve → Option QSegment × List QCurve) :
    Nat → SegStateS → Option (QSegment × SegStateS)
  | 0, _ => none
  | fuel + 1, s => segLoopSF splitF (segLoopS splitF fuel) s

/-- Source: segment.rs, `Segments::next` (splitting arm wrapper): flush
a pending close, otherwise run the drain/command loop. -/
def segNextS (splitF : Nat → QCurve → Option QSegment × List QCurve)
    (fuel : Nat) (s : SegStateS) : Option (QSegment × SegStateS) :=
  if s.close then
    some (QSegment.segEnd true, { s with close := false, lastWasEnd := true })
  else segLoopS splitF fuel s

/-- Source: segment.rs, `Segments::new`: the iterator starts at the
origin with `last_was_end = true`, id 0 and an empty split queue. -/
def segInitS (cmds : List Command) : SegStateS :=
  ⟨cmds, ⟨0, 0⟩, ⟨0, 0⟩, false, true, 0, 0, []⟩

/-- Source: stroke.rs, `StrokerStorage::collect`: clear the buffer and
pull segments until an `End` (recording its closed flag) or source
exhaustion; returns the buffer, the closed flag, the done flag and the
iterator state. -/
def collectS (splitF : Nat → QCurve → Option QSegment × List QCurve) :
    Nat → SegStateS → List QSegment → List QSegment × Bool × Bool × SegStateS
  | 0, s, acc => (acc, false, true, s)
  | fuel + 1, s, acc =>
    match segNextS splitF (fuel + 1) s with
    | none => (acc, false, true, s)
    | some (QSegment.segEnd closed, s') => (acc, closed, false, s')
    | some (seg, s') => collectS splitF fuel s' (acc ++ [seg])

/-- Source: stroke.rs, the `Stroker` configuration fields. -/
structure StrokeCfg where
  radius : ℚ
  radiusAbs : ℚ
  join : Join
  invMiterLimit : ℚ
  startCap : Cap
  endCap : Cap
  deriving Repr

/-- Source: stroke.rs, `Stroker::new`: `radius = width.max(0.01) * 0.5`;
a miter limit of at least 1 is inverted, anything below is treated as
limit 1. -/
def strokerNew (width miterLimit : ℚ) (j : Join) (sc ec : Cap) : StrokeCfg :=
  let radius := max width (1 / 100) * (1 / 2)
  ⟨radius, |radius|, j, if 1 ≤ miterLimit then 1 / miterLimit else 1, sc, ec⟩

/-- Source: stroke.rs, `Stroker::add_cap`; `arcF` abstracts
`geometry::arc` (the Round cap's 180-degree arc uses `f32`
trigonometry) applied to the start point, the radius and the end
point. -/
def capCmds (arcF : Vec2 → ℚ → Vec2 → List Command) (r : ℚ)
    (f t dir : Vec2) : Cap → List Command
  | Cap.butt => [Command.lineTo t]
  | Cap.square =>
    let d : Vec2 := ⟨-dir.y, dir.x⟩
    [Command.lineTo (vadd f (vmuls d r)), Command.lineTo (vadd t (vmuls d r)),
      Command.lineTo t]
  | Cap.round => arcF f r t

/-- Source: stroke.rs lines 96-101: the representative point of the
single zero-length segment. -/
def segFrom : QSegment → Vec2
  | QSegment.line _ a _ => a
  | QSegment.curve _ c => c.a
  | QSegment.segEnd _ => ⟨0, 0⟩

/-- The dot emission of `Stroker::stroke_segments` (stroke.rs 102-112):
`move_to(from + n*radius)` with `n = (0,1)`, the end cap from `start`
to `rstart`, then the start cap back with direction `-n`. -/
def dotCmds (arcF : Vec2 → ℚ → Vec2 → List Command) (cfg : StrokeCfg)
    (f : Vec2) : List Command :=
  let n : Vec2 := ⟨0, 1⟩
  let nr := vmuls n cfg.radius
  let start := vadd f nr
  let rstart := vsub f nr
  Command.moveTo start ::
    (capCmds arcF cfg.radiusAbs start rstart n cfg.endCap ++
      capCmds arcF cfg.radiusAbs rstart start (vmuls n (-1)) cfg.startCap)

/-- Source: stroke.rs, `Stroker::stroke_segments`: an empty buffer
emits nothing; a single zero-length segment with a non-Butt cap takes
the dot branch (`lengthF` abstracts `Segment::length`, an `f32` square
root); everything else runs the general outline pass, abstracted as
`restF`. -/
def strokeSegs (arcF : Vec2 → ℚ → Vec2 → List Command)
    (lengthF : QSegment → ℚ)
    (restF : StrokeCfg → List QSegment → Bool → List Command)
    (cfg : StrokeCfg) : List QSegment → Bool → List Command
  | [], _ => []
  | [seg], isClosed =>
    if lengthF seg = 0 ∧ (cfg.startCap ≠ Cap.butt ∨ cfg.endCap ≠ Cap.butt) then
      dotCmds arcF cfg (segFrom seg)
    else restF cfg [seg] isClosed
  | segs, isClosed => restF cfg segs isClosed

/-- Source: stroke.rs, `Stroker::stroke`: repeatedly collect a subpath
and stroke it until the source is exhausted. -/
def strokeLoop (arcF : Vec2 → ℚ → Vec2 → List Command)
    (lengthF : QSegment → ℚ)
    (restF : StrokeCfg → List QSegment → Bool → List Command)
    (splitF : Nat → QCurve → Option QSegment × List QCurve)
    (cfg : StrokeCfg) : Nat → SegStateS → List Command
  | 0, _ => []
  | fuel + 1, s =>
    match collectS splitF (fuel + 1) s [] with
    | (buf, closed, done, s') =>
      let out := strokeSegs arcF lengthF restF cfg buf closed
      if done then out else out ++ strokeLoop arcF lengthF restF splitF cfg fuel s'

/-- The stroking pass of `stroke_into` with an empty dash array:
`Stroker::new(segments(commands, true), ..)` followed by
`Stroker::stroke`. -/
def strokeRun (arcF : Vec2 → ℚ → Vec2 → List Command)
    (lengthF : QSegment → ℚ)
    (restF : StrokeCfg → List QSegment → Bool → List Command)
    (splitF : Nat → QCurve → Option QSegment × List QCurve)
    (cfg : StrokeCfg) (cmds : List Command) : List Command :=
  strokeLoop arcF lengthF restF splitF cfg (cmds.length + 4) (segInitS cmds)

theorem segNextS_noflush (splitF : Nat → QCurve → Option QSegment × List QCurve)
    (fuel : Nat) (s : SegStateS) (hc : s.close = false) :
    segNextS splitF fuel s = segLoopS splitF fuel s := by
  unfold segNextS
  rw [if_neg (by rw [hc]; exact fun h => Bool.noConfusion h)]

theorem segNextS_flush (splitF : Nat → QCurve → Option QSegment × List QCurve)
    (fuel : Nat) (s : SegStateS) (hc : s.close = true) :
    segNextS splitF fuel s =
      some (QSegment.segEnd true, { s with close := false, lastWasEnd := true }) := by
  unfold segNextS
  rw [if_pos hc]

theorem segLoopS_nil (splitF : Nat → QCurve → Option QSegment × List QCurve)
    (fuel : Nat) (s : SegStateS) (hsp : s.splits = []) (hcmds : s.cmds = []) :
    segLoopS splitF fuel s = none := by
  cases fuel with
  | zero => rfl
  | succ fuel =>
    conv_lhs => unfold segLoopS segLoopSF
    simp only [hsp, hcmds]

theorem segLoopS_moveTo_fresh (splitF : Nat → QCurve → Option QSegment × List QCurve)
    (fuel : Nat) (s : SegStateS) (p : Vec2) (rest : List Command)
    (hsp : s.splits = []) (hcmds : s.cmds = Command.moveTo p :: rest)
    (hl : s.lastWasEnd = true) :
    segLoopS splitF (fuel + 1) s =
      segLoopS splitF fuel
        { s with cmds := rest, id := incId s.id, start := p, prev := p, count := 0 } := by
  conv_lhs => unfold segLoopS segLoopSF
  simp only [hsp, hcmds, hl]
  rw [if_neg (fun h => Bool.noConfusion h)]

theorem segLoopS_lineTo_drop (splitF : Nat → QCurve → Option QSegment × List QCurve)
    (fuel : Nat) (s : SegStateS) (p : Vec2) (rest : List Command)
    (hsp : s.splits = []) (hcmds : s.cmds = Command.lineTo p :: rest)
    (hnear : nearlyEq s.prev p = true) :
    segLoopS splitF (fuel + 1) s =
      segLoopS splitF fuel { s with cmds := rest, id := incId s.id } := by
  conv_lhs => unfold segLoopS segLoopSF
  simp only [hsp, hcmds, hnear]
  rw [if_neg (fun h => Bool.noConfusion h)]

theorem segLoopS_close_empty (splitF : Nat → QCurve → Option QSegment × List QCurve)
    (fuel : Nat) (s : SegStateS) (rest : List Command)
    (hsp : s.splits = []) (hcmds : s.cmds = Command.close :: rest) (hcnt : s.count = 0) :
    segLoopS splitF (fuel + 1) s =
      some (QSegment.line (incId s.id) s.prev s.start,
        { s with cmds := rest, id := incId s.id, prev := s.start, close := true }) := by
  conv_lhs => unfold segLoopS segLoopSF
  simp only [hsp, hcmds]
  rw [if_pos (Or.inl hcnt)]

theorem collectS_none (splitF : Nat → QCurve → Option QSegment × List QCurve)
    (fuel : Nat) (s : SegStateS) (acc : List QSegment)
    (h : segNextS splitF (fuel + 1) s = none) :
    collectS splitF (fuel + 1) s acc = (acc, false, true, s) := by
  conv_lhs => unfold collectS
  rw [h]

theorem collectS_end (splitF : Nat → QCurve → Option QSegment × List QCurve)
    (fuel : Nat) (s : SegStateS) (acc : List QSegment) (closed : Bool) (s' : SegStateS)
    (h : segNextS splitF (fuel + 1) s = some (QSegment.segEnd closed, s')) :
    collectS splitF (fuel + 1) s acc = (acc, closed, false, s') := by
  conv_lhs => unfold collectS
  rw [h]

theorem collectS_push (splitF : Nat → QCurve → Option QSegment × List QCurve)
    (fuel : Nat) (s : SegStateS) (acc : List QSegment) (id : Nat) (a b : Vec2)
    (s' : SegStateS)
    (h : segNextS splitF (fuel + 1) s = some (QSegment.line id a b, s')) :
    collectS splitF (fuel + 1) s acc =
      collectS splitF fuel s' (acc ++ [QSegment.line id a b]) := by
  conv_lhs => unfold collectS
  rw [h]

theorem strokeLoop_done (arcF : Vec2 → ℚ → Vec2 → List Command)
    (lengthF : QSegment → ℚ)
    (restF : StrokeCfg → List QSegment → Bool → List Command)
    (splitF : Nat → QCurve → Option QSegment × List QCurve)
    (cfg : StrokeCfg) (fuel : Nat) (s : SegStateS) (buf : List QSegment)
    (closed : Bool) (s' : SegStateS)
    (h : collectS splitF (fuel + 1) s [] = (buf, closed, true, s')) :
    strokeLoop arcF lengthF restF splitF cfg (fuel + 1) s =
      strokeSegs arcF lengthF restF cfg buf closed := by
  conv_lhs => unfold strokeLoop
  rw [h]
  rfl

theorem strokeLoop_more (arcF : Vec2 → ℚ → Vec2 → List Command)
    (lengthF : QSegment → ℚ)
    (restF : StrokeCfg → List QSegment → Bool → List Command)
    (splitF : Nat → QCurve → Option QSegment × List QCurve)
    (cfg : StrokeCfg) (fuel : Nat) (s : SegStateS) (buf : List QSegment)
    (closed : Bool) (s' : SegStateS)
    (h : collectS splitF (fuel + 1) s [] = (buf, closed, false, s')) :
    strokeLoop arcF lengthF restF splitF cfg (fuel + 1) s =
      strokeSegs arcF lengthF restF cfg buf closed ++
        strokeLoop arcF lengthF restF splitF cfg fuel s' := by
  conv_lhs => unfold strokeLoop
  rw [h]
  rfl

theorem strokeSegs_single_dot (arcF : Vec2 → ℚ → Vec2 → List Command)
    (lengthF : QSegment → ℚ)
    (restF : StrokeCfg → List QSegment → Bool → List Command)
    (cfg : StrokeCfg) (seg : QSegment) (isClosed : Bool)
    (h : lengthF seg = 0 ∧ (cfg.startCap ≠ Cap.butt ∨ cfg.endCap ≠ Cap.butt)) :
    strokeSegs arcF lengthF restF cfg [seg] isClosed = dotCmds arcF cfg (segFrom seg) := by
  show (if lengthF seg = 0 ∧ (cfg.startCap ≠ Cap.butt ∨ cfg.endCap ≠ Cap.butt) then
    dotCmds arcF cfg (segFrom seg) else restF cfg [seg] isClosed) = dotCmds arcF cfg (segFrom seg)
  rw [if_pos h]

theorem strokeSegs_single_rest (arcF : Vec2 → ℚ → Vec2 → List Command)
    (lengthF : QSegment → ℚ)
    (restF : StrokeCfg → List QSegment → Bool → List Command)
    (cfg : StrokeCfg) (seg : QSegment) (isClosed : Bool)
    (h : ¬(lengthF seg = 0 ∧ (cfg.startCap ≠ Cap.butt ∨ cfg.endCap ≠ Cap.butt))) :
    strokeSegs arcF lengthF restF cfg [seg] isClosed = restF cfg [seg] isClosed := by
  show (if lengthF seg = 0 ∧ (cfg.startCap ≠ Cap.butt ∨ cfg.endCap ≠ Cap.butt) then
    dotCmds arcF cfg (segFrom seg) else restF cfg [seg] isClosed) = restF cfg [seg] isClosed
  rw [if_neg h]

/-- Stroking `[MoveTo(50,50), LineTo(50,50)]` emits nothing, for every
arc model, length model, curve-split model and general outline pass:
the segment iterator drops the zero-length `LineTo`, so the stroker
collects an empty segment buffer and `stroke_segments` returns before
reaching the dot branch. -/
theorem strokeRun_moveLine5050_empty
    (arcF : Vec2 → ℚ → Vec2 → List Command) (lengthF : QSegment → ℚ)
    (restF : StrokeCfg → List QSegment → Bool → List Command)
    (splitF : Nat → QCurve → Option QSegment × List QCurve) :
    strokeRun arcF lengthF restF splitF
      (strokerNew 20 4 Join.round Cap.round Cap.round)
      [Command.moveTo ⟨50, 50⟩, Command.lineTo ⟨50, 50⟩] = [] := by
  have hne : nearlyEq (⟨50, 50⟩ : Vec2) ⟨50, 50⟩ = true := by
    simp only [nearlyEq, Bool.and_eq_true, decide_eq_true_eq]
    norm_num
  have h1 : segLoopS splitF (4 + 1 + 1)
      (segInitS [Command.moveTo ⟨50, 50⟩, Command.lineTo ⟨50, 50⟩]) =
      segLoopS splitF (4 + 1)
        (⟨[Command.lineTo ⟨50, 50⟩], ⟨50, 50⟩, ⟨50, 50⟩, false, true, 1, 0, []⟩ : SegStateS) :=
    segLoopS_moveTo_fresh splitF (4 + 1)
      (segInitS [Command.moveTo ⟨50, 50⟩, Command.lineTo ⟨50, 50⟩])
      ⟨50, 50⟩ [Command.lineTo ⟨50, 50⟩] rfl rfl rfl
  have h2 : segLoopS splitF (4 + 1)
      (⟨[Command.lineTo ⟨50, 50⟩], ⟨50, 50⟩, ⟨50, 50⟩, false, true, 1, 0, []⟩ : SegStateS) =
      segLoopS splitF 4
        (⟨[], ⟨50, 50⟩, ⟨50, 50⟩, false, true, 2, 0, []⟩ : SegStateS) :=
    segLoopS_lineTo_drop splitF 4
      (⟨[Command.lineTo ⟨50, 50⟩], ⟨50, 50⟩, ⟨50, 50⟩, false, true, 1, 0, []⟩ : SegStateS)
      ⟨50, 50⟩ [] rfl rfl hne
  have h3 : segLoopS splitF 4
      (⟨[], ⟨50, 50⟩, ⟨50, 50⟩, false, true, 2, 0, []⟩ : SegStateS) = none :=
    segLoopS_nil splitF 4 _ rfl rfl
  have hnone : segNextS splitF (4 + 1 + 1)
      (segInitS [Command.moveTo ⟨50, 50⟩, Command.lineTo ⟨50, 50⟩]) = none := by
    rw [segNextS_noflush splitF (4 + 1 + 1)
      (segInitS [Command.moveTo ⟨50, 50⟩, Command.lineTo ⟨50, 50⟩]) rfl, h1, h2, h3]
  have hcol : collectS splitF (4 + 1 + 1)
      (segInitS [Command.moveTo ⟨50, 50⟩, Command.lineTo ⟨50, 50⟩]) [] =
      ([], false, true, segInitS [Command.moveTo ⟨50, 50⟩, Command.lineTo ⟨50, 50⟩]) :=
    collectS_none splitF (4 + 1)
      (segInitS [Command.moveTo ⟨50, 50⟩, Command.lineTo ⟨50, 50⟩]) [] hnone
  show strokeLoop arcF lengthF restF splitF (strokerNew 20 4 Join.round Cap.round Cap.round)
    (4 + 1 + 1) (segInitS [Command.moveTo ⟨50, 50⟩, Command.lineTo ⟨50, 50⟩]) = []
  rw [strokeLoop_done arcF lengthF restF splitF (strokerNew 20 4 Join.round Cap.round Cap.round)
    (4 + 1) (segInitS [Command.moveTo ⟨50, 50⟩, Command.lineTo ⟨50, 50⟩]) [] false
    (segInitS [Command.moveTo ⟨50, 50⟩, Command.lineTo ⟨50, 50⟩]) hcol]
  rfl

/-- C2 (amended): the zero-length `LineTo` of the claim's S4 path never
reaches the stroker (see the counterexample), so that path draws
nothing.  The dot branch fires when a single zero-length segment
actually arrives in the collected buffer — as from `[MoveTo p, Close]`,
whose empty-subpath `Close` emits `Line(p, p)` — with at least one
non-Butt cap: the stroker then emits `move_to(p + (0, radius))`
followed by the end cap from `p + (0, radius)` to `p - (0, radius)` and
the start cap back (two 180-degree arcs for Round caps, squares for
Square caps).  With both caps Butt the same buffer instead falls
through to the general outline pass — it does not emit nothing. -/
theorem stroke_C2_amended
    (arcF : Vec2 → ℚ → Vec2 → List Command) (lengthF : QSegment → ℚ)
    (restF : StrokeCfg → List QSegment → Bool → List Command)
    (splitF : Nat → QCurve → Option QSegment × List QCurve)
    (w ml : ℚ) (j : Join) (sc ec : Cap) (p : Vec2)
    (hlen : lengthF (QSegment.line 2 p p) = 0)
    (hcap : sc ≠ Cap.butt ∨ ec ≠ Cap.butt) :
    strokeRun arcF lengthF restF splitF (strokerNew w ml j sc ec)
        [Command.moveTo p, Command.close] =
      dotCmds arcF (strokerNew w ml j sc ec) p ∧
    strokeRun arcF lengthF restF splitF (strokerNew w ml j Cap.butt Cap.butt)
        [Command.moveTo p, Command.close] =
      restF (strokerNew w ml j Cap.butt Cap.butt) [QSegment.line 2 p p] true := by
  have h1 : segLoopS splitF (4 + 1 + 1) (segInitS [Command.moveTo p, Command.close]) =
      segLoopS splitF (4 + 1)
        (⟨[Command.close], p, p, false, true, 1, 0, []⟩ : SegStateS) :=
    segLoopS_moveTo_fresh splitF (4 + 1) (segInitS [Command.moveTo p, Command.close])
      p [Command.close] rfl rfl rfl
  have h2 : segLoopS splitF (4 + 1)
      (⟨[Command.close], p, p, false, true, 1, 0, []⟩ : SegStateS) =
      some (QSegment.line 2 p p, (⟨[], p, p, true, true, 2, 0, []⟩ : SegStateS)) :=
    segLoopS_close_empty splitF 4
      (⟨[Command.close], p, p, false, true, 1, 0, []⟩ : SegStateS) [] rfl rfl rfl
  have hstep1 : segNextS splitF (4 + 1 + 1) (segInitS [Command.moveTo p, Command.close]) =
      some (QSegment.line 2 p p, (⟨[], p, p, true, true, 2, 0, []⟩ : SegStateS)) := by
    rw [segNextS_noflush splitF (4 + 1 + 1) (segInitS [Command.moveTo p, Command.close]) rfl,
      h1, h2]
  have hstep2 : segNextS splitF (4 + 1) (⟨[], p, p, true, true, 2, 0, []⟩ : SegStateS) =
      some (QSegment.segEnd true, (⟨[], p, p, false, true, 2, 0, []⟩ : SegStateS)) :=
    segNextS_flush splitF (4 + 1) (⟨[], p, p, true, true, 2, 0, []⟩ : SegStateS) rfl
  have hbuf : collectS splitF (4 + 1 + 1) (segInitS [Command.moveTo p, Command.close]) [] =
      ([QSegment.line 2 p p], true, false, (⟨[], p, p, false, true, 2, 0, []⟩ : SegStateS)) := by
    rw [collectS_push splitF (4 + 1) (segInitS [Command.moveTo p, Command.close]) [] 2 p p
      (⟨[], p, p, true, true, 2, 0, []⟩ : SegStateS) hstep1]
    exact collectS_end splitF 4 (⟨[], p, p, true, true, 2, 0, []⟩ : SegStateS)
      ([] ++ [QSegment.line 2 p p]) true (⟨[], p, p, false, true, 2, 0, []⟩ : SegStateS) hstep2
  have hrest : ∀ cfg, strokeLoop arcF lengthF restF splitF cfg (4 + 1)
      (⟨[], p, p, false, true, 2, 0, []⟩ : SegStateS) = [] := by
    intro cfg
    rw [strokeLoop_done arcF lengthF restF splitF cfg 4
      (⟨[], p, p, false, true, 2, 0, []⟩ : SegStateS) [] false
      (⟨[], p, p, false, true, 2, 0, []⟩ : SegStateS)
      (collectS_none splitF 4 (⟨[], p, p, false, true, 2, 0, []⟩ : SegStateS) [] (by
        rw [segNextS_noflush splitF (4 + 1) (⟨[], p, p, false, true, 2, 0, []⟩ : SegStateS) rfl]
        exact segLoopS_nil splitF (4 + 1) (⟨[], p, p, false, true, 2, 0, []⟩ : SegStateS) rfl rfl))]
    rfl
  constructor
  · show strokeLoop arcF lengthF restF splitF (strokerNew w ml j sc ec) (4 + 1 + 1)
      (segInitS [Command.moveTo p, Command.close]) = dotCmds arcF (strokerNew w ml j sc ec) p
    rw [strokeLoop_more arcF lengthF restF splitF (strokerNew w ml j sc ec) (4 + 1)
        (segInitS [Command.moveTo p, Command.close]) [QSegment.line 2 p p] true
        (⟨[], p, p, false, true, 2, 0, []⟩ : SegStateS) hbuf,
      hrest, List.append_nil,
      strokeSegs_single_dot arcF lengthF restF (strokerNew w ml j sc ec)
        (QSegment.line 2 p p) true ⟨hlen, hcap⟩]
    rfl
  · show strokeLoop arcF lengthF restF splitF (strokerNew w ml j Cap.butt Cap.butt) (4 + 1 + 1)
      (segInitS [Command.moveTo p, Command.close]) =
      restF (strokerNew w ml j Cap.butt Cap.butt) [QSegment.line 2 p p] true
    rw [strokeLoop_more arcF lengthF restF splitF (strokerNew w ml j Cap.butt Cap.butt) (4 + 1)
        (segInitS [Command.moveTo p, Command.close]) [QSegment.line 2 p p] true
        (⟨[], p, p, false, true, 2, 0, []⟩ : SegStateS) hbuf,
      hrest, List.append_nil,
      strokeSegs_single_rest arcF lengthF restF (strokerNew w ml j Cap.butt Cap.butt)
        (QSegment.line 2 p p) true (by
          rintro ⟨-, hc | hc⟩ <;> exact hc rfl)]

/-- C2 counterexample: stroking the claim's S4 path
`[MoveTo(50,50), LineTo(50,50)]` (width 20, Round caps) emits nothing
at all — here with a general outline pass that would emit a visible
command if it were ever reached.  The segment iterator drops the
zero-length `LineTo` (its target is within `MERGE_EPSILON` of the
current point, segment.rs 614), so the stroker sees an empty segment
stream and `stroke_segments` returns before reaching the dot branch:
no dot is produced. -/
theorem stroke_claimC2_counterexample :
    strokeRun (fun f _ t => [Command.moveTo f, Command.lineTo t]) (fun _ => 0)
      (fun _ _ _ => [Command.close]) (fun _ _ => (none, []))
      (strokerNew 20 4 Join.round Cap.round Cap.round)
      [Command.moveTo ⟨50, 50⟩, Command.lineTo ⟨50, 50⟩] = [] :=
  strokeRun_moveLine5050_empty (fun f _ t => [Command.moveTo f, Command.lineTo t])
    (fun _ => 0) (fun _ _ _ => [Command.close]) (fun _ _ => (none, []))

theorem stroke_C2_amended_witness :
    strokeRun (fun _ _ t => [Command.lineTo t]) (fun _ => 0) (fun _ _ _ => [])
        (fun _ _ => (none, [])) (strokerNew 20 4 Join.round Cap.round Cap.round)
        [Command.moveTo ⟨50, 50⟩, Command.close] =
      dotCmds (fun _ _ t => [Command.lineTo t])
        (strokerNew 20 4 Join.round Cap.round Cap.round) ⟨50, 50⟩ ∧
    strokeRun (fun _ _ t => [Command.lineTo t]) (fun _ => 0) (fun _ _ _ => [])
        (fun _ _ => (none, [])) (strokerNew 20 4 Join.round Cap.butt Cap.butt)
        [Command.moveTo ⟨50, 50⟩, Command.close] = [] :=
  stroke_C2_amended (fun _ _ t => [Command.lineTo t]) (fun _ => 0) (fun _ _ _ => [])
    (fun _ _ => (none, [])) 20 4 Join.round Cap.round Cap.round ⟨50, 50⟩ rfl
    (Or.inl (fun h => Cap.noConfusion h))


/-! ### C6: the Miter join -/

/-- Source: geometry.rs, `Vector::dot`. -/
def vdot (a b : Vec2) : ℚ := a.x * b.x + a.y * b.y

/-- Source: geometry.rs, `Vector::nearly_eq`: per-component comparison
against the standard `f32::EPSILON = 2^-23`. -/
def nearlyEqEps (a b : Vec2) : Bool :=
  decide (|a.x - b.x| < 1 / 2 ^ 23) && decide (|a.y - b.y| < 1 / 2 ^ 23)

/-- Source: stroke.rs, `is_clockwise`: `a.x * b.y > a.y * b.x`. -/
def isClockwise (a b : Vec2) : Bool :=
  decide (a.x * b.y > a.y * b.x)

/-- Source: geometry.rs, `Vector::normalize`, with `sqrtF` abstracting
the `f32` square root inside `length`: the zero-length vector maps to
zero, otherwise the vector is scaled by the inverse length. -/
def vnormalize (sqrtF : ℚ → ℚ) (v : Vec2) : Vec2 :=
  let len := sqrtF (v.x * v.x + v.y * v.y)
  if len = 0 then ⟨0, 0⟩ else vmuls v (1 / len)

/-- Source: stroke.rs, `Stroker::add_join`: nearly coincident points
emit nothing; a counterclockwise turn emits the pivot and then the
target (inner join); otherwise the configured join runs — `arcF`
abstracts `geometry::arc` for Round joins and `sqrtF` the `f32` square
root.  The result pairs the emitted `line_to` commands with the
returned point. -/
def addJoin (arcF : Vec2 → ℚ → Vec2 → List Command) (sqrtF : ℚ → ℚ)
    (cfg : StrokeCfg) (f t pivot n1 n2 : Vec2) : List Command × Vec2 :=
  if nearlyEqEps f t then ([], f)
  else if isClockwise n1 n2 = false then ([Command.lineTo pivot, Command.lineTo t], t)
  else
    match cfg.join with
    | Join.bevel => ([Command.lineTo t], t)
    | Join.round => (arcF f cfg.radiusAbs t, t)
    | Join.miter =>
      let dot := vdot n1 n2
      let sinHalf := sqrtF ((1 + dot) * (1 / 2))
      if sinHalf < cfg.invMiterLimit then ([Command.lineTo t], t)
      else
        let mid := vmuls (vnormalize sqrtF (vadd n1 n2)) (cfg.radius / sinHalf)
        ([Command.lineTo (vadd pivot mid), Command.lineTo t], t)

/-- C6: for a convex (clockwise) Miter join between non-coincident
offset points with end-normal `n1` and start-normal `n2`, the stroker
computes `sin_half = sqrt((1 + n1·n2) * 0.5)`; if `sin_half` is below
the inverse miter limit it falls back to a Bevel (a single line to the
next start point), otherwise it emits the miter point
`pivot + normalize(n1 + n2) * (radius / sin_half)` before the line to
the next start; a configured miter limit below 1 behaves as limit 1
(`inv_miter_limit = 1`), and one of at least 1 gives
`inv_miter_limit = 1 / limit`; whenever the normalized bisector is a
unit vector, the emitted miter point lies at squared distance
`(radius / sin_half)^2` from the pivot (the shared source vertex). -/
theorem miter_join_C6
    (arcF : Vec2 → ℚ → Vec2 → List Command) (sqrtF : ℚ → ℚ)
    (w ml : ℚ) (sc ec : Cap) (f t pivot n1 n2 : Vec2)
    (hne : nearlyEqEps f t = false) (hcw : isClockwise n1 n2 = true) :
    ((ml < 1 → (strokerNew w ml Join.miter sc ec).invMiterLimit = 1) ∧
     (1 ≤ ml → (strokerNew w ml Join.miter sc ec).invMiterLimit = 1 / ml)) ∧
    (sqrtF ((1 + vdot n1 n2) * (1 / 2)) < (strokerNew w ml Join.miter sc ec).invMiterLimit →
      addJoin arcF sqrtF (strokerNew w ml Join.miter sc ec) f t pivot n1 n2 =
        ([Command.lineTo t], t)) ∧
    (¬ sqrtF ((1 + vdot n1 n2) * (1 / 2)) < (strokerNew w ml Join.miter sc ec).invMiterLimit →
      addJoin arcF sqrtF (strokerNew w ml Join.miter sc ec) f t pivot n1 n2 =
        ([Command.lineTo (vadd pivot (vmuls (vnormalize sqrtF (vadd n1 n2))
            ((strokerNew w ml Join.miter sc ec).radius / sqrtF ((1 + vdot n1 n2) * (1 / 2))))),
          Command.lineTo t], t)) ∧
    (∀ s : ℚ, vdot (vnormalize sqrtF (vadd n1 n2)) (vnormalize sqrtF (vadd n1 n2)) = 1 →
      vdot (vsub (vadd pivot (vmuls (vnormalize sqrtF (vadd n1 n2)) s)) pivot)
        (vsub (vadd pivot (vmuls (vnormalize sqrtF (vadd n1 n2)) s)) pivot) = s ^ 2) := by
  refine ⟨⟨?_, ?_⟩, ?_, ?_, ?_⟩
  · intro h
    simp only [strokerNew]
    rw [if_neg (not_le.mpr h)]
  · intro h
    simp only [strokerNew]
    rw [if_pos h]
  · intro h
    simp only [addJoin, hne, hcw]
    rw [if_neg (fun hb => Bool.noConfusion hb),
      if_neg (fun hb => Bool.noConfusion hb)]
    show (if sqrtF ((1 + vdot n1 n2) * (1 / 2)) <
        (strokerNew w ml Join.miter sc ec).invMiterLimit then
        ([Command.lineTo t], t) else _) = ([Command.lineTo t], t)
    rw [if_pos h]
  · intro h
    simp only [addJoin, hne, hcw]
    rw [if_neg (fun hb => Bool.noConfusion hb),
      if_neg (fun hb => Bool.noConfusion hb)]
    show (if sqrtF ((1 + vdot n1 n2) * (1 / 2)) <
        (strokerNew w ml Join.miter sc ec).invMiterLimit then ([Command.lineTo t], t) else
        ([Command.lineTo (vadd pivot (vmuls (vnormalize sqrtF (vadd n1 n2))
            ((strokerNew w ml Join.miter sc ec).radius / sqrtF ((1 + vdot n1 n2) * (1 / 2))))),
          Command.lineTo t], t)) = _
    rw [if_neg h]
  · intro s hu
    simp only [vdot, vadd, vsub, vmuls] at hu ⊢
    ring_nf
    ring_nf at hu
    linear_combination s ^ 2 * hu

theorem miter_join_C6_witness :
    addJoin (fun _ _ u => [Command.lineTo u])
        (fun q => if q = 1 / 4 then 1 / 2 else 1)
        (strokerNew 20 4 Join.miter Cap.butt Cap.butt)
        ⟨0, 0⟩ ⟨1, 0⟩ ⟨0, 0⟩ ⟨1, 0⟩ ⟨-1 / 2, 7 / 8⟩ =
      ([Command.lineTo (vadd ⟨0, 0⟩ (vmuls
          (vnormalize (fun q => if q = 1 / 4 then 1 / 2 else 1) (vadd ⟨1, 0⟩ ⟨-1 / 2, 7 / 8⟩))
          ((strokerNew 20 4 Join.miter Cap.butt Cap.butt).radius /
            (fun q => if q = 1 / 4 then 1 / 2 else 1)
              ((1 + vdot ⟨1, 0⟩ ⟨-1 / 2, 7 / 8⟩) * (1 / 2))))),
        Command.lineTo ⟨1, 0⟩], (⟨1, 0⟩ : Vec2)) :=
  (miter_join_C6 (fun _ _ u => [Command.lineTo u])
      (fun q => if q = 1 / 4 then 1 / 2 else 1) 20 4 Cap.butt Cap.butt
      ⟨0, 0⟩ ⟨1, 0⟩ ⟨0, 0⟩ ⟨1, 0⟩ ⟨-1 / 2, 7 / 8⟩
      (by simp only [nearlyEqEps, Bool.and_eq_false_iff, decide_eq_false_iff_not]
          left
          norm_num)
      (by simp only [isClockwise, decide_eq_true_eq]
          norm_num)).2.2.1
    (by
      simp only [strokerNew, vdot]
      norm_num)

end Zeno
